import Mathlib

/-! # eolymp/polyglot-cli : `cmd/eolymp-polyglot/main.go`

A shallow embedding of the import path of the tool: the classifier
(`MakeVerifier`, `MakeInteractor`), the scoring of a test group, the statement
locale backfill, the retry wrappers around the remote mutations, and
`ImportProblem` itself, which reconciles testsets, tests, statements and
solutions of a remote problem with the parsed `problem.xml`.

Conventions of the embedding.

* A Go `error` is a `String`; a call ends with a value or with a `Fault`
  (a returned error, a run-time panic, or `os.Exit`).
* The remote services (`atl`, `kpr`, `tw`) are an oracle `Env.remote` that maps
  the calls made so far and the current call to its outcome.  Code that talks to
  the remote is a function from the trace of calls made so far to a result and
  the extended trace (`M`).  `time.Sleep` and `log.Printf` have no effect on
  results and are left out.
* A Go `map` is an association list with distinct keys (`AList`); `range` over
  a map visits the entries in the order `Env.rangeOrder` picks, since Go leaves
  that order unspecified.
* `uint32`/`uint64` values are `Nat`, `int`/`int32` values are `Int`, with the
  wrap-around of a conversion written out (`toInt32`, `toUint32`, `toUint64`).
  `float32` values are rationals: the only arithmetic on them in this file is
  the conversion of an `int` between 0 and 101, which is exact.
* A key `fmt.Sprint(a, "/", b)` of two integers is the pair `(a, b)`: the
  decimal rendering of a pair of integers around a slash is injective.
-/

namespace Polyglot

/-! ## Data model -/

/-- A Go `error` value, identified with its message. -/
abbrev Error := String

/-- The abnormal ways a Go call can end. -/
inductive Fault where
  | error (err : Error)
  | panic (msg : String)
  | exit (code : Int)
deriving DecidableEq, Repr

deriving instance DecidableEq for Except

/-- Modelled from the spec: the type `SpecificationSource` is declared outside
`main.go`; a source file has a path and a source-file type tag. -/
structure SpecificationSource where
  Path : String
  Type_ : String
deriving DecidableEq, Repr

/-- Modelled from the spec: `Specification.Checker`, declared outside `main.go`. -/
structure SpecificationChecker where
  Name : String
  Sources : List SpecificationSource
deriving DecidableEq, Repr

/-- Modelled from the spec: `Specification.Interactor`, declared outside `main.go`. -/
structure SpecificationInteractor where
  Sources : List SpecificationSource
deriving DecidableEq, Repr

/-- Modelled from the spec: an entry of `Specification.Files`, declared outside
`main.go`; only `file.Source.Path` is read. -/
structure SpecificationFile where
  Source : SpecificationSource
deriving DecidableEq, Repr

/-- Modelled from the spec: `SpecificationStatement`, declared outside `main.go`. -/
structure SpecificationStatement where
  Language : String
  Type_ : String
  Path : String
deriving DecidableEq, Repr

/-- Modelled from the spec: `SpecificationSolution`, declared outside `main.go`. -/
structure SpecificationSolution where
  Language : String
  Type_ : String
  Path : String
deriving DecidableEq, Repr

/-- Modelled from the spec: an entry of `SpecificationGroup.Dependencies`,
declared outside `main.go`. -/
structure SpecificationDependency where
  Group : Nat
deriving DecidableEq, Repr

/-- Modelled from the spec: `SpecificationGroup`, declared outside `main.go`;
`Name` is a `uint32`, `Points` a `float32`. -/
structure SpecificationGroup where
  FeedbackPolicy : String
  Name : Nat
  Points : ℚ
  PointsPolicy : String
  Dependencies : List SpecificationDependency
deriving DecidableEq, Repr

/-- Modelled from the spec: `SpecificationTest`, declared outside `main.go`;
`Group` is a `uint32`, `Points` a `float32`. -/
structure SpecificationTest where
  Method : String
  Sample : Bool
  Points : ℚ
  Group : Nat
deriving DecidableEq, Repr

/-- Modelled from the spec: `SpecificationTestset`, declared outside `main.go`. -/
structure SpecificationTestset where
  TimeLimit : Int
  MemoryLimit : Int
  InputPathPattern : String
  AnswerPathPattern : String
  Groups : List SpecificationGroup
  Tests : List SpecificationTest
deriving DecidableEq, Repr

/-- Modelled from the spec: `Specification.Judging`, declared outside `main.go`. -/
structure SpecificationJudging where
  Testsets : List SpecificationTestset
deriving DecidableEq, Repr

/-- Modelled from the spec: `Specification`, the parsed `problem.xml`, declared
outside `main.go`; the fields are the ones `main.go` reads. -/
structure Specification where
  Checker : SpecificationChecker
  Interactor : SpecificationInteractor
  Files : List SpecificationFile
  Statements : List SpecificationStatement
  Solutions : List SpecificationSolution
  Judging : SpecificationJudging
deriving DecidableEq, Repr

/-- Modelled from the spec: `PolygonProblemProperties`, the decoded
`problem-properties.json`, declared outside `main.go`. -/
structure PolygonProblemProperties where
  Name : String
  Legend : String
  Input : String
  Interaction : String
  Output : String
  Notes : String
  Scoring : String
  AuthorName : String
  Solution : String
deriving DecidableEq, Repr

/-- The values of `executor.Verifier_Type` used by `main.go`; `NONE` is the zero value. -/
inductive VerifierType where
  | NONE
  | TOKENS
  | LINES
  | PROGRAM
deriving DecidableEq, Repr

/-- The message `executor.Verifier`. -/
structure Verifier where
  Type_ : VerifierType
  Precision : Int
  CaseSensitive : Bool
  Source : String
  Lang : String
deriving DecidableEq, Repr

/-- The message `executor.Interactor`. -/
structure Interactor where
  Source : String
  Lang : String
deriving DecidableEq, Repr

/-- The values of `atlas.ScoringMode` used by `main.go`; `other` stands for the
values the remote may hold and `main.go` never writes. -/
inductive ScoringMode where
  | EACH
  | ALL
  | other (n : Nat)
deriving DecidableEq, Repr

/-- The values of `atlas.FeedbackPolicy`. -/
inductive FeedbackPolicy where
  | COMPLETE
  | ICPC
  | ICPC_EXPANDED
deriving DecidableEq, Repr

/-- The message `atlas.Testset`, with the fields `main.go` touches. -/
structure Testset where
  Id : String
  Index : Nat
  TimeLimit : Nat
  MemoryLimit : Nat
  FileSizeLimit : Nat
  ScoringMode : ScoringMode
  FeedbackPolicy : FeedbackPolicy
  Dependencies : List Nat
deriving DecidableEq, Repr

/-- The message `atlas.Test`, with the fields `main.go` touches. -/
structure Test where
  Id : String
  Index : Int
  Example : Bool
  Score : ℚ
  InputObjectId : String
  AnswerObjectId : String
deriving DecidableEq, Repr

/-- The values of `atlas.Statement_Format` and `atlas.Solution_Format`: `TEX`
is the one `main.go` writes. -/
inductive Format where
  | TEX
  | other (n : Nat)
deriving DecidableEq, Repr

/-- The message `atlas.Statement`, with the fields `main.go` touches. -/
structure Statement where
  Id : String
  Locale : String
  Title : String
  Content : String
  Format : Format
  Author : String
  Source : String
deriving DecidableEq, Repr

/-- The message `atlas.Solution`, with the fields `main.go` touches. -/
structure Solution where
  Id : String
  Locale : String
  Content : String
  Format : Format
deriving DecidableEq, Repr

/-- The message `atlas.Template`. -/
structure Template where
  Id : String
  ProblemId : String
  Runtime : String
  Source : String
deriving DecidableEq, Repr

/-- A request sent to a remote service: the methods of `atl` (Atlas), the
`CreateObject` of the keeper and the `UploadAsset` of the typewriter. -/
inductive Call where
  | CreateProblem
  | ListStatements (problemId : String)
  | ListSolutions (problemId : String)
  | ListTestsets (problemId : String)
  | ListTests (testsetId : String)
  | ListCodeTemplates (problemId : String)
  | DeleteCodeTemplate (templateId : String)
  | CreateCodeTemplate (problemId : String) (template : Template)
  | UpdateVerifier (problemId : String) (verifier : Verifier)
  | UpdateInteractor (problemId : String) (interactor : Interactor)
  | CreateTestset (problemId : String) (testset : Testset)
  | UpdateTestset (testsetId : String) (testset : Testset)
  | DeleteTestset (testsetId : String)
  | CreateTest (testsetId : String) (test : Test)
  | UpdateTest (testId : String) (test : Test)
  | DeleteTest (testId : String)
  | CreateStatement (problemId : String) (statement : Statement)
  | UpdateStatement (statementId : String) (statement : Statement)
  | DeleteStatement (statementId : String)
  | CreateSolution (problemId : String) (solution : Solution)
  | UpdateSolution (solutionId : String) (solution : Solution)
  | DeleteSolution (solutionId : String)
  | CreateObject (data : String)
  | UploadAsset (filename : String) (data : String)
deriving DecidableEq, Repr

/-- The output message of a remote call.  `Id` holds the identifier a call
returns (`ProblemId`, `Id`, `SolutionId`, the `Key` of an object, the `Link` of
an asset); the lists hold the `Items` of the list calls. -/
structure Reply where
  Id : String
  Statements : List Statement
  Solutions : List Solution
  Testsets : List Testset
  Tests : List Test
  Templates : List Template
deriving DecidableEq, Repr

/-- The output message with every field at its zero value. -/
def Reply.empty : Reply := ⟨"", [], [], [], [], []⟩

/-- Everything outside the program: the remote services, the file system, the
library functions whose results the program only passes on, the configuration,
and the iteration order of Go maps. -/
structure Env where
  /-- Outcome of a remote call, given the calls made before it. -/
  remote : List Call → Call → Except Error Reply
  /-- The function `ioutil.ReadFile`. -/
  readFile : String → Except Error String
  /-- The error of `os.Stat` when it satisfies `os.IsNotExist`. -/
  statNotExist : String → Option Error
  /-- The file `problem.xml`: `os.Open`, then the XML decoder. -/
  openSpec : String → Except Error (Except Error Specification)
  /-- The function `filepath.Join`. -/
  join : List String → String
  /-- The function `filepath.Dir`. -/
  dir : String → String
  /-- The function `fmt.Sprintf` with one integer argument. -/
  sprintf : String → Int → String
  /-- The function `json.Unmarshal` into `PolygonProblemProperties`. -/
  unmarshal : String → Except Error PolygonProblemProperties
  /-- Names of the files `filepath.Walk` visits under a directory; `none` is a
  visit that reports an error and no file information. -/
  walk : String → List (Option String)
  /-- The function `regexp.Match`. -/
  regexpMatch : String → String → Except Error Bool
  /-- The function `strings.Contains`. -/
  contains : String → String → Bool
  /-- The function `strings.ReplaceAll`. -/
  replaceAll : String → String → String → String
  /-- The setting `conf.Source`. -/
  source : String
  /-- The order in which `range` visits the entries of a Go map. -/
  rangeOrder : {α : Type} → List α → List α

/-- A Go map with keys `K` and values `V`. -/
abbrev GoMap (K V : Type) := AList (fun _ : K => V)

/-- The entries of a map in the order a `range` loop visits them. -/
def rangeMap {K V : Type} (env : Env) (m : GoMap K V) : List (K × V) :=
  (env.rangeOrder m.entries).map (fun e => (e.1, e.2))

/-- An environment ranges faithfully when every `range` visits each entry of
the map once: the visiting order is a permutation of the entries. -/
def Env.RangesArePerms (env : Env) : Prop :=
  ∀ (α : Type) (l : List α), (env.rangeOrder l).Perm l

/-- Conversion of a Go `int` to `int32`. -/
def toInt32 (x : Int) : Int := Int.bmod x (2 ^ 32)

/-- Conversion of a Go `int` to `uint32`. -/
def toUint32 (x : Int) : Nat := (x % 2 ^ 32).toNat

/-- Conversion of a Go `int` to `uint64`. -/
def toUint64 (x : Int) : Nat := (x % 2 ^ 64).toNat

/-- The constant `RepeatNumber`. -/
def RepeatNumber : Nat := 10

/-! ## Calls to the remote, with a trace -/

/-- A computation that talks to the remote: it receives the calls made so far
and returns its result with the calls made so far after it. -/
def M (α : Type) : Type := List Call → Except Fault α × List Call

/-- Return a value without calling the remote. -/
def M.pure {α : Type} (a : α) : M α := fun t => (.ok a, t)

/-- Run `m`, then `f` on its value; a fault of `m` ends the computation. -/
def M.bind {α β : Type} (m : M α) (f : α → M β) : M β := fun t =>
  match m t with
  | (.ok a, t1) => f a t1
  | (.error e, t1) => (.error e, t1)

instance : Monad M where
  pure := M.pure
  bind := M.bind

/-- End the computation with a fault. -/
def M.fail {α : Type} (e : Fault) : M α := fun t => (.error e, t)

/-- Lift a result that needs no remote call. -/
def M.lift {α : Type} (r : Except Fault α) : M α := fun t => (r, t)

/-- One remote call: the call is appended to the trace, its outcome is the
one the remote gives after the calls made so far. -/
def call (env : Env) (c : Call) : M Reply := fun t =>
  match env.remote t c with
  | .ok r => (.ok r, t ++ [c])
  | .error e => (.error (.error e), t ++ [c])

/-- One remote call whose error is dropped (`_, _ = atl.X(...)`): the output
is nil, read as the zero message, when the call fails. -/
def callIgnore (env : Env) (c : Call) : M Reply := fun t =>
  match env.remote t c with
  | .ok r => (.ok r, t ++ [c])
  | .error _ => (.ok Reply.empty, t ++ [c])

/-- A file read, whose error is the returned error of the caller. -/
def readFileE (env : Env) (p : String) : Except Fault String :=
  match env.readFile p with
  | .ok d => .ok d
  | .error e => .error (.error e)

/-! ## Classifier -/

/-- Modelled from the spec: `SourceByType` is declared outside `main.go`.  It
looks among the available sources for one whose source-file type tag is among
the accepted tags, and reports whether there is one. -/
def SourceByType (sources : List SpecificationSource) (types : List String) :
    Option SpecificationSource :=
  sources.find? (fun s => decide (s.Type_ ∈ types))

/-- The entries of the map literal `mapping` of `MakeVerifier`. -/
def verifierMapping : List (String × List String) :=
  [("gpp", ["c.gcc", "cpp.g++", "cpp.g++11", "cpp.g++14", "cpp.g++17", "cpp.ms",
            "cpp.msys2-mingw64-9-g++17"]),
   ("csharp", ["csharp.mono"]),
   ("d", ["d"]),
   ("go", ["go"]),
   ("java", ["java11", "java8"]),
   ("kotlin", ["kotlin"]),
   ("fpc", ["pas.dpr", "pas.fpc"]),
   ("php", ["php.5"]),
   ("python", ["python.2", "python.3"]),
   ("pypy", ["python.pypy2", "python.pypy3"]),
   ("ruby", ["ruby"]),
   ("rust", ["rust"])]

/-- The entries of the map literal `mapping` of `MakeInteractor`. -/
def interactorMapping : List (String × List String) :=
  [("gpp", ["c.gcc", "cpp.g++", "cpp.g++11", "cpp.g++14", "cpp.g++17", "cpp.ms"]),
   ("csharp", ["csharp.mono"]),
   ("d", ["d"]),
   ("go", ["go"]),
   ("java", ["java11", "java8"]),
   ("kotlin", ["kotlin"]),
   ("fpc", ["pas.dpr", "pas.fpc"]),
   ("php", ["php.5"]),
   ("python", ["python.2", "python.3"]),
   ("pypy", ["python.pypy2", "python.pypy3"]),
   ("ruby", ["ruby"]),
   ("rust", ["rust"])]

/-- The loop `for lang, types := range mapping` of `MakeVerifier`, over the
entries in the order they are visited, with the final `return` after it. -/
def MakeVerifier.scan (env : Env) (path : String) (spec : Specification) :
    List (String × List String) → Except Fault Verifier
  | [] => .error (.error "checker configuration is not supported")
  | (lang, types) :: rest =>
    match SourceByType spec.Checker.Sources types with
    | none => MakeVerifier.scan env path spec rest
    | some source =>
      match readFileE env (env.join [path, source.Path]) with
      | .error e => .error e
      | .ok data => .ok ⟨.PROGRAM, 0, false, data, lang⟩

/-- The function `MakeVerifier`. -/
def MakeVerifier (env : Env) (path : String) (spec : Specification) : Except Fault Verifier :=
  if spec.Checker.Name = "std::rcmp4.cpp" ∨ spec.Checker.Name = "std::ncmp.cpp" then
    .ok ⟨.TOKENS, 4, true, "", ""⟩
  else if spec.Checker.Name = "std::rcmp6.cpp" then
    .ok ⟨.TOKENS, 6, true, "", ""⟩
  else if spec.Checker.Name = "std::rcmp9.cpp" then
    .ok ⟨.TOKENS, 9, true, "", ""⟩
  else if spec.Checker.Name = "std::wcmp.cpp" then
    .ok ⟨.TOKENS, 5, true, "", ""⟩
  else if spec.Checker.Name = "std::nyesno.cpp" ∨ spec.Checker.Name = "std::yesno.cpp" then
    .ok ⟨.TOKENS, 5, false, "", ""⟩
  else if spec.Checker.Name = "std::fcmp.cpp" ∨ spec.Checker.Name = "std::hcmp.cpp"
      ∨ spec.Checker.Name = "std::lcmp.cpp" then
    .ok ⟨.LINES, 0, false, "", ""⟩
  else
    MakeVerifier.scan env path spec (env.rangeOrder verifierMapping)

/-- The loop `for lang, types := range mapping` of `MakeInteractor`, over the
entries in the order they are visited, with the final `return` after it. -/
def MakeInteractor.scan (env : Env) (path : String) (spec : Specification) :
    List (String × List String) → Except Fault Interactor
  | [] => .error (.error "interactor configuration is not supported")
  | (lang, types) :: rest =>
    match SourceByType spec.Interactor.Sources types with
    | none => MakeInteractor.scan env path spec rest
    | some source =>
      match readFileE env (env.join [path, source.Path]) with
      | .error e => .error e
      | .ok data => .ok ⟨data, lang⟩

/-- The function `MakeInteractor`. -/
def MakeInteractor (env : Env) (path : String) (spec : Specification) :
    Except Fault Interactor :=
  MakeInteractor.scan env path spec (env.rangeOrder interactorMapping)

/-! ## Scoring of a test -/

/-- The `int` variable `score` of `ImportProblem` for the test at position `ti`
of a group of `n` tests: `100 / n`, incremented when `n - ti <= 100 % n`.
Division and remainder of Go truncate towards zero. -/
def expandedScore (n ti : Nat) : Int :=
  let score := Int.tdiv 100 (n : Int)
  if (n : Int) - (ti : Int) ≤ Int.tmod 100 (n : Int) then score + 1 else score

/-- The `atlas.Test` with every field at its zero value (`&atlas.Test{}`). -/
def Test.zero : Test := ⟨"", 0, false, 0, "", ""⟩

/-- The fields `ImportProblem` writes into the test `xtt` at position `ti` of a
group of `n` tests of the testset `xts`: index, example flag, object keys, and
the score, which is the one of the specification unless the feedback policy of
the testset is `ICPC_EXPANDED`. -/
def fillTest (xts : Testset) (n ti : Nat) (ts : SpecificationTest) (input answer : String)
    (xtt : Test) : Test :=
  let xtt : Test := { xtt with
    Index := toInt32 ((ti : Int) + 1)
    Example := ts.Sample
    Score := ts.Points
    InputObjectId := input
    AnswerObjectId := answer }
  if xts.FeedbackPolicy = FeedbackPolicy.ICPC_EXPANDED then
    { xtt with Score := ((expandedScore n ti : Int) : ℚ) }
  else xtt

/-! ## Statement locale backfill -/

/-- The variable `mainStatement` of `ImportProblem`; `none` is the nil pointer. -/
def mainStatement (newStatements : GoMap String Statement) : Option Statement :=
  match newStatements.lookup "uk" with
  | some ukr => some ukr
  | none =>
    match newStatements.lookup "en" with
    | some eng => some eng
    | none => newStatements.lookup "ru"

/-- One round of the loop over `uk`, `en`, `ru`: a locale that is absent gets a
copy of `*mainStatement` with the locale changed.  The copy dereferences the
pointer, which panics when it is nil. -/
def backfillStep (main : Option Statement) (newStatements : GoMap String Statement)
    (lang : String) : Except Fault (GoMap String Statement) :=
  match newStatements.lookup lang with
  | some _ => .ok newStatements
  | none =>
    match main with
    | none => .error (.panic "invalid memory address or nil pointer dereference")
    | some statement => .ok (newStatements.insert lang { statement with Locale := lang })

/-- The backfill of `ImportProblem`: choose `mainStatement`, then run the loop
over `uk`, `en`, `ru`. -/
def backfill (newStatements : GoMap String Statement) :
    Except Fault (GoMap String Statement) :=
  ["uk", "en", "ru"].foldlM (backfillStep (mainStatement newStatements)) newStatements

/-! ## Retry wrappers -/

/-- The body shared by the wrappers `CreateTestset`, `UpdateTestset`,
`CreateTest`, `UpdateTest`, `DeleteTest`, `CreateStatement` and
`UpdateStatement`: a loop of `n` attempts that returns at the first success,
followed by one more attempt whose outcome is returned as it is. -/
def retry (env : Env) (c : Call) : Nat → M Reply
  | 0 => call env c
  | n + 1 => fun t =>
    match call env c t with
    | (.ok out, t1) => (.ok out, t1)
    | (.error _, t1) => retry env c n t1

/-- The wrapper `CreateTestset`. -/
def CreateTestset (env : Env) (problemId : String) (testset : Testset) : M Reply :=
  retry env (.CreateTestset problemId testset) RepeatNumber

/-- The wrapper `UpdateTestset`. -/
def UpdateTestset (env : Env) (testsetId : String) (testset : Testset) : M Reply :=
  retry env (.UpdateTestset testsetId testset) RepeatNumber

/-- The wrapper `CreateTest`. -/
def CreateTest (env : Env) (testsetId : String) (test : Test) : M Reply :=
  retry env (.CreateTest testsetId test) RepeatNumber

/-- The wrapper `UpdateTest`. -/
def UpdateTest (env : Env) (testId : String) (test : Test) : M Reply :=
  retry env (.UpdateTest testId test) RepeatNumber

/-- The wrapper `DeleteTest`. -/
def DeleteTest (env : Env) (testId : String) : M Reply :=
  retry env (.DeleteTest testId) RepeatNumber

/-- The wrapper `CreateStatement`. -/
def CreateStatement (env : Env) (problemId : String) (statement : Statement) : M Reply :=
  retry env (.CreateStatement problemId statement) RepeatNumber

/-- The wrapper `UpdateStatement`. -/
def UpdateStatement (env : Env) (statementId : String) (statement : Statement) : M Reply :=
  retry env (.UpdateStatement statementId statement) RepeatNumber

/-- The loop of `CreateProblem`: `n` attempts, the first success returns the
problem id; after the loop the function returns the empty id and a nil error. -/
def CreateProblem.loop (env : Env) : Nat → M String
  | 0 => M.pure ""
  | n + 1 => fun t =>
    match call env .CreateProblem t with
    | (.ok pout, t1) => (.ok pout.Id, t1)
    | (.error _, t1) => CreateProblem.loop env n t1

/-- The function `CreateProblem`. -/
def CreateProblem (env : Env) : M String :=
  CreateProblem.loop env RepeatNumber

/-- The upload loop of `MakeObject`: `n` attempts, the first success returns
the key; after the loop the function returns the variable `err`, which holds
the error of the last attempt (`none` is nil). -/
def MakeObject.loop (env : Env) (data : String) : Nat → Option Error → M String
  | 0, none => M.pure ""
  | 0, some err => M.fail (.error err)
  | n + 1, _ => fun t =>
    match env.remote t (.CreateObject data) with
    | .ok out => (.ok out.Id, t ++ [.CreateObject data])
    | .error err => MakeObject.loop env data n (some err) (t ++ [.CreateObject data])

/-- The function `MakeObject`. -/
def MakeObject (env : Env) (path : String) : M String :=
  match env.readFile path with
  | .error err => M.fail (.error err)
  | .ok data => MakeObject.loop env data RepeatNumber none

/-! ## Statements and solutions of the specification -/

/-- The function `MakeStatementLocale`: the first two bytes of an accepted
language name. -/
def MakeStatementLocale (lang : String) : Except Fault String :=
  if lang = "ukrainian" ∨ lang = "russian" ∨ lang = "english" ∨ lang = "hungarian" then
    .ok (lang.take 2)
  else
    .error (.error ("unknown language " ++ lang.quote))

/-- The function `MakeSolutionLocale`. -/
def MakeSolutionLocale (lang : String) : Except Fault String :=
  if lang = "ukrainian" ∨ lang = "russian" ∨ lang = "english" then
    .ok (lang.take 2)
  else
    .error (.error ("unknown language " ++ lang.quote))

/-- The callback of `FindFilesWithExtension` on one visited file: the name is
appended once for every pattern of `exts` it matches.  A visit without file
information panics at `f.Name()`. -/
def FindFilesWithExtension.visit (env : Env) (exts : List String) (files : List String) :
    Option String → Except Fault (List String)
  | none => if exts = [] then .ok files
            else .error (.panic "invalid memory address or nil pointer dereference")
  | some name => .ok (exts.foldl (fun files ext =>
      match env.regexpMatch ext name with
      | .ok true => files ++ [name]
      | _ => files) files)

/-- The function `FindFilesWithExtension`. -/
def FindFilesWithExtension (env : Env) (path : String) (exts : List String) :
    Except Fault (List String) :=
  (env.walk path).foldlM (FindFilesWithExtension.visit env exts) []

/-- The upload loop of `UpdateContentWithPictures`: at most `n` attempts, left
at the first success; the result is the outcome of the last attempt made
(`none` when no attempt was made). -/
def UploadAsset.loop (env : Env) (c : Call) :
    Nat → Option (Except Error Reply) → M (Option (Except Error Reply))
  | 0, last => M.pure last
  | n + 1, _ => fun t =>
    match env.remote t c with
    | .ok output => (.ok (some (.ok output)), t ++ [c])
    | .error err => UploadAsset.loop env c n (some (.error err)) (t ++ [c])

/-- The loop `for _, file := range files` of `UpdateContentWithPictures`. -/
def UpdateContentWithPictures.loop (env : Env) (source : String) :
    List String → String → M String
  | [], content => M.pure content
  | file :: rest, content =>
    if env.contains content file then
      match env.readFile (source ++ file) with
      | .error err => M.fail (.error err)
      | .ok data =>
        M.bind (UploadAsset.loop env (.UploadAsset file data) RepeatNumber none) (fun r =>
          match r with
          | some (.error err) => M.fail (.error err)
          | some (.ok output) =>
            UpdateContentWithPictures.loop env source rest
              (env.replaceAll content file output.Id)
          | none => M.fail (.panic "invalid memory address or nil pointer dereference"))
    else UpdateContentWithPictures.loop env source rest content

/-- The function `UpdateContentWithPictures`. -/
def UpdateContentWithPictures (env : Env) (content source : String) : M String :=
  match FindFilesWithExtension env source [".png", ".jpeg", ".jpg", ".eps"] with
  | .error e => M.fail e
  | .ok files => UpdateContentWithPictures.loop env source files content

/-- The part of `problem-properties.json` appended under a heading when it is
not empty. -/
def appendPart (parts : List String) (heading text : String) : List String :=
  if text ≠ "" then parts ++ [heading ++ "\n\n" ++ text] else parts

/-- The function `MakeStatement`. -/
def MakeStatement (env : Env) (path : String) (statement : SpecificationStatement) :
    M Statement :=
  match MakeStatementLocale statement.Language with
  | .error e => M.fail e
  | .ok locale =>
    match env.readFile (env.join [path, env.dir statement.Path, "problem-properties.json"]) with
    | .error err => M.fail (.error err)
    | .ok propdata =>
      match env.unmarshal propdata with
      | .error err =>
        M.fail (.error ("unable to unmrashal problem-properties.json: " ++ err))
      | .ok props =>
        let parts := [props.Legend]
        let parts := appendPart parts "\\InputFile" props.Input
        let parts := appendPart parts "\\Interaction" props.Interaction
        let parts := appendPart parts "\\OutputFile" props.Output
        let parts := appendPart parts "\\Note" props.Notes
        let parts := appendPart parts "\\Scoring" props.Scoring
        let content := "\n\n".intercalate parts
        M.bind (UpdateContentWithPictures env content
            (path ++ "/statements/" ++ statement.Language ++ "/")) (fun content =>
          M.pure ⟨"", locale, props.Name, content, Format.TEX, props.AuthorName, env.source⟩)

/-- The function `MakeSolution`. -/
def MakeSolution (env : Env) (path : String) (solution : SpecificationSolution) :
    Except Fault Solution :=
  match MakeSolutionLocale solution.Language with
  | .error e => .error e
  | .ok locale =>
    match env.readFile (env.join [path, env.dir solution.Path, "problem-properties.json"]) with
    | .error err => .error (.error err)
    | .ok propdata =>
      match env.unmarshal propdata with
      | .error err =>
        .error (.error ("unable to unmrashal problem-properties.json: " ++ err))
      | .ok props => .ok ⟨"", locale, props.Solution, Format.TEX⟩

/-! ## `ImportProblem` -/

/-- The maps `statements`, `solutions`, `testsets` and `tests` of
`ImportProblem`: what the remote holds, by natural key. -/
structure Remote where
  statements : GoMap String Statement
  solutions : GoMap String Solution
  testsets : GoMap Nat Testset
  tests : GoMap (Nat × Int) Test

/-- The four maps as `ImportProblem` creates them. -/
def Remote.empty : Remote := ⟨∅, ∅, ∅, ∅⟩

/-- The loop `for _, tt := range ttout.GetItems()`: the tests of the remote
testset `ts` enter the map under the key of testset index and test index. -/
def listTests (env : Env) (ts : Testset) (tests : GoMap (Nat × Int) Test) :
    M (GoMap (Nat × Int) Test) := do
  let ttout ← call env (.ListTests ts.Id)
  pure (ttout.Tests.foldl (fun m tt => m.insert (ts.Index, tt.Index) tt) tests)

/-- The loop `for _, ts := range tsout.GetItems()`. -/
def listTestsets (env : Env) :
    List Testset → GoMap Nat Testset → GoMap (Nat × Int) Test →
      M (GoMap Nat Testset × GoMap (Nat × Int) Test)
  | [], testsets, tests => pure (testsets, tests)
  | ts :: rest, testsets, tests => do
    let tests ← listTests env ts tests
    listTestsets env rest (testsets.insert ts.Index ts) tests

/-- The branch of `ImportProblem` for a problem id that is not empty: the
statements, solutions, testsets and tests of the remote problem are listed and
indexed.  A list call is made once; its error is returned. -/
def fetchRemote (env : Env) (pid : String) : M Remote := do
  let stout ← call env (.ListStatements pid)
  let statements : GoMap String Statement :=
    stout.Statements.foldl (fun m s => m.insert s.Locale s) ∅
  let solout ← call env (.ListSolutions pid)
  let solutions : GoMap String Solution :=
    solout.Solutions.foldl (fun m s => m.insert s.Locale s) ∅
  let tsout ← call env (.ListTestsets pid)
  let (testsets, tests) ← listTestsets env tsout.Testsets ∅ ∅
  pure ⟨statements, solutions, testsets, tests⟩

/-- The entries of the map literal `templateLanguages`. -/
def templateLanguages : List (String × List String) :=
  [("files/template_cpp.cpp", ["gpp", "cpp:17-gnu10"]),
   ("files/template_java.java", ["java"]),
   ("files/template_pas.pas", ["fpc"]),
   ("files/template_py.py", ["pypy", "python"])]

/-- The loop that deletes the code templates of the remote problem; the
outcome of a deletion is dropped. -/
def deleteTemplates (env : Env) : List Template → M Unit
  | [] => pure ()
  | template :: rest => do
    let _ ← callIgnore env (.DeleteCodeTemplate template.Id)
    deleteTemplates env rest

/-- The loop `for _, lang := range list` over the runtimes of a template file;
a file that cannot be read ends the process. -/
def createTemplates (env : Env) (path pid : String) (file : SpecificationFile) :
    List String → M Unit
  | [] => pure ()
  | lang :: rest =>
    match env.readFile (env.join [path, file.Source.Path]) with
    | .error _ => M.fail (.exit (-1))
    | .ok source => do
      let _ ← callIgnore env (.CreateCodeTemplate pid ⟨"", pid, lang, source⟩)
      createTemplates env path pid file rest

/-- The loop `for _, file := range spec.Files`. -/
def importTemplateFiles (env : Env) (path pid : String) : List SpecificationFile → M Unit
  | [] => pure ()
  | file :: rest =>
    match templateLanguages.lookup file.Source.Path with
    | some list => do
      createTemplates env path pid file list
      importTemplateFiles env path pid rest
    | none => importTemplateFiles env path pid rest

/-- The template replacement of `ImportProblem`; the error of the list call
is dropped and its output read through the nil-safe getter. -/
def importTemplates (env : Env) (path pid : String) (spec : Specification) : M Unit := do
  let templates ← callIgnore env (.ListCodeTemplates pid)
  deleteTemplates env templates.Templates
  importTemplateFiles env path pid spec.Files

/-- The step `set verifier` of `ImportProblem`. -/
def importVerifier (env : Env) (path pid : String) (spec : Specification) : M Unit :=
  match MakeVerifier env path spec with
  | .error e => M.fail e
  | .ok verifier => do
    let _ ← call env (.UpdateVerifier pid verifier)
    pure ()

/-- The step `set interactor` of `ImportProblem`. -/
def importInteractor (env : Env) (path pid : String) (spec : Specification) : M Unit :=
  if spec.Interactor.Sources.length ≠ 0 then
    match MakeInteractor env path spec with
    | .error e => M.fail e
    | .ok interactor => do
      let _ ← call env (.UpdateInteractor pid interactor)
      pure ()
  else pure ()

/-- The loop `read tests by group`: `groupTests` collects the tests of each
group in order of appearance, `testIndex` records under the key of group and
position within the group the position `gi` in the flat list. -/
def readTestsByGroup :
    Nat → List SpecificationTest →
      GoMap Nat (List SpecificationTest) → GoMap (Nat × Int) Nat →
      GoMap Nat (List SpecificationTest) × GoMap (Nat × Int) Nat
  | _, [], groupTests, testIndex => (groupTests, testIndex)
  | gi, test :: rest, groupTests, testIndex =>
    let l := (groupTests.lookup test.Group).getD [] ++ [test]
    readTestsByGroup (gi + 1) rest (groupTests.insert test.Group l)
      (testIndex.insert (test.Group, (l.length : Int)) gi)

/-- The `atlas.Testset` with every field at its zero value (`&atlas.Testset{}`). -/
def Testset.zero : Testset := ⟨"", 0, 0, 0, 0, .EACH, .COMPLETE, []⟩

/-- The fields `ImportProblem` writes into the testset `xts` of a group. -/
def fillTestset (testset : SpecificationTestset) (group : SpecificationGroup)
    (xts : Testset) : Testset :=
  { xts with
    Index := group.Name
    TimeLimit := toUint32 testset.TimeLimit
    MemoryLimit := toUint64 testset.MemoryLimit
    FileSizeLimit := 536870912
    ScoringMode := if group.PointsPolicy = "complete-group" then .ALL else .EACH
    FeedbackPolicy :=
      if group.FeedbackPolicy = "icpc" ∨ group.FeedbackPolicy = "points" then .ICPC
      else if group.FeedbackPolicy = "icpc-expanded" then .ICPC_EXPANDED
      else .COMPLETE
    Dependencies := group.Dependencies.map (fun d => d.Group) }

/-- The body of the loop `upload tests` for the test `ts` at position `ti` of
a group of `n` tests: the remote test under the key of testset index and
`ti + 1` is taken out of `tests` (a new test if there is none), both data
files are uploaded, and the test is created when it has no id and updated
otherwise. -/
def importTest (env : Env) (path : String) (testset : SpecificationTestset)
    (testIndex : GoMap (Nat × Int) Nat) (xts : Testset) (n : Nat)
    (tests : GoMap (Nat × Int) Test) (ti : Nat) (ts : SpecificationTest) :
    M (GoMap (Nat × Int) Test) := do
  let key : Nat × Int := (xts.Index, toInt32 ((ti : Int) + 1))
  let xtt := (tests.lookup key).getD Test.zero
  let tests := tests.erase key
  let gi := (testIndex.lookup key).getD 0
  let input ← MakeObject env
    (env.join [path, env.sprintf testset.InputPathPattern ((gi : Int) + 1)])
  let answer ← MakeObject env
    (env.join [path, env.sprintf testset.AnswerPathPattern ((gi : Int) + 1)])
  let xtt := fillTest xts n ti ts input answer xtt
  if xtt.Id = "" then do
    let _ ← CreateTest env xts.Id xtt
    pure tests
  else do
    let _ ← UpdateTest env xtt.Id xtt
    pure tests

/-- The loop `for ti, ts := range groupTests[group.Name]`, from position `ti`. -/
def importTests (env : Env) (path : String) (testset : SpecificationTestset)
    (testIndex : GoMap (Nat × Int) Nat) (xts : Testset) (n : Nat) :
    Nat → List SpecificationTest → GoMap (Nat × Int) Test → M (GoMap (Nat × Int) Test)
  | _, [], tests => pure tests
  | ti, ts :: rest, tests => do
    let tests ← importTest env path testset testIndex xts n tests ti ts
    importTests env path testset testIndex xts n (ti + 1) rest tests

/-- The body of the loop `for _, group := range groups`: the testset of the
group is updated when the remote has one with an id and created otherwise,
then its tests are uploaded. -/
def importGroup (env : Env) (path pid : String) (testset : SpecificationTestset)
    (groupTests : GoMap Nat (List SpecificationTest)) (testIndex : GoMap (Nat × Int) Nat)
    (testsets : GoMap Nat Testset) (tests : GoMap (Nat × Int) Test)
    (group : SpecificationGroup) :
    M (GoMap Nat Testset × GoMap (Nat × Int) Test) := do
  let xts := (testsets.lookup group.Name).getD Testset.zero
  let testsets := testsets.erase group.Name
  let xts := fillTestset testset group xts
  let xts ← (if xts.Id ≠ "" then do
      let _ ← UpdateTestset env xts.Id xts
      pure xts
    else do
      let out ← CreateTestset env pid xts
      pure { xts with Id := out.Id })
  let gts := (groupTests.lookup group.Name).getD []
  let tests ← importTests env path testset testIndex xts gts.length 0 gts tests
  pure (testsets, tests)

/-- The loop `for _, group := range groups`. -/
def importGroups (env : Env) (path pid : String) (testset : SpecificationTestset)
    (groupTests : GoMap Nat (List SpecificationTest)) (testIndex : GoMap (Nat × Int) Nat) :
    List SpecificationGroup → GoMap Nat Testset → GoMap (Nat × Int) Test →
      M (GoMap Nat Testset × GoMap (Nat × Int) Test)
  | [], testsets, tests => pure (testsets, tests)
  | group :: rest, testsets, tests => do
    let (testsets, tests) ←
      importGroup env path pid testset groupTests testIndex testsets tests group
    importGroups env path pid testset groupTests testIndex rest testsets tests

/-- The groups `ImportProblem` walks: the declared ones, or the single implicit
group when none is declared. -/
def groupsOf (testset : SpecificationTestset) : List SpecificationGroup :=
  if testset.Groups.length = 0 then [⟨"icpc-expanded", 0, 100, "each-test", []⟩]
  else testset.Groups

/-- The step `create testsets` of `ImportProblem`, on the first testset of
the specification. -/
def importTestsets (env : Env) (path pid : String) (spec : Specification)
    (testsets : GoMap Nat Testset) (tests : GoMap (Nat × Int) Test) :
    M (GoMap Nat Testset × GoMap (Nat × Int) Test) :=
  match spec.Judging.Testsets with
  | [] => pure (testsets, tests)
  | testset :: _ =>
    let gt := readTestsByGroup 0 testset.Tests ∅ ∅
    importGroups env path pid testset gt.1 gt.2 (groupsOf testset) testsets tests

/-- The loop that deletes the tests left in `tests`, through the wrapper. -/
def removeUnusedTests (env : Env) : List ((Nat × Int) × Test) → M Unit
  | [] => pure ()
  | (_, test) :: rest => do
    let _ ← DeleteTest env test.Id
    removeUnusedTests env rest

/-- The loop that deletes the testsets left in `testsets`, by a direct call. -/
def removeUnusedTestsets (env : Env) : List (Nat × Testset) → M Unit
  | [] => pure ()
  | (_, testset) :: rest => do
    let _ ← call env (.DeleteTestset testset.Id)
    removeUnusedTestsets env rest

/-- The loop `get all statements`: every TeX statement of the specification is
built and stored under its locale. -/
def makeStatements (env : Env) (path : String) :
    List SpecificationStatement → GoMap String Statement → M (GoMap String Statement)
  | [], newStatements => pure newStatements
  | ss :: rest, newStatements =>
    if ss.Type_ ≠ "application/x-tex" then makeStatements env path rest newStatements
    else do
      let statement ← MakeStatement env path ss
      makeStatements env path rest (newStatements.insert statement.Locale statement)

/-- The body of the loop `for _, statement := range newStatements`. -/
def importStatement (env : Env) (pid : String) (statements : GoMap String Statement)
    (statement : Statement) : M (GoMap String Statement) := do
  let xs : Statement :=
    match statements.lookup statement.Locale with
    | none => statement
    | some xs => { xs with
        Locale := statement.Locale
        Title := statement.Title
        Content := statement.Content
        Format := statement.Format
        Author := statement.Author
        Source := statement.Source }
  let statements := statements.erase statement.Locale
  if xs.Id = "" then do
    let _ ← CreateStatement env pid xs
    pure statements
  else do
    let _ ← UpdateStatement env xs.Id xs
    pure statements

/-- The loop `for _, statement := range newStatements`. -/
def importStatements (env : Env) (pid : String) :
    List (String × Statement) → GoMap String Statement → M (GoMap String Statement)
  | [], statements => pure statements
  | (_, statement) :: rest, statements => do
    let statements ← importStatement env pid statements statement
    importStatements env pid rest statements

/-- The loop that deletes the statements left in `statements`, by a direct call. -/
def removeUnusedStatements (env : Env) : List (String × Statement) → M Unit
  | [] => pure ()
  | (_, statement) :: rest => do
    let _ ← call env (.DeleteStatement statement.Id)
    removeUnusedStatements env rest

/-- The body of the loop `get all solutions` for a TeX solution: it is
created or updated by a direct call. -/
def importSolution (env : Env) (pid : String) (solutions : GoMap String Solution)
    (solution : Solution) : M (GoMap String Solution) := do
  let xs : Solution :=
    match solutions.lookup solution.Locale with
    | none => solution
    | some xs => { xs with
        Locale := solution.Locale
        Content := solution.Content
        Format := solution.Format }
  let solutions := solutions.erase solution.Locale
  if xs.Id = "" then do
    let _ ← call env (.CreateSolution pid xs)
    pure solutions
  else do
    let _ ← call env (.UpdateSolution xs.Id xs)
    pure solutions

/-- The loop `get all solutions`. -/
def importSolutions (env : Env) (path pid : String) :
    List SpecificationSolution → GoMap String Solution → M (GoMap String Solution)
  | [], solutions => pure solutions
  | ss :: rest, solutions =>
    if ss.Type_ ≠ "application/x-tex" then importSolutions env path pid rest solutions
    else
      match MakeSolution env path ss with
      | .error e => M.fail e
      | .ok solution => do
        let solutions ← importSolution env pid solutions solution
        importSolutions env path pid rest solutions

/-- The loop that deletes the solutions left in `solutions`, by a direct call. -/
def removeUnusedSolutions (env : Env) : List (String × Solution) → M Unit
  | [] => pure ()
  | (_, solution) :: rest => do
    let _ ← call env (.DeleteSolution solution.Id)
    removeUnusedSolutions env rest

/-- The steps of `ImportProblem` after the tests are uploaded: the unused tests
and testsets are removed, then the statements and the solutions are
reconciled. -/
def importRest (env : Env) (path pid : String) (spec : Specification)
    (statements : GoMap String Statement) (solutions : GoMap String Solution)
    (testsets : GoMap Nat Testset) (tests : GoMap (Nat × Int) Test) : M Unit := do
  removeUnusedTests env (rangeMap env tests)
  removeUnusedTestsets env (rangeMap env testsets)
  let newStatements ← makeStatements env path spec.Statements ∅
  let newStatements ← M.lift (backfill newStatements)
  let statements ← importStatements env pid (rangeMap env newStatements) statements
  removeUnusedStatements env (rangeMap env statements)
  let solutions ← importSolutions env path pid spec.Solutions solutions
  removeUnusedSolutions env (rangeMap env solutions)

/-- The part of `ImportProblem` after the problem id is known and the remote
maps are filled. -/
def importInto (env : Env) (path pid : String) (spec : Specification) (remote : Remote) :
    M Unit := do
  importTemplates env path pid spec
  importVerifier env path pid spec
  importInteractor env path pid spec
  let r ← importTestsets env path pid spec remote.testsets remote.tests
  importRest env path pid spec remote.statements remote.solutions r.1 r.2

/-- The function `ImportProblem`, called with the value `pid` of `*pid`.  The
value returned on success is the value of `*pid` at the end. -/
def ImportProblem (env : Env) (path pid : String) : M String :=
  match env.statNotExist path with
  | some err => M.fail (.error err)
  | none =>
    match env.openSpec (env.join [path, "problem.xml"]) with
    | .error err => M.fail (.error err)
    | .ok (.error err) => M.fail (.error err)
    | .ok (.ok spec) =>
      if pid = "" then do
        let pid ← CreateProblem env
        importInto env path pid spec Remote.empty
        pure pid
      else do
        let remote ← fetchRemote env pid
        importInto env path pid spec remote
        pure pid

/-! ## Sample inputs

Concrete environments and specifications on which the functions above are
evaluated. -/

/-- A remote that accepts every call.  It holds one testset `TS0` of index 0
with one test `T2` of index 2 and 5 points; a call that returns an identifier
returns `id` followed by the number of calls made before it. -/
def sampleRemote : List Call → Call → Except Error Reply := fun t c =>
  match c with
  | .ListTestsets _ =>
    .ok { Reply.empty with Testsets := [⟨"TS0", 0, 1, 1, 1, .EACH, .ICPC, []⟩] }
  | .ListTests _ => .ok { Reply.empty with Tests := [⟨"T2", 2, false, 5, "i", "a"⟩] }
  | _ => .ok { Reply.empty with Id := "id" ++ toString t.length }

/-- A remote that rejects every call the test `bad` selects and otherwise
answers as `sampleRemote`. -/
def failingRemote (bad : Call → Bool) : List Call → Call → Except Error Reply := fun t c =>
  if bad c then .error "unavailable" else sampleRemote t c

/-- A remote that rejects the first `k` calls it receives and accepts the
later ones, reporting the number of the failed attempt in the error. -/
def flakyRemote (k : Nat) : List Call → Call → Except Error Reply := fun t c =>
  if t.length < k then .error ("unavailable " ++ toString t.length) else sampleRemote t c

/-- A test of the sample specifications, in group `g`. -/
def sampleTest (g : Nat) : SpecificationTest := ⟨"manual", false, 0, g⟩

/-- A testset of three tests without declared groups. -/
def sampleTestset : SpecificationTestset :=
  ⟨1000, 256, "tests/%02d", "tests/%02d.a", [], [sampleTest 0, sampleTest 0, sampleTest 0]⟩

/-- A specification with a standard checker, one Russian TeX statement, and
the testset `sampleTestset`. -/
def sampleSpec : Specification :=
  ⟨⟨"std::wcmp.cpp", []⟩, ⟨[]⟩, [],
    [⟨"russian", "application/x-tex", "statements/russian/problem.tex"⟩], [],
    ⟨[sampleTestset]⟩⟩

/-- An environment in which every file can be read, `problem.xml` decodes to
`spec`, the remote is `remote`, and `range` visits a map in the order of its
entries. -/
def sampleEnv (spec : Specification) (remote : List Call → Call → Except Error Reply) : Env where
  remote := remote
  readFile := fun p => .ok ("data:" ++ p)
  statNotExist := fun _ => none
  openSpec := fun _ => .ok (.ok spec)
  join := fun l => "/".intercalate l
  dir := fun p => p
  sprintf := fun p n => p ++ toString n
  unmarshal := fun _ => .ok ⟨"Name", "Legend", "in", "", "out", "", "", "author", "sol"⟩
  walk := fun _ => []
  regexpMatch := fun _ _ => .ok false
  contains := fun _ _ => false
  replaceAll := fun c _ _ => c
  source := "polygon"
  rangeOrder := fun l => l

/-- The environment `sampleEnv` in which `range` visits a map in the reverse
order of its entries. -/
def reversedEnv (spec : Specification) (remote : List Call → Call → Except Error Reply) : Env :=
  { sampleEnv spec remote with rangeOrder := fun l => l.reverse }

/-- A specification whose checker has a non-standard name and two sources, one
of type `cpp.g++17` and one of type `java11`. -/
def twoRuntimeSpec : Specification :=
  { sampleSpec with
    Checker := ⟨"check.cpp", [⟨"files/check.cpp", "cpp.g++17"⟩, ⟨"files/Check.java", "java11"⟩]⟩ }

/-- A specification whose only statement is Hungarian. -/
def hungarianSpec : Specification :=
  { sampleSpec with
    Statements := [⟨"hungarian", "application/x-tex", "statements/hungarian/problem.tex"⟩] }

/-- A statement as `MakeStatement` builds it, in the locale `locale`. -/
def sampleStatement (locale : String) : Statement :=
  ⟨"", locale, "Name", "Legend", Format.TEX, "author", "polygon"⟩

/-- The desired statement set with a Russian statement only. -/
def ruOnly : GoMap String Statement := (∅ : GoMap String Statement).insert "ru" (sampleStatement "ru")

/-- The desired statement set with a Hungarian statement only. -/
def huOnly : GoMap String Statement := (∅ : GoMap String Statement).insert "hu" (sampleStatement "hu")

/-- A specification whose checker has a non-standard name and one source, of
type `cpp.g++17`. -/
def oneRuntimeSpec : Specification :=
  { sampleSpec with Checker := ⟨"check.cpp", [⟨"files/check.cpp", "cpp.g++17"⟩]⟩ }

/-- The outcome of attempt number `k + 1` of the call `c` after the calls `t`,
when the `k` calls before it were attempts of `c` too. -/
def attempt (env : Env) (t : List Call) (c : Call) (k : Nat) : Except Error Reply :=
  env.remote (t ++ List.replicate k c) c

/-- The contract of a retry wrapper `w` around the remote call `c`: it makes
between 1 and 11 attempts of `c` and nothing else; if attempt `k + 1 ≤ 11` is
the first to succeed, it makes exactly `k + 1` attempts and returns the output
of that attempt, whatever the errors before were; if the first 11 attempts
fail, it makes exactly 11 attempts and returns the error of the eleventh. -/
def RetryContract (env : Env) (c : Call) (w : M Reply) : Prop :=
  ∀ t : List Call,
    (∃ k, 1 ≤ k ∧ k ≤ 11 ∧ (w t).2 = t ++ List.replicate k c)
    ∧ (∀ k out, k < 11 → (∀ j, j < k → ∃ e, attempt env t c j = .error e) →
        attempt env t c k = .ok out → w t = (.ok out, t ++ List.replicate (k + 1) c))
    ∧ ((∀ j, j < 11 → ∃ e, attempt env t c j = .error e) →
        ∃ e, attempt env t c 10 = .error e
          ∧ w t = (.error (.error e), t ++ List.replicate 11 c))

/-- The behaviour of the computation `w` when the remote rejects every attempt
of the call `c`: `w` makes exactly `n` calls, all of them attempts of `c`, and
returns the error of the remote. -/
def AttemptsWhenFailing {α : Type} (env : Env) (c : Call) (w : M α) (n : Nat) : Prop :=
  (∀ t, ∃ e, env.remote t c = .error e) →
    ∀ t, ∃ e, w t = (.error (.error e), t ++ List.replicate n c)

/-- Recognises a `DeleteTest` call. -/
def Call.isDeleteTest : Call → Bool
  | .DeleteTest _ => true
  | _ => false

/-- Recognises a `DeleteTestset` call. -/
def Call.isDeleteTestset : Call → Bool
  | .DeleteTestset _ => true
  | _ => false

/-- Recognises a `CreateObject` call. -/
def Call.isCreateObject : Call → Bool
  | .CreateObject _ => true
  | _ => false

/-- Recognises a `CreateProblem` call. -/
def Call.isCreateProblem : Call → Bool
  | .CreateProblem => true
  | _ => false

/-- A specification that declares one group, named 1, holding its two tests. -/
def groupedSpec : Specification :=
  { sampleSpec with
    Judging := ⟨[⟨1000, 256, "tests/%02d", "tests/%02d.a",
      [⟨"points", 1, 0, "each-test", []⟩], [sampleTest 1, sampleTest 1]⟩]⟩ }

/-- Recognises the test mutations `CreateTest` and `UpdateTest`. -/
def Call.isTestMutation : Call → Bool
  | .CreateTest _ _ => true
  | .UpdateTest _ _ => true
  | _ => false

/-- The natural keys of the desired tests of a group of `n` tests: the group
name with the local indices 1 to `n`. -/
def groupKeys (name n : Nat) : List (Nat × Int) :=
  (List.range n).map (fun (ti : Nat) => (name, (ti : Int) + 1))

/-- The natural keys of the desired tests, in the order `ImportProblem` walks
them: group by group, and within a group by local index. -/
def desiredTestKeys (groupTests : GoMap Nat (List SpecificationTest)) :
    List SpecificationGroup → List (Nat × Int)
  | [] => []
  | group :: rest =>
    groupKeys group.Name ((groupTests.lookup group.Name).getD []).length
      ++ desiredTestKeys groupTests rest

/-- What natural-key matching asks of the mutation `op` issued for a desired
test of local index `index`, given the entry `found` of the remote snapshot
under its key: a remote test with an id is updated under that id, with a
payload that carries the id; without a remote test, the test is created.  (A
remote test whose id is empty is created as well.) -/
def TestOpFor (found : Option Test) (index : Int) (op : Call) : Prop :=
  match found with
  | some xtt =>
    if xtt.Id = "" then ∃ testsetId payload, op = .CreateTest testsetId payload
        ∧ payload.Index = index
    else ∃ payload, op = .UpdateTest xtt.Id payload ∧ payload.Id = xtt.Id
        ∧ payload.Index = index
  | none => ∃ testsetId payload, op = .CreateTest testsetId payload ∧ payload.Id = ""
        ∧ payload.Index = index

/-- The kinds of remote calls `ImportProblem` makes. -/
inductive CallKind where
  | problem
  | list
  | template
  | verifier
  | interactor
  | testset
  | deleteTestset
  | test
  | deleteTest
  | statement
  | deleteStatement
  | solution
  | deleteSolution
  | object
  | asset
deriving DecidableEq, Repr

/-- The kind of a call: creating and updating an entity are one kind, deleting
it another. -/
def Call.kind : Call → CallKind
  | .CreateProblem => .problem
  | .ListStatements _ => .list
  | .ListSolutions _ => .list
  | .ListTestsets _ => .list
  | .ListTests _ => .list
  | .ListCodeTemplates _ => .template
  | .DeleteCodeTemplate _ => .template
  | .CreateCodeTemplate _ _ => .template
  | .UpdateVerifier _ _ => .verifier
  | .UpdateInteractor _ _ => .interactor
  | .CreateTestset _ _ => .testset
  | .UpdateTestset _ _ => .testset
  | .DeleteTestset _ => .deleteTestset
  | .CreateTest _ _ => .test
  | .UpdateTest _ _ => .test
  | .DeleteTest _ => .deleteTest
  | .CreateStatement _ _ => .statement
  | .UpdateStatement _ _ => .statement
  | .DeleteStatement _ => .deleteStatement
  | .CreateSolution _ _ => .solution
  | .UpdateSolution _ _ => .solution
  | .DeleteSolution _ => .deleteSolution
  | .CreateObject _ => .object
  | .UploadAsset _ _ => .asset

/-- The computation `m` adds only calls of the kinds `kinds` to the trace,
whatever its outcome is. -/
def Emits {α : Type} (kinds : List CallKind) (m : M α) : Prop :=
  ∀ t, ∃ tr, (m t).2 = t ++ tr ∧ ∀ c ∈ tr, c.kind ∈ kinds

/-- The computation `m` succeeds after every trace, and adds only calls of the
kinds `kinds` to it. -/
def Succeeds {α : Type} (kinds : List CallKind) (m : M α) : Prop :=
  ∀ t, ∃ a tr, m t = (.ok a, t ++ tr) ∧ ∀ c ∈ tr, c.kind ∈ kinds

/-- A runtime table accepts the source-file type tag `t` for the runtime `r`
when it has an entry for `r` whose accepted tags contain `t`. -/
def accepts (table : List (String × List String)) (r t : String) : Bool :=
  table.any (fun e => e.1 == r && e.2.contains t)

/-- A specification whose checker (of a non-standard name) and whose interactor
both have one source, of type `cpp.msys2-mingw64-9-g++17`. -/
def msys2Spec : Specification :=
  { sampleSpec with
    Checker := ⟨"check.cpp", [⟨"files/check.cpp", "cpp.msys2-mingw64-9-g++17"⟩]⟩
    Interactor := ⟨[⟨"files/interactor.cpp", "cpp.msys2-mingw64-9-g++17"⟩]⟩ }

/-- A specification whose checker has a non-standard name and one source, of a
type no runtime accepts. -/
def unsupportedSpec : Specification :=
  { sampleSpec with Checker := ⟨"check.hs", [⟨"files/check.hs", "haskell.ghc"⟩]⟩ }

/-- Whenever the computation `m` succeeds, its value satisfies `Q`. -/
def Returns {α : Type} (Q : α → Prop) (m : M α) : Prop :=
  ∀ (t : List Call) (a : α) (t1 : List Call), m t = (.ok a, t1) → Q a

/-- The computation `m` adds only calls that satisfy `P` to the trace, whatever
its outcome is. -/
def EmitsP {α : Type} (P : Call → Prop) (m : M α) : Prop :=
  ∀ t, ∃ tr, (m t).2 = t ++ tr ∧ ∀ c ∈ tr, P c

/-- The calls of kind `k` in a trace, in the order issued. -/
def callsOfKind (k : CallKind) (tr : List Call) : List Call :=
  tr.filter (fun c => decide (c.kind = k))

/-- The natural keys of the desired testsets: the names of the groups
`ImportProblem` walks in the first testset of the specification. -/
def desiredTestsetIndices (spec : Specification) : List Nat :=
  match spec.Judging.Testsets with
  | [] => []
  | testset :: _ => (groupsOf testset).map (fun g => g.Name)

/-- The natural keys of the desired tests of the specification. -/
def desiredTestKeysOf (spec : Specification) : List (Nat × Int) :=
  match spec.Judging.Testsets with
  | [] => []
  | testset :: _ => desiredTestKeys (readTestsByGroup 0 testset.Tests ∅ ∅).1 (groupsOf testset)

/-- The locales of the TeX statements of the specification. -/
def statementLocales (l : List SpecificationStatement) : List String :=
  (l.filter (fun ss => decide (ss.Type_ = "application/x-tex"))).map
    (fun ss => ss.Language.take 2)

/-- The natural keys of the desired statements: the three canonical locales,
which the backfill adds, and the locales of the TeX statements. -/
def desiredStatementLocales (spec : Specification) : List String :=
  ["uk", "en", "ru"] ++ statementLocales spec.Statements

/-- The natural keys of the desired solutions: the locales of the TeX
solutions of the specification. -/
def desiredSolutionLocales (spec : Specification) : List String :=
  (spec.Solutions.filter (fun ss => decide (ss.Type_ = "application/x-tex"))).map
    (fun ss => ss.Language.take 2)

/-- The entries of a snapshot map whose natural key is not among the desired
keys. -/
def staleEntries {K V : Type} [DecidableEq K] (m : GoMap K V) (desired : List K) :
    List (Sigma (fun _ : K => V)) :=
  m.entries.filter (fun e => decide (e.1 ∉ desired))

/-- Every statement of the map is stored under its own locale. -/
def LocaleKeyed (m : GoMap String Statement) : Prop :=
  ∀ k s, m.lookup k = some s → s.Locale = k

/-- A remote that accepts every call and holds, besides the testset `TS0` of
index 0 with the tests `T2` (index 2) and `T9` (index 9), a testset `TS5` of
index 5 with the test `T51`, the statements `S1` (locale `ru`) and `S2`
(locale `de`), and the solution `L1` (locale `fr`). -/
def staleRemote : List Call → Call → Except Error Reply := fun t c =>
  match c with
  | .ListStatements _ => .ok { Reply.empty with
      Statements := [⟨"S1", "ru", "Old", "old", Format.TEX, "a", "s"⟩,
                     ⟨"S2", "de", "Alt", "alt", Format.TEX, "a", "s"⟩] }
  | .ListSolutions _ => .ok { Reply.empty with Solutions := [⟨"L1", "fr", "sol", Format.TEX⟩] }
  | .ListTestsets _ => .ok { Reply.empty with
      Testsets := [⟨"TS0", 0, 1, 1, 1, .EACH, .ICPC, []⟩, ⟨"TS5", 5, 1, 1, 1, .EACH, .ICPC, []⟩] }
  | .ListTests testsetId =>
    if testsetId = "TS0" then
      .ok { Reply.empty with
        Tests := [⟨"T2", 2, false, 5, "i", "a"⟩, ⟨"T9", 9, false, 5, "i", "a"⟩] }
    else .ok { Reply.empty with Tests := [⟨"T51", 1, false, 5, "i", "a"⟩] }
  | _ => .ok { Reply.empty with Id := "id" ++ toString t.length }

/-- A call that leaves the set of reconciled entities and their ids as the
snapshot `remote` has them: it creates no problem, creates or deletes no
testset, test, statement or solution, and if it updates one, it does so under the id that the snapshot
holds under the natural key of the payload, with a payload that carries that
id.  Calls of the other kinds (lists, code templates, verifier, interactor,
uploads) are not restricted. -/
def IdempotentCall (remote : Remote) : Call → Prop
  | .CreateProblem => False
  | .CreateTestset _ _ => False
  | .CreateTest _ _ => False
  | .CreateStatement _ _ => False
  | .CreateSolution _ _ => False
  | .DeleteTestset _ => False
  | .DeleteTest _ => False
  | .DeleteStatement _ => False
  | .DeleteSolution _ => False
  | .UpdateTestset testsetId payload =>
    payload.Id = testsetId
      ∧ ∃ xts, remote.testsets.lookup payload.Index = some xts ∧ xts.Id = testsetId
  | .UpdateTest testId payload =>
    payload.Id = testId
      ∧ ∃ key xtt, remote.tests.lookup key = some xtt ∧ xtt.Id = testId
          ∧ key.2 = payload.Index
  | .UpdateStatement statementId payload =>
    payload.Id = statementId
      ∧ ∃ xs, remote.statements.lookup payload.Locale = some xs ∧ xs.Id = statementId
  | .UpdateSolution solutionId payload =>
    payload.Id = solutionId
      ∧ ∃ xs, remote.solutions.lookup payload.Locale = some xs ∧ xs.Id = solutionId
  | _ => True

/-- A snapshot map is converged on the desired keys when it holds an entity
with a non-empty id under every desired key, and no entity under another key.
The function `ident` reads the id of an entity. -/
def ConvergedOn {K V : Type} [DecidableEq K] (ident : V → String) (m : GoMap K V)
    (desired : List K) : Prop :=
  (∀ k ∈ desired, ∃ x, m.lookup k = some x ∧ ident x ≠ "")
    ∧ (∀ k, k ∈ m → k ∈ desired)

/-- The snapshot `remote` is converged for the specification: the state that
a successful run on this specification leaves behind. -/
def Converged (spec : Specification) (remote : Remote) : Prop :=
  ConvergedOn (fun x => x.Id) remote.testsets (desiredTestsetIndices spec)
    ∧ ConvergedOn (fun x => x.Id) remote.tests (desiredTestKeysOf spec)
    ∧ ConvergedOn (fun x => x.Id) remote.statements (desiredStatementLocales spec)
    ∧ ConvergedOn (fun x => x.Id) remote.solutions (desiredSolutionLocales spec)


/-- The specification `sampleSpec` with the C++ code template file and an
English TeX solution. -/
def templateSpec : Specification :=
  { sampleSpec with
    Files := [⟨⟨"files/template_cpp.cpp", "cpp.g++17"⟩⟩]
    Solutions := [⟨"english", "application/x-tex", "solutions/english/tutorial.tex"⟩] }

/-- A remote that accepts every call and holds what a successful run of
`ImportProblem` on `templateSpec` leaves behind: the testset `TS0` of index 0
with the tests `T1`, `T2`, `T3` of index 1, 2, 3, the statements `S1`, `S2`,
`S3` of locale `uk`, `en`, `ru`, the solution `L1` of locale `en`, and the code
templates `K1`, `K2` of the two C++ runtimes. -/
def convergedRemote : List Call → Call → Except Error Reply := fun t c =>
  match c with
  | .ListStatements _ => .ok { Reply.empty with
      Statements := [⟨"S1", "uk", "Name", "text", Format.TEX, "author", "polygon"⟩,
                     ⟨"S2", "en", "Name", "text", Format.TEX, "author", "polygon"⟩,
                     ⟨"S3", "ru", "Name", "text", Format.TEX, "author", "polygon"⟩] }
  | .ListSolutions _ => .ok { Reply.empty with Solutions := [⟨"L1", "en", "sol", Format.TEX⟩] }
  | .ListTestsets _ => .ok { Reply.empty with
      Testsets := [⟨"TS0", 0, 1000, 256, 536870912, .EACH, .ICPC_EXPANDED, []⟩] }
  | .ListTests _ => .ok { Reply.empty with
      Tests := [⟨"T1", 1, false, 33, "i1", "a1"⟩, ⟨"T2", 2, false, 33, "i2", "a2"⟩,
                ⟨"T3", 3, false, 34, "i3", "a3"⟩] }
  | .ListCodeTemplates _ => .ok { Reply.empty with
      Templates := [⟨"K1", "P1", "gpp", "data:p/files/template_cpp.cpp"⟩,
                    ⟨"K2", "P1", "cpp:17-gnu10", "data:p/files/template_cpp.cpp"⟩] }
  | _ => .ok { Reply.empty with Id := "id" ++ toString t.length }

/-- The snapshot `fetchRemote` builds from `convergedRemote`. -/
def convergedSnapshot : Remote :=
  ⟨(((∅ : GoMap String Statement).insert
      "uk" ⟨"S1", "uk", "Name", "text", Format.TEX, "author", "polygon"⟩).insert
      "en" ⟨"S2", "en", "Name", "text", Format.TEX, "author", "polygon"⟩).insert
      "ru" ⟨"S3", "ru", "Name", "text", Format.TEX, "author", "polygon"⟩,
    (∅ : GoMap String Solution).insert "en" ⟨"L1", "en", "sol", Format.TEX⟩,
    (∅ : GoMap Nat Testset).insert 0 ⟨"TS0", 0, 1000, 256, 536870912, .EACH, .ICPC_EXPANDED, []⟩,
    (((∅ : GoMap (Nat × Int) Test).insert (0, 1) ⟨"T1", 1, false, 33, "i1", "a1"⟩).insert
      (0, 2) ⟨"T2", 2, false, 33, "i2", "a2"⟩).insert (0, 3) ⟨"T3", 3, false, 34, "i3", "a3"⟩⟩

/-- The positions, counted from 0, that the tests of group `grp` have in the
flat test list, in order of appearance: the entry at place `i` is the position
of the test that is number `i + 1` among the tests of its group. -/
def positionsOf (grp : Nat) (tests : List SpecificationTest) : List Nat :=
  (tests.enum.filter (fun p => decide (p.2.Group = grp))).map (fun p => p.1)

/-- What the run sends for the test at position `gi` of the flat list that has
the local index `index` in its group, given the entry `found` of the snapshot
under its natural key: the content of the input file and of the answer file,
named by the patterns at `gi + 1`, is uploaded, then the test is created or
updated with the index `index` as `TestOpFor` says. -/
def TestUploadFor (env : Env) (path : String) (testset : SpecificationTestset)
    (found : Option Test) (gi : Nat) (index : Int) (calls : List Call) : Prop :=
  ∃ din dans op, calls = [.CreateObject din, .CreateObject dans, op]
    ∧ env.readFile (env.join [path, env.sprintf testset.InputPathPattern ((gi : Int) + 1)])
        = .ok din
    ∧ env.readFile (env.join [path, env.sprintf testset.AnswerPathPattern ((gi : Int) + 1)])
        = .ok dans
    ∧ TestOpFor found index op

/-- What the run sends for the testset of a group, given the entry `found` of
the snapshot under the name of the group: the payload is the remote testset (a
new one if there is none) with the fields of the group written into it; it is
sent as an update under its id when it has one, and as a creation otherwise. -/
def TestsetOpFor (pid : String) (testset : SpecificationTestset) (group : SpecificationGroup)
    (found : Option Testset) (op : Call) : Prop :=
  if (fillTestset testset group (found.getD Testset.zero)).Id ≠ "" then
    op = .UpdateTestset (fillTestset testset group (found.getD Testset.zero)).Id
      (fillTestset testset group (found.getD Testset.zero))
  else op = .CreateTestset pid (fillTestset testset group (found.getD Testset.zero))

/-- What the run sends for a group: the mutation of its testset, then for
every test of the group, in order of appearance, the uploads and the mutation
of the test; the test of local index `i + 1` is the one at the position that
`positionsOf` has at place `i`. -/
def GroupUploadFor (env : Env) (path pid : String) (testset : SpecificationTestset)
    (remote : Remote) (group : SpecificationGroup) (calls : List Call) : Prop :=
  ∃ op chunks, calls = op :: chunks.flatten
    ∧ TestsetOpFor pid testset group (remote.testsets.lookup group.Name) op
    ∧ List.Forall₂
        (fun (p : Nat × Nat) chunk =>
          TestUploadFor env path testset (remote.tests.lookup (group.Name, (p.1 : Int) + 1))
            p.2 ((p.1 : Int) + 1) chunk)
        (positionsOf group.Name testset.Tests).enum chunks

/-- A call that concerns a testset, a test or the data of a test. -/
def Call.isTestsetStep (c : Call) : Bool :=
  decide (c.kind ∈ [CallKind.testset, CallKind.object, CallKind.test])

/-- A testset of three tests without declared groups, the second of which
carries the group attribute 1. -/
def strayGroupTestset : SpecificationTestset :=
  ⟨1000, 256, "tests/%02d", "tests/%02d.a", [], [sampleTest 0, sampleTest 1, sampleTest 0]⟩

/-- The specification `sampleSpec` with the testset `strayGroupTestset`. -/
def strayGroupSpec : Specification :=
  { sampleSpec with Judging := ⟨[strayGroupTestset]⟩ }

/-- A specification that declares the groups 1 and 2 and lists four tests
whose groups alternate: the tests at the positions 0 and 2 belong to group 1,
those at the positions 1 and 3 to group 2. -/
def interleavedSpec : Specification :=
  { sampleSpec with
    Judging := ⟨[⟨1000, 256, "tests/%02d", "tests/%02d.a",
      [⟨"points", 1, 0, "each-test", []⟩, ⟨"points", 2, 0, "each-test", []⟩],
      [sampleTest 1, sampleTest 2, sampleTest 1, sampleTest 2]⟩]⟩ }

/-- A call that the walk of the group named `name` may issue when it leaves
the testset and the tests of the group as the snapshot `remote` has them: an
upload of test data, an update of the testset that the snapshot holds under
the index `name`, sent under the id of that testset with a payload of index
`name` carrying the id, or an update of the test that the snapshot holds
under the natural key of `name` and the index of the payload, sent under the
id of that test with a payload carrying the id.  Any other call is excluded. -/
def IdempotentIn (remote : Remote) (name : Nat) : Call → Prop
  | .UpdateTestset testsetId payload =>
    payload.Index = name ∧ payload.Id = testsetId
      ∧ ∃ xts, remote.testsets.lookup name = some xts ∧ xts.Id = testsetId
  | .UpdateTest testId payload =>
    payload.Id = testId
      ∧ ∃ xtt, remote.tests.lookup (name, payload.Index) = some xtt ∧ xtt.Id = testId
  | .CreateObject _ => True
  | _ => False

/-- The computation `m` is idempotent on the snapshot `remote`: every call it
adds to the trace satisfies `IdempotentCall`, and the calls that concern
testsets, tests and test data fall into one segment per group name of `names`,
in order (a segment is empty when the walk did not reach the group), the calls
of a segment satisfying `IdempotentIn` for the name of its group. -/
def IdempotentRun {α : Type} (remote : Remote) (names : List Nat) (m : M α) : Prop :=
  ∀ t, ∃ tr segs, (m t).2 = t ++ tr
    ∧ (∀ c ∈ tr, IdempotentCall remote c)
    ∧ tr.filter Call.isTestsetStep = segs.flatten
    ∧ List.Forall₂ (fun name seg => ∀ c ∈ seg, IdempotentIn remote name c) names segs
/-! ## Scoring (C1, C2) -/

theorem expandedScore_eq (n ti : Nat) :
    expandedScore n ti = ((100 / n : Nat) : Int) + (if n - 100 % n ≤ ti then 1 else 0) := by
  unfold expandedScore
  have h1 : Int.tdiv 100 (n : Int) = ((100 / n : Nat) : Int) := by
    rw [Int.tdiv_eq_ediv (by decide) (Int.ofNat_nonneg n)]; norm_cast
  have h2 : Int.tmod 100 (n : Int) = ((100 % n : Nat) : Int) := by
    rw [Int.tmod_eq_emod (by decide) (Int.ofNat_nonneg n)]; norm_cast
  simp only [h1, h2]
  by_cases h : n - 100 % n ≤ ti
  · rw [if_pos h, if_pos (by omega)]
  · rw [if_neg h, if_neg (by omega)]; simp

theorem card_tail (n r : Nat) (h : r ≤ n) :
    ((Finset.range n).filter (fun ti => n - r ≤ ti)).card = r := by
  have : (Finset.range n).filter (fun ti => n - r ≤ ti) = Finset.Ico (n - r) n := by
    ext x; simp [Finset.mem_filter, Finset.mem_Ico]; omega
  rw [this, Nat.card_Ico]; omega

theorem expandedScore_sum (n : Nat) (hn : 1 ≤ n) :
    ∑ ti in Finset.range n, expandedScore n ti = 100 := by
  simp only [expandedScore_eq]
  rw [Finset.sum_add_distrib, Finset.sum_const, Finset.card_range, Finset.sum_boole,
    card_tail n (100 % n) (Nat.le_of_lt (Nat.mod_lt _ hn))]
  simp only [nsmul_eq_mul]
  have := Nat.div_add_mod 100 n
  norm_cast

theorem sum_map_range (f : Nat → ℚ) (n : Nat) :
    ((List.range n).map f).sum = ∑ i in Finset.range n, f i := by
  induction n with
  | zero => simp
  | succ k ih => simp [List.range_succ, Finset.sum_range_succ, ih]

theorem fillTest_score_expanded (xts : Testset)
    (hpolicy : xts.FeedbackPolicy = FeedbackPolicy.ICPC_EXPANDED) (n ti : Nat)
    (ts : SpecificationTest) (input answer : String) (xtt : Test) :
    (fillTest xts n ti ts input answer xtt).Score = ((expandedScore n ti : Int) : ℚ) := by
  simp [fillTest, hpolicy]

/-- C1: in a group whose testset has the feedback policy `ICPC_EXPANDED` and
that has `n ≥ 1` tests, the scores written into the tests at positions
`0 .. n-1` sum to exactly 100, whatever `n` is (also for `n > 100`). -/
theorem C1_expanded_scores_sum (xts : Testset)
    (hpolicy : xts.FeedbackPolicy = FeedbackPolicy.ICPC_EXPANDED) (n : Nat) (hn : 1 ≤ n)
    (ts : Nat → SpecificationTest) (input answer : Nat → String) (xtt : Nat → Test) :
    ((List.range n).map (fun ti =>
      (fillTest xts n ti (ts ti) (input ti) (answer ti) (xtt ti)).Score)).sum = 100 := by
  simp only [fillTest_score_expanded xts hpolicy, sum_map_range]
  have h := expandedScore_sum n hn
  have h2 : ((∑ ti in Finset.range n, expandedScore n ti : Int) : ℚ) = 100 := by
    rw [h]; norm_num
  rw [← h2]; push_cast; rfl

/-- Witness of C1: a group of 7 tests. -/
theorem C1_expanded_scores_sum_witness :
    ((List.range 7).map (fun ti =>
      (fillTest ⟨"TS", 0, 1, 1, 1, .EACH, .ICPC_EXPANDED, []⟩ 7 ti ⟨"manual", false, 3, 0⟩
        "in" "out" Test.zero).Score)).sum = 100 :=
  C1_expanded_scores_sum ⟨"TS", 0, 1, 1, 1, .EACH, .ICPC_EXPANDED, []⟩ rfl 7 (by decide)
    (fun _ => ⟨"manual", false, 3, 0⟩) (fun _ => "in") (fun _ => "out") (fun _ => Test.zero)

/-- C2: in a group of `n ≥ 1` tests under `ICPC_EXPANDED`, the test at position
`ti` gets `floor(100/n)` points plus one exactly when it is among the last
`100 mod n` tests (`ti ≥ n - 100 mod n`); the first test never gets the extra
point; sizes 3, 4 and 7 give `[33,33,34]`, `[25,25,25,25]` and
`[14,14,14,14,14,15,15]`. -/
theorem C2_expanded_score_by_position (xts : Testset)
    (hpolicy : xts.FeedbackPolicy = FeedbackPolicy.ICPC_EXPANDED) (n ti : Nat) (hn : 1 ≤ n)
    (hti : ti < n) (ts : SpecificationTest) (input answer : String) (xtt : Test) :
    (fillTest xts n ti ts input answer xtt).Score
        = ((100 / n : Nat) : ℚ) + (if n - 100 % n ≤ ti then 1 else 0)
      ∧ (n - 100 % n ≤ ti ↔ n - ti ≤ 100 % n)
      ∧ (fillTest xts n 0 ts input answer xtt).Score = ((100 / n : Nat) : ℚ)
      ∧ (List.range 3).map (fun i => (fillTest xts 3 i ts input answer xtt).Score)
          = [33, 33, 34]
      ∧ (List.range 4).map (fun i => (fillTest xts 4 i ts input answer xtt).Score)
          = [25, 25, 25, 25]
      ∧ (List.range 7).map (fun i => (fillTest xts 7 i ts input answer xtt).Score)
          = [14, 14, 14, 14, 14, 15, 15] := by
  have hr : 100 % n < n := Nat.mod_lt _ hn
  refine ⟨?_, by omega, ?_, ?_, ?_, ?_⟩
  · rw [fillTest_score_expanded xts hpolicy, expandedScore_eq, Int.cast_add, Int.cast_natCast]
    split <;> simp
  · rw [fillTest_score_expanded xts hpolicy, expandedScore_eq, if_neg (by omega),
      Int.cast_add, Int.cast_natCast]
    simp
  all_goals
    simp only [fillTest_score_expanded xts hpolicy, expandedScore_eq]
    simp [List.range_succ]
    try norm_num

/-- Witness of C2: the sixth of seven tests is in the tail and gets 15 points. -/
theorem C2_expanded_score_by_position_witness :
    (fillTest ⟨"TS", 0, 1, 1, 1, .EACH, .ICPC_EXPANDED, []⟩ 7 5 ⟨"manual", false, 3, 0⟩
        "in" "out" Test.zero).Score = ((100 / 7 : Nat) : ℚ) + (if 7 - 100 % 7 ≤ 5 then 1 else 0) :=
  (C2_expanded_score_by_position ⟨"TS", 0, 1, 1, 1, .EACH, .ICPC_EXPANDED, []⟩ rfl 7 5
    (by decide) (by decide) ⟨"manual", false, 3, 0⟩ "in" "out" Test.zero).1

/-! ## Classifier (C3, C4) -/

/-- C3: whatever the checker sources are (the empty list included), and whatever
the files and the order of the runtime table, `MakeVerifier` returns for each
of the ten standard checker names the fixed verifier of its row, without error
and with no source embedded (`Source` and `Lang` empty). -/
theorem C3_standard_checker_table (env : Env) (path : String) (spec : Specification)
    (sources : List SpecificationSource) :
    MakeVerifier env path { spec with Checker := ⟨"std::rcmp4.cpp", sources⟩ }
        = .ok ⟨VerifierType.TOKENS, 4, true, "", ""⟩
      ∧ MakeVerifier env path { spec with Checker := ⟨"std::ncmp.cpp", sources⟩ }
        = .ok ⟨VerifierType.TOKENS, 4, true, "", ""⟩
      ∧ MakeVerifier env path { spec with Checker := ⟨"std::rcmp6.cpp", sources⟩ }
        = .ok ⟨VerifierType.TOKENS, 6, true, "", ""⟩
      ∧ MakeVerifier env path { spec with Checker := ⟨"std::rcmp9.cpp", sources⟩ }
        = .ok ⟨VerifierType.TOKENS, 9, true, "", ""⟩
      ∧ MakeVerifier env path { spec with Checker := ⟨"std::wcmp.cpp", sources⟩ }
        = .ok ⟨VerifierType.TOKENS, 5, true, "", ""⟩
      ∧ MakeVerifier env path { spec with Checker := ⟨"std::nyesno.cpp", sources⟩ }
        = .ok ⟨VerifierType.TOKENS, 5, false, "", ""⟩
      ∧ MakeVerifier env path { spec with Checker := ⟨"std::yesno.cpp", sources⟩ }
        = .ok ⟨VerifierType.TOKENS, 5, false, "", ""⟩
      ∧ MakeVerifier env path { spec with Checker := ⟨"std::fcmp.cpp", sources⟩ }
        = .ok ⟨VerifierType.LINES, 0, false, "", ""⟩
      ∧ MakeVerifier env path { spec with Checker := ⟨"std::hcmp.cpp", sources⟩ }
        = .ok ⟨VerifierType.LINES, 0, false, "", ""⟩
      ∧ MakeVerifier env path { spec with Checker := ⟨"std::lcmp.cpp", sources⟩ }
        = .ok ⟨VerifierType.LINES, 0, false, "", ""⟩ := by
  refine ⟨?_, ?_, ?_, ?_, ?_, ?_, ?_, ?_, ?_, ?_⟩ <;> simp [MakeVerifier]

theorem scan_of_no_match (env : Env) (path : String) (spec : Specification)
    (l : List (String × List String))
    (h : ∀ e ∈ l, SourceByType spec.Checker.Sources e.2 = none) :
    MakeVerifier.scan env path spec l
      = .error (.error "checker configuration is not supported") := by
  induction l with
  | nil => rfl
  | cons x rest ih =>
    obtain ⟨lang, types⟩ := x
    have hx : SourceByType spec.Checker.Sources types = none := h (lang, types) (by simp)
    simp only [MakeVerifier.scan, hx]
    exact ih (fun e he => h e (List.mem_cons_of_mem _ he))

theorem scan_of_only_match (env : Env) (path : String) (spec : Specification)
    (e : String × List String) (l : List (String × List String)) (hmem : e ∈ l)
    (hm : (SourceByType spec.Checker.Sources e.2).isSome)
    (honly : ∀ x ∈ l, (SourceByType spec.Checker.Sources x.2).isSome → x = e) :
    MakeVerifier.scan env path spec l = MakeVerifier.scan env path spec [e] := by
  induction l with
  | nil => simp at hmem
  | cons x rest ih =>
    by_cases hx : (SourceByType spec.Checker.Sources x.2).isSome
    · have hxe : x = e := honly x (by simp) hx
      subst hxe
      obtain ⟨lang, types⟩ := x
      obtain ⟨source, hs⟩ := Option.isSome_iff_exists.mp hx
      simp only at hs
      simp only [MakeVerifier.scan, hs]
    · have hne : e ≠ x := fun h => hx (h ▸ hm)
      have hrest : e ∈ rest := by
        rcases List.mem_cons.mp hmem with h | h
        · exact absurd h hne
        · exact h
      obtain ⟨lang, types⟩ := x
      have hn : SourceByType spec.Checker.Sources types = none := by
        simpa using hx
      simp only [MakeVerifier.scan, hn]
      exact ih hrest (fun y hy => honly y (List.mem_cons_of_mem _ hy))

theorem scan_perm_of_unique (env : Env) (path : String) (spec : Specification)
    (l1 l2 : List (String × List String)) (hp : l1.Perm l2)
    (huniq : ∀ e1 ∈ l1, ∀ e2 ∈ l1, (SourceByType spec.Checker.Sources e1.2).isSome →
      (SourceByType spec.Checker.Sources e2.2).isSome → e1 = e2) :
    MakeVerifier.scan env path spec l1 = MakeVerifier.scan env path spec l2 := by
  by_cases hex : ∃ e ∈ l1, (SourceByType spec.Checker.Sources e.2).isSome
  · obtain ⟨e, he, hm⟩ := hex
    rw [scan_of_only_match env path spec e l1 he hm (fun x hx hxm => huniq x hx e he hxm hm),
      scan_of_only_match env path spec e l2 (hp.mem_iff.mp he) hm
        (fun x hx hxm => huniq x (hp.mem_iff.mpr hx) e he hxm hm)]
  · have hnone : ∀ e ∈ l1, SourceByType spec.Checker.Sources e.2 = none := by
      intro e he
      by_contra hc
      exact hex ⟨e, he, Option.isSome_iff_ne_none.mpr hc⟩
    rw [scan_of_no_match env path spec l1 hnone,
      scan_of_no_match env path spec l2 (fun e he => hnone e (hp.mem_iff.mpr he))]

theorem scan_congr_env (env1 env2 : Env) (path : String) (spec : Specification)
    (hfile : env1.readFile = env2.readFile) (hjoin : env1.join = env2.join)
    (l : List (String × List String)) :
    MakeVerifier.scan env1 path spec l = MakeVerifier.scan env2 path spec l := by
  induction l with
  | nil => rfl
  | cons x rest ih =>
    obtain ⟨lang, types⟩ := x
    simp only [MakeVerifier.scan, readFileE, hfile, hjoin, ih]

/-- C4, counterexample: with one source of type `cpp.g++17` and one of type
`java11` under a non-standard checker name, two visiting orders of the runtime
table (each a permutation of the table, same files) make `MakeVerifier` return
two different verifiers: runtime `gpp` with the C++ source in one, runtime
`java` with the Java source in the other. -/
theorem C4_counterexample :
    (sampleEnv twoRuntimeSpec sampleRemote).RangesArePerms
      ∧ (reversedEnv twoRuntimeSpec sampleRemote).RangesArePerms
      ∧ (reversedEnv twoRuntimeSpec sampleRemote).readFile
          = (sampleEnv twoRuntimeSpec sampleRemote).readFile
      ∧ MakeVerifier (sampleEnv twoRuntimeSpec sampleRemote) "p" twoRuntimeSpec
          = .ok ⟨VerifierType.PROGRAM, 0, false, "data:p/files/check.cpp", "gpp"⟩
      ∧ MakeVerifier (reversedEnv twoRuntimeSpec sampleRemote) "p" twoRuntimeSpec
          = .ok ⟨VerifierType.PROGRAM, 0, false, "data:p/files/Check.java", "java"⟩
      ∧ MakeVerifier (sampleEnv twoRuntimeSpec sampleRemote) "p" twoRuntimeSpec
          ≠ MakeVerifier (reversedEnv twoRuntimeSpec sampleRemote) "p" twoRuntimeSpec :=
  ⟨fun _ l => List.Perm.refl l, fun _ l => List.reverse_perm l, rfl, by decide, by decide,
    by decide⟩

/-- C4, amended: `MakeVerifier` returns the same verifier under any two visiting
orders of the runtime table (permutations of the table, same files) when the
checker name is one of the ten standard names or when at most one runtime of
the table accepts the type of an available source. -/
theorem C4_deterministic_when_unambiguous (env1 env2 : Env) (path : String)
    (spec : Specification) (h1 : env1.RangesArePerms) (h2 : env2.RangesArePerms)
    (hfile : env1.readFile = env2.readFile) (hjoin : env1.join = env2.join)
    (huniq : spec.Checker.Name ∈ ["std::rcmp4.cpp", "std::ncmp.cpp", "std::rcmp6.cpp",
        "std::rcmp9.cpp", "std::wcmp.cpp", "std::nyesno.cpp", "std::yesno.cpp",
        "std::fcmp.cpp", "std::hcmp.cpp", "std::lcmp.cpp"]
      ∨ ∀ e1 ∈ verifierMapping, ∀ e2 ∈ verifierMapping,
          (SourceByType spec.Checker.Sources e1.2).isSome →
          (SourceByType spec.Checker.Sources e2.2).isSome → e1 = e2) :
    MakeVerifier env1 path spec = MakeVerifier env2 path spec := by
  rcases huniq with hstd | huniq
  · simp only [List.mem_cons, List.mem_singleton, List.not_mem_nil, or_false] at hstd
    rcases hstd with h | h | h | h | h | h | h | h | h | h <;> simp [MakeVerifier, h]
  · have hp1 := h1 _ verifierMapping
    have hp2 := h2 _ verifierMapping
    have key : MakeVerifier.scan env1 path spec (env1.rangeOrder verifierMapping)
        = MakeVerifier.scan env2 path spec (env2.rangeOrder verifierMapping) := by
      rw [scan_congr_env env1 env2 path spec hfile hjoin]
      apply scan_perm_of_unique env2 path spec _ _ (hp1.trans hp2.symm)
      intro e1 he1 e2 he2
      exact huniq e1 (hp1.mem_iff.mp he1) e2 (hp1.mem_iff.mp he2)
    unfold MakeVerifier
    rw [key]

/-- Witness of C4 (amended): one source of type `cpp.g++17`, the table visited
in the order of the source text and in the reverse order. -/
theorem C4_deterministic_when_unambiguous_witness :
    MakeVerifier (sampleEnv oneRuntimeSpec sampleRemote) "p" oneRuntimeSpec
      = MakeVerifier (reversedEnv oneRuntimeSpec sampleRemote) "p" oneRuntimeSpec :=
  C4_deterministic_when_unambiguous (sampleEnv oneRuntimeSpec sampleRemote)
    (reversedEnv oneRuntimeSpec sampleRemote) "p" oneRuntimeSpec
    (fun _ l => List.Perm.refl l) (fun _ l => List.reverse_perm l) rfl rfl
    (Or.inr (by decide))

/-! ## Statement locale backfill (C5, C6) -/

theorem lookup_insert_of_ne {V : Type} (m : GoMap String V) (k k2 : String) (v : V) (h : k ≠ k2) :
    (m.insert k2 v).lookup k = m.lookup k := AList.lookup_insert_ne h

theorem lookup_insert_ite {K V : Type} [DecidableEq K] (m : GoMap K V) (k k2 : K) (v : V) :
    (m.insert k2 v).lookup k = if k = k2 then some v else m.lookup k := by
  by_cases h : k = k2
  · subst h; simp
  · simp [h, AList.lookup_insert_ne h]

/-- C5: when the desired statement set holds at least one of `uk`, `en`, `ru`,
the backfill completes; the default statement is the one of `uk` if present,
else of `en` if present, else of `ru`; afterwards all three locales are
present; every entry that was there is unchanged; every one of the three that
was missing is the default statement with only its locale changed; and no
other locale is touched. -/
theorem C5_backfill (m : GoMap String Statement)
    (h : (m.lookup "uk").isSome ∨ (m.lookup "en").isSome ∨ (m.lookup "ru").isSome) :
    ∃ main m1, mainStatement m = some main ∧ backfill m = .ok m1
      ∧ (∀ s, m.lookup "uk" = some s → main = s)
      ∧ (m.lookup "uk" = none → ∀ s, m.lookup "en" = some s → main = s)
      ∧ (m.lookup "uk" = none → m.lookup "en" = none → m.lookup "ru" = some main)
      ∧ (m1.lookup "uk").isSome ∧ (m1.lookup "en").isSome ∧ (m1.lookup "ru").isSome
      ∧ (∀ k s, m.lookup k = some s → m1.lookup k = some s)
      ∧ (∀ k, k ∈ ["uk", "en", "ru"] → m.lookup k = none →
          m1.lookup k = some { main with Locale := k })
      ∧ (∀ k, k ∉ ["uk", "en", "ru"] → m1.lookup k = m.lookup k) := by
  have e1 : "en" ≠ "uk" := by decide
  have e2 : "ru" ≠ "uk" := by decide
  have e3 : "ru" ≠ "en" := by decide
  rcases hu : m.lookup "uk" with _ | su <;> rcases he : m.lookup "en" with _ | se <;>
    rcases hr : m.lookup "ru" with _ | sr
  · simp [hu, he, hr] at h
  all_goals
    simp only [mainStatement, backfill, backfillStep, List.foldlM, hu, he, hr, bind, Except.bind,
      pure, Except.pure, AList.lookup_insert, lookup_insert_of_ne _ _ _ _ e1,
      lookup_insert_of_ne _ _ _ _ e2, lookup_insert_of_ne _ _ _ _ e3]
    refine ⟨_, _, rfl, rfl, ?_⟩
    simp only [AList.lookup_insert, lookup_insert_of_ne _ _ _ _ e1,
      lookup_insert_of_ne _ _ _ _ e2, lookup_insert_of_ne _ _ _ _ e3,
      lookup_insert_of_ne _ _ _ _ e1.symm,
      lookup_insert_of_ne _ _ _ _ e2.symm, lookup_insert_of_ne _ _ _ _ e3.symm, hu, he, hr]
    refine ⟨by simp, by simp, by simp, by simp, by simp, by simp, ?_, ?_, ?_⟩
    · intro k s hk
      try simp only [lookup_insert_ite]
      repeat' split
      all_goals first | exact hk | (subst k; simp_all)
    · intro k hk hn
      simp only [List.mem_cons, List.mem_singleton, List.not_mem_nil, or_false] at hk
      rcases hk with rfl | rfl | rfl <;> simp_all [lookup_insert_ite]
    · intro k hk
      simp only [List.mem_cons, List.mem_singleton, List.not_mem_nil, or_false, not_or] at hk
      simp [lookup_insert_ite, hk.1, hk.2.1, hk.2.2]

/-- Witness of C5: with only a Russian statement authored, the backfill yields
three entries: the Russian one as authored, and `uk` and `en` as copies of it
with the locale changed, so the content of `uk` is the content of `ru`. -/
theorem C5_backfill_witness :
    ∃ m1, backfill ruOnly = .ok m1 ∧ m1.keys.length = 3
      ∧ m1.lookup "ru" = some (sampleStatement "ru")
      ∧ m1.lookup "uk" = some { sampleStatement "ru" with Locale := "uk" }
      ∧ m1.lookup "en" = some { sampleStatement "ru" with Locale := "en" }
      ∧ (m1.lookup "uk").map (fun s => s.Content)
          = (m1.lookup "ru").map (fun s => s.Content) := by
  obtain ⟨main, m1, _, hb, _, _, hru, _, _, _, hauth, hsyn, _⟩ :=
    C5_backfill ruOnly (by decide)
  have hmain : main = sampleStatement "ru" := by
    have h1 := hru (by decide) (by decide)
    have h2 : AList.lookup "ru" ruOnly = some (sampleStatement "ru") := by decide
    rw [h2] at h1
    exact (Option.some.inj h1).symm
  subst hmain
  have hk : (backfill ruOnly).toOption.map (fun m => m.keys.length) = some 3 := by decide
  rw [hb] at hk
  have hr := hauth "ru" (sampleStatement "ru") (by decide)
  have hu := hsyn "uk" (by simp) (by decide)
  have he := hsyn "en" (by simp) (by decide)
  refine ⟨m1, hb, by simpa [Except.toOption] using hk, hr, hu, he, ?_⟩
  rw [hu, hr]
  rfl

/-- C6: when the desired statement set holds none of `uk`, `en`, `ru`, the
variable `mainStatement` is nil and the first round of the backfill loop
dereferences it: the backfill does not complete, it panics. -/
theorem C6_backfill_nil_dereference (m : GoMap String Statement)
    (hu : m.lookup "uk" = none) (he : m.lookup "en" = none) (hr : m.lookup "ru" = none) :
    mainStatement m = none
      ∧ backfill m = .error (.panic "invalid memory address or nil pointer dereference") := by
  simp [mainStatement, backfill, backfillStep, List.foldlM, hu, he, hr, bind, Except.bind]

/-- Witness of C6: a Hungarian statement only, and nothing at all; the run of
`ImportProblem` on a package whose only statement is Hungarian ends in the
panic, after the tests are uploaded and before any statement is sent. -/
theorem C6_backfill_nil_dereference_witness :
    (mainStatement huOnly = none
      ∧ backfill huOnly = .error (.panic "invalid memory address or nil pointer dereference"))
    ∧ backfill (∅ : GoMap String Statement)
        = .error (.panic "invalid memory address or nil pointer dereference")
    ∧ (ImportProblem (sampleEnv hungarianSpec sampleRemote) "p" "P1" []).1
        = .error (.panic "invalid memory address or nil pointer dereference") :=
  ⟨C6_backfill_nil_dereference huOnly (by decide) (by decide) (by decide), by decide,
    by decide⟩

/-! ## Retry wrappers (C7, C8, C9) -/

theorem attempt_succ (env : Env) (t : List Call) (c : Call) (k : Nat) :
    attempt env (t ++ [c]) c k = attempt env t c (k + 1) := by
  simp [attempt, List.replicate_succ]

theorem attempt_zero (env : Env) (t : List Call) (c : Call) :
    attempt env t c 0 = env.remote t c := by
  simp [attempt]

theorem replicate_shift (t : List Call) (c : Call) (k : Nat) :
    t ++ [c] ++ List.replicate k c = t ++ List.replicate (k + 1) c := by
  simp [List.replicate_succ]

theorem call_ok (env : Env) (c : Call) (t : List Call) (out : Reply)
    (h : env.remote t c = .ok out) : call env c t = (.ok out, t ++ [c]) := by
  simp [call, h]

theorem call_error (env : Env) (c : Call) (t : List Call) (e : Error)
    (h : env.remote t c = .error e) : call env c t = (.error (.error e), t ++ [c]) := by
  simp [call, h]

theorem retry_first_success (env : Env) (c : Call) (n : Nat) :
    ∀ (k : Nat) (t : List Call) (out : Reply), k ≤ n →
      (∀ j, j < k → ∃ e, attempt env t c j = .error e) →
      attempt env t c k = .ok out →
      retry env c n t = (.ok out, t ++ List.replicate (k + 1) c) := by
  induction n with
  | zero =>
    intro k t out hk _ hok
    have hk0 : k = 0 := by omega
    subst hk0
    rw [attempt_zero] at hok
    simp [retry, call_ok env c t out hok]
  | succ n ih =>
    intro k t out hk hfail hok
    cases k with
    | zero =>
      rw [attempt_zero] at hok
      simp [retry, call_ok env c t out hok]
    | succ k =>
      obtain ⟨e, he⟩ := hfail 0 (by omega)
      rw [attempt_zero] at he
      simp only [retry, call_error env c t e he]
      rw [ih k (t ++ [c]) out (by omega)
        (fun j hj => by rw [attempt_succ]; exact hfail (j + 1) (by omega))
        (by rw [attempt_succ]; exact hok)]
      rw [replicate_shift]

theorem retry_all_fail (env : Env) (c : Call) (n : Nat) :
    ∀ (t : List Call), (∀ j, j < n + 1 → ∃ e, attempt env t c j = .error e) →
      ∃ e, attempt env t c n = .error e
        ∧ retry env c n t = (.error (.error e), t ++ List.replicate (n + 1) c) := by
  induction n with
  | zero =>
    intro t hfail
    obtain ⟨e, he⟩ := hfail 0 (by omega)
    refine ⟨e, he, ?_⟩
    rw [attempt_zero] at he
    simp [retry, call_error env c t e he]
  | succ n ih =>
    intro t hfail
    obtain ⟨e0, he0⟩ := hfail 0 (by omega)
    rw [attempt_zero] at he0
    obtain ⟨e, he, hr⟩ := ih (t ++ [c])
      (fun j hj => by rw [attempt_succ]; exact hfail (j + 1) (by omega))
    rw [attempt_succ] at he
    refine ⟨e, he, ?_⟩
    simp only [retry, call_error env c t e0 he0]
    rw [hr, replicate_shift]

theorem retry_attempts (env : Env) (c : Call) (n : Nat) :
    ∀ t : List Call, ∃ k, 1 ≤ k ∧ k ≤ n + 1 ∧ (retry env c n t).2 = t ++ List.replicate k c := by
  induction n with
  | zero =>
    intro t
    refine ⟨1, le_refl _, le_refl _, ?_⟩
    cases h : env.remote t c <;> simp [retry, call, h]
  | succ n ih =>
    intro t
    cases h : env.remote t c with
    | ok out =>
      exact ⟨1, le_refl _, by omega, by simp [retry, call, h]⟩
    | error e =>
      obtain ⟨k, hk1, hk2, hk⟩ := ih (t ++ [c])
      refine ⟨k + 1, by omega, by omega, ?_⟩
      simp only [retry, call, h]
      rw [hk, replicate_shift]

theorem retry_contract (env : Env) (c : Call) : RetryContract env c (retry env c RepeatNumber) := by
  intro t
  refine ⟨retry_attempts env c RepeatNumber t, ?_, ?_⟩
  · intro k out hk hfail hok
    exact retry_first_success env c RepeatNumber k t out (by unfold RepeatNumber; omega) hfail hok
  · intro hfail
    exact retry_all_fail env c RepeatNumber t hfail

/-- C7: each of the seven retry wrappers makes between 1 and 11 attempts of its
remote call and no other call; when attempt `k ≤ 11` is the first to succeed
it makes exactly `k` attempts and returns that output, whatever errors came
before; when all 11 attempts fail it makes exactly 11 and returns the error of
the eleventh. -/
theorem C7_retry_wrappers (env : Env) :
    (∀ problemId testset,
        RetryContract env (.CreateTestset problemId testset) (CreateTestset env problemId testset))
      ∧ (∀ testsetId testset,
        RetryContract env (.UpdateTestset testsetId testset) (UpdateTestset env testsetId testset))
      ∧ (∀ testsetId test,
        RetryContract env (.CreateTest testsetId test) (CreateTest env testsetId test))
      ∧ (∀ testId test,
        RetryContract env (.UpdateTest testId test) (UpdateTest env testId test))
      ∧ (∀ testId, RetryContract env (.DeleteTest testId) (DeleteTest env testId))
      ∧ (∀ problemId statement,
        RetryContract env (.CreateStatement problemId statement)
          (CreateStatement env problemId statement))
      ∧ (∀ statementId statement,
        RetryContract env (.UpdateStatement statementId statement)
          (UpdateStatement env statementId statement)) :=
  ⟨fun _ _ => retry_contract env _, fun _ _ => retry_contract env _,
    fun _ _ => retry_contract env _, fun _ _ => retry_contract env _,
    fun _ => retry_contract env _, fun _ _ => retry_contract env _,
    fun _ _ => retry_contract env _⟩

/-- Witness of C7: against a remote that rejects the first nine calls, updating
a test makes exactly ten attempts and returns the output of the tenth. -/
theorem C7_retry_wrappers_witness :
    UpdateTest (sampleEnv sampleSpec (flakyRemote 9)) "T2" Test.zero []
      = (.ok { Reply.empty with Id := "id9" },
          [] ++ List.replicate (9 + 1) (Call.UpdateTest "T2" Test.zero)) :=
  ((C7_retry_wrappers (sampleEnv sampleSpec (flakyRemote 9))).2.2.2.1 "T2" Test.zero []).2.1
    9 { Reply.empty with Id := "id9" } (by decide)
    (fun j hj => ⟨"unavailable " ++ toString j, by
      have hlen : j < 9 := hj
      simp [attempt, sampleEnv, flakyRemote, hlen]⟩)
    (by decide)

/-! ## Attempts per mutation path (C8) and `CreateProblem` (C9) -/

@[simp] theorem bind_apply {α β : Type} (m : M α) (f : α → M β) (t : List Call) :
    (m >>= f) t = match m t with
      | (.ok a, t1) => f a t1
      | (.error e, t1) => (.error e, t1) := rfl

@[simp] theorem pure_apply {α : Type} (a : α) (t : List Call) :
    (pure a : M α) t = (.ok a, t) := rfl

theorem retry_attempts_when_failing (env : Env) (c : Call) :
    AttemptsWhenFailing env c (retry env c RepeatNumber) 11 := by
  intro hfail t
  obtain ⟨e, _, hr⟩ := retry_all_fail env c RepeatNumber t (fun j _ => hfail _)
  exact ⟨e, hr⟩

theorem MakeObject_loop_all_fail (env : Env) (data : String)
    (hfail : ∀ t, ∃ e, env.remote t (.CreateObject data) = .error e) (n : Nat) :
    ∀ (last : Option Error) (t : List Call), ∃ e,
      MakeObject.loop env data (n + 1) last t
        = (.error (.error e), t ++ List.replicate (n + 1) (.CreateObject data)) := by
  induction n with
  | zero =>
    intro last t
    obtain ⟨e, he⟩ := hfail t
    exact ⟨e, by simp [MakeObject.loop, he, M.fail]⟩
  | succ n ih =>
    intro last t
    obtain ⟨e0, he0⟩ := hfail t
    obtain ⟨e, he⟩ := ih (some e0) (t ++ [.CreateObject data])
    refine ⟨e, ?_⟩
    rw [MakeObject.loop]
    simp only [he0]
    rw [he, replicate_shift]

/-- C8, counterexample: against remotes that reject every attempt of one
operation, `ImportProblem` returns the error after 11 attempts of `DeleteTest`,
but after 10 attempts of the blob upload `CreateObject`, and after a single
attempt of `DeleteTestset`. -/
theorem C8_counterexample :
    ((ImportProblem (sampleEnv groupedSpec (failingRemote Call.isDeleteTest)) "p" "P1" []).1
        = .error (.error "unavailable")
      ∧ List.countP Call.isDeleteTest
          (ImportProblem (sampleEnv groupedSpec (failingRemote Call.isDeleteTest)) "p" "P1" []).2
        = 11)
    ∧ ((ImportProblem (sampleEnv groupedSpec (failingRemote Call.isCreateObject)) "p" "P1" []).1
        = .error (.error "unavailable")
      ∧ List.countP Call.isCreateObject
          (ImportProblem (sampleEnv groupedSpec (failingRemote Call.isCreateObject)) "p" "P1" []).2
        = 10)
    ∧ ((ImportProblem (sampleEnv groupedSpec (failingRemote Call.isDeleteTestset)) "p" "P1" []).1
        = .error (.error "unavailable")
      ∧ List.countP Call.isDeleteTestset
          (ImportProblem (sampleEnv groupedSpec (failingRemote Call.isDeleteTestset)) "p" "P1" []).2
        = 1) := by
  decide

/-- C8, amended: against a remote that rejects every attempt of an operation,
the seven wrapped mutations (create and update of a testset, create, update
and delete of a test, create and update of a statement) are attempted 11
times; the blob upload of `MakeObject` is attempted 10 times; and the
mutations `ImportProblem` calls directly (delete of a testset, delete of a
statement, create, update and delete of a solution) are attempted once.  In
each case the error is returned and no other call is made. -/
theorem C8_attempts_per_mutation_path (env : Env) :
    (∀ problemId testset, AttemptsWhenFailing env (.CreateTestset problemId testset)
        (CreateTestset env problemId testset) 11)
      ∧ (∀ testsetId testset, AttemptsWhenFailing env (.UpdateTestset testsetId testset)
        (UpdateTestset env testsetId testset) 11)
      ∧ (∀ testsetId test, AttemptsWhenFailing env (.CreateTest testsetId test)
        (CreateTest env testsetId test) 11)
      ∧ (∀ testId test, AttemptsWhenFailing env (.UpdateTest testId test)
        (UpdateTest env testId test) 11)
      ∧ (∀ testId, AttemptsWhenFailing env (.DeleteTest testId) (DeleteTest env testId) 11)
      ∧ (∀ problemId statement, AttemptsWhenFailing env (.CreateStatement problemId statement)
        (CreateStatement env problemId statement) 11)
      ∧ (∀ statementId statement, AttemptsWhenFailing env (.UpdateStatement statementId statement)
        (UpdateStatement env statementId statement) 11)
      ∧ (∀ path data, env.readFile path = .ok data →
        AttemptsWhenFailing env (.CreateObject data) (MakeObject env path) 10)
      ∧ (∀ (k : Nat) (testset : Testset) rest, AttemptsWhenFailing env (.DeleteTestset testset.Id)
        (removeUnusedTestsets env ((k, testset) :: rest)) 1)
      ∧ (∀ (k : String) (statement : Statement) rest,
        AttemptsWhenFailing env (.DeleteStatement statement.Id)
          (removeUnusedStatements env ((k, statement) :: rest)) 1)
      ∧ (∀ (k : String) (solution : Solution) rest,
        AttemptsWhenFailing env (.DeleteSolution solution.Id)
          (removeUnusedSolutions env ((k, solution) :: rest)) 1)
      ∧ (∀ pid solutions (solution : Solution), solutions.lookup solution.Locale = none →
        solution.Id = "" →
        AttemptsWhenFailing env (.CreateSolution pid solution)
          (importSolution env pid solutions solution) 1)
      ∧ (∀ pid solutions (solution xs : Solution), solutions.lookup solution.Locale = some xs →
        xs.Id ≠ "" →
        AttemptsWhenFailing env
          (.UpdateSolution xs.Id { xs with
            Locale := solution.Locale, Content := solution.Content, Format := solution.Format })
          (importSolution env pid solutions solution) 1) := by
  refine ⟨fun _ _ => retry_attempts_when_failing env _, fun _ _ => retry_attempts_when_failing env _,
    fun _ _ => retry_attempts_when_failing env _, fun _ _ => retry_attempts_when_failing env _,
    fun _ => retry_attempts_when_failing env _, fun _ _ => retry_attempts_when_failing env _,
    fun _ _ => retry_attempts_when_failing env _, ?_, ?_, ?_, ?_, ?_, ?_⟩
  · intro path data hread hfail t
    obtain ⟨e, he⟩ := MakeObject_loop_all_fail env data hfail 9 none t
    exact ⟨e, by simp only [MakeObject, hread, RepeatNumber]; exact he⟩
  · intro k testset rest hfail t
    obtain ⟨e, he⟩ := hfail t
    exact ⟨e, by simp [removeUnusedTestsets, call, he]⟩
  · intro k statement rest hfail t
    obtain ⟨e, he⟩ := hfail t
    exact ⟨e, by simp [removeUnusedStatements, call, he]⟩
  · intro k solution rest hfail t
    obtain ⟨e, he⟩ := hfail t
    exact ⟨e, by simp [removeUnusedSolutions, call, he]⟩
  · intro pid solutions solution hlook hid hfail t
    obtain ⟨e, he⟩ := hfail t
    exact ⟨e, by simp [importSolution, hlook, hid, call, he]⟩
  · intro pid solutions solution xs hlook hid hfail t
    obtain ⟨e, he⟩ := hfail t
    exact ⟨e, by simp [importSolution, hlook, hid, call, he]⟩

/-- Witness of C8 (amended): against a remote that rejects every call, the
upload of a readable file makes exactly ten attempts. -/
theorem C8_attempts_per_mutation_path_witness :
    ∃ e, MakeObject (sampleEnv sampleSpec (failingRemote (fun _ => true))) "p/tests/01" []
      = (.error (.error e),
          [] ++ List.replicate 10 (Call.CreateObject "data:p/tests/01")) :=
  (C8_attempts_per_mutation_path (sampleEnv sampleSpec (failingRemote (fun _ => true)))).2.2.2.2.2.2.2.1
    "p/tests/01" "data:p/tests/01" (by decide) (fun _ => ⟨"unavailable", rfl⟩) []

theorem CreateProblem_loop_all_fail (env : Env)
    (hfail : ∀ t, ∃ e, env.remote t .CreateProblem = .error e) (n : Nat) :
    ∀ t : List Call,
      CreateProblem.loop env n t = (.ok "", t ++ List.replicate n .CreateProblem) := by
  induction n with
  | zero => intro t; simp [CreateProblem.loop, M.pure]
  | succ n ih =>
    intro t
    obtain ⟨e, he⟩ := hfail t
    simp only [CreateProblem.loop, call, he]
    rw [ih, replicate_shift]

/-- C9: when the remote rejects every attempt of `CreateProblem`, the function
`CreateProblem` makes ten attempts and then returns the empty problem id with
a nil error: the failure is not reported to the caller. -/
theorem C9_CreateProblem_returns_nil_error (env : Env)
    (hfail : ∀ t, ∃ e, env.remote t .CreateProblem = .error e) (t : List Call) :
    CreateProblem env t = (.ok "", t ++ List.replicate 10 .CreateProblem) :=
  CreateProblem_loop_all_fail env hfail 10 t

/-- Witness of C9: against a remote that rejects `CreateProblem` only,
`ImportProblem` called with an empty problem id does not return an error; it
goes on with the empty id, lists the templates of problem `""`, sets its
verifier, creates a testset in it, and ends with success after 25 calls. -/
theorem C9_CreateProblem_returns_nil_error_witness :
    CreateProblem (sampleEnv sampleSpec (failingRemote Call.isCreateProblem)) []
        = (.ok "", [] ++ List.replicate 10 .CreateProblem)
    ∧ (ImportProblem (sampleEnv sampleSpec (failingRemote Call.isCreateProblem)) "p" "" []).1
        = .ok ""
    ∧ ((ImportProblem (sampleEnv sampleSpec (failingRemote Call.isCreateProblem)) "p" "" []).2.drop
          10).take 3
        = [.ListCodeTemplates "",
           .UpdateVerifier "" ⟨VerifierType.TOKENS, 5, true, "", ""⟩,
           .CreateTestset "" ⟨"", 0, 1000, 256, 536870912, .EACH, .ICPC_EXPANDED, []⟩]
    ∧ (ImportProblem (sampleEnv sampleSpec (failingRemote Call.isCreateProblem)) "p" "" []).2.length
        = 25 :=
  ⟨C9_CreateProblem_returns_nil_error _ (fun _ => ⟨"unavailable", rfl⟩) [], by decide, by decide,
    by decide⟩

/-! ## Natural-key matching of tests (C10) -/

theorem retry_ok (env : Env) (hok : ∀ t c, ∃ r, env.remote t c = .ok r) (c : Call) (n : Nat)
    (t : List Call) : ∃ r, retry env c n t = (.ok r, t ++ [c]) := by
  obtain ⟨r, hr⟩ := hok t c
  refine ⟨r, ?_⟩
  cases n <;> simp [retry, call, hr]

theorem MakeObject_ok (env : Env) (hok : ∀ t c, ∃ r, env.remote t c = .ok r)
    (hread : ∀ p, ∃ d, env.readFile p = .ok d) (p : String) (t : List Call) :
    ∃ key data, MakeObject env p t = (.ok key, t ++ [.CreateObject data]) := by
  obtain ⟨d, hd⟩ := hread p
  obtain ⟨r, hr⟩ := hok t (.CreateObject d)
  refine ⟨r.Id, d, ?_⟩
  simp [MakeObject, hd, RepeatNumber, MakeObject.loop, hr]

theorem fillTest_Id (xts : Testset) (n ti : Nat) (ts : SpecificationTest) (input answer : String)
    (xtt : Test) : (fillTest xts n ti ts input answer xtt).Id = xtt.Id := by
  unfold fillTest; split <;> rfl

theorem fillTest_Index (xts : Testset) (n ti : Nat) (ts : SpecificationTest)
    (input answer : String) (xtt : Test) :
    (fillTest xts n ti ts input answer xtt).Index = toInt32 ((ti : Int) + 1) := by
  unfold fillTest; split <;> simp only

theorem importTest_ok (env : Env) (hok : ∀ t c, ∃ r, env.remote t c = .ok r)
    (hread : ∀ p, ∃ d, env.readFile p = .ok d) (path : String) (testset : SpecificationTestset)
    (testIndex : GoMap (Nat × Int) Nat) (xts : Testset) (n : Nat)
    (tests : GoMap (Nat × Int) Test) (ti : Nat) (ts : SpecificationTest) (t : List Call) :
    ∃ tr op, importTest env path testset testIndex xts n tests ti ts t
        = (.ok (tests.erase (xts.Index, toInt32 ((ti : Int) + 1))), t ++ tr)
      ∧ tr.filter Call.isTestMutation = [op]
      ∧ TestOpFor (tests.lookup (xts.Index, toInt32 ((ti : Int) + 1)))
          (toInt32 ((ti : Int) + 1)) op := by
  unfold importTest
  simp only [bind_apply]
  obtain ⟨k1, d1, h1⟩ := MakeObject_ok env hok hread
    (env.join [path, env.sprintf testset.InputPathPattern
      ((((testIndex.lookup (xts.Index, toInt32 ((ti : Int) + 1))).getD 0 : Nat) : Int) + 1)]) t
  rw [h1]
  simp only
  obtain ⟨k2, d2, h2⟩ := MakeObject_ok env hok hread
    (env.join [path, env.sprintf testset.AnswerPathPattern
      ((((testIndex.lookup (xts.Index, toInt32 ((ti : Int) + 1))).getD 0 : Nat) : Int) + 1)])
    (t ++ [.CreateObject d1])
  rw [h2]
  simp only
  rw [fillTest_Id]
  by_cases hid : ((tests.lookup (xts.Index, toInt32 ((ti : Int) + 1))).getD Test.zero).Id = ""
  · rw [if_pos hid]
    obtain ⟨r, hr⟩ := retry_ok env hok (.CreateTest xts.Id (fillTest xts n ti ts k1 k2
      ((tests.lookup (xts.Index, toInt32 ((ti : Int) + 1))).getD Test.zero))) RepeatNumber
      (t ++ [.CreateObject d1] ++ [.CreateObject d2])
    refine ⟨[.CreateObject d1, .CreateObject d2, .CreateTest xts.Id (fillTest xts n ti ts k1 k2
      ((tests.lookup (xts.Index, toInt32 ((ti : Int) + 1))).getD Test.zero))],
      .CreateTest xts.Id (fillTest xts n ti ts k1 k2
      ((tests.lookup (xts.Index, toInt32 ((ti : Int) + 1))).getD Test.zero)), ?_, ?_, ?_⟩
    · simp only [bind_apply, CreateTest]
      rw [hr]
      simp
    · simp [Call.isTestMutation]
    · rcases hl : tests.lookup (xts.Index, toInt32 ((ti : Int) + 1)) with _ | xtt
      · exact ⟨_, _, rfl, by rw [fillTest_Id]; rfl, fillTest_Index _ _ _ _ _ _ _⟩
      · rw [hl] at hid
        simp only [TestOpFor, Option.getD_some] at hid ⊢
        rw [if_pos hid]
        exact ⟨_, _, rfl, fillTest_Index _ _ _ _ _ _ _⟩
  · rw [if_neg hid]
    obtain ⟨r, hr⟩ := retry_ok env hok
      (.UpdateTest ((tests.lookup (xts.Index, toInt32 ((ti : Int) + 1))).getD Test.zero).Id
        (fillTest xts n ti ts k1 k2
          ((tests.lookup (xts.Index, toInt32 ((ti : Int) + 1))).getD Test.zero))) RepeatNumber
      (t ++ [.CreateObject d1] ++ [.CreateObject d2])
    refine ⟨[.CreateObject d1, .CreateObject d2,
      .UpdateTest ((tests.lookup (xts.Index, toInt32 ((ti : Int) + 1))).getD Test.zero).Id
        (fillTest xts n ti ts k1 k2
          ((tests.lookup (xts.Index, toInt32 ((ti : Int) + 1))).getD Test.zero))],
      .UpdateTest ((tests.lookup (xts.Index, toInt32 ((ti : Int) + 1))).getD Test.zero).Id
        (fillTest xts n ti ts k1 k2
          ((tests.lookup (xts.Index, toInt32 ((ti : Int) + 1))).getD Test.zero)), ?_, ?_, ?_⟩
    · simp only [bind_apply, UpdateTest]
      rw [hr]
      simp
    · simp [Call.isTestMutation]
    · rcases hl : tests.lookup (xts.Index, toInt32 ((ti : Int) + 1)) with _ | xtt
      · rw [hl] at hid
        exact absurd rfl hid
      · rw [hl] at hid
        simp only [TestOpFor, Option.getD_some] at hid ⊢
        rw [if_neg hid]
        exact ⟨_, rfl, fillTest_Id _ _ _ _ _ _ _, fillTest_Index _ _ _ _ _ _ _⟩

theorem toInt32_of_small (x : Int) (h0 : 0 ≤ x) (h1 : x < 2 ^ 31) : toInt32 x = x := by
  unfold toInt32 Int.bmod
  have hm : x % ((2 ^ 32 : Nat) : Int) = x := Int.emod_eq_of_lt h0 (by norm_num; omega)
  rw [hm]
  norm_num
  omega

theorem importTests_ok (env : Env) (hok : ∀ t c, ∃ r, env.remote t c = .ok r)
    (hread : ∀ p, ∃ d, env.readFile p = .ok d) (path : String) (testset : SpecificationTestset)
    (testIndex : GoMap (Nat × Int) Nat) (xts : Testset) (n : Nat) :
    ∀ (gts : List SpecificationTest) (ti0 : Nat) (tests : GoMap (Nat × Int) Test)
      (t : List Call), ti0 + gts.length < 2 ^ 31 →
      ∃ tests1 tr, importTests env path testset testIndex xts n ti0 gts tests t
          = (.ok tests1, t ++ tr)
        ∧ List.Forall₂ (fun (p : Option Test × Int) op => TestOpFor p.1 p.2 op)
            ((List.range' ti0 gts.length).map
              (fun (ti : Nat) => (tests.lookup (xts.Index, (ti : Int) + 1), (ti : Int) + 1)))
            (tr.filter Call.isTestMutation)
        ∧ (∀ key : Nat × Int, key.1 ≠ xts.Index → tests1.lookup key = tests.lookup key) := by
  intro gts
  induction gts with
  | nil =>
    intro ti0 tests t _
    exact ⟨tests, [], by simp [importTests], by simp, fun _ _ => rfl⟩
  | cons ts rest ih =>
    intro ti0 tests t hlen
    simp only [List.length_cons] at hlen
    obtain ⟨tr1, op, h1, hf1, hop⟩ :=
      importTest_ok env hok hread path testset testIndex xts n tests ti0 ts t
    have hsmall : toInt32 ((ti0 : Int) + 1) = (ti0 : Int) + 1 :=
      toInt32_of_small _ (by omega) (by omega)
    rw [hsmall] at h1 hop
    obtain ⟨tests1, tr2, h2, hf2, hframe⟩ :=
      ih (ti0 + 1) (tests.erase (xts.Index, (ti0 : Int) + 1)) (t ++ tr1) (by omega)
    refine ⟨tests1, tr1 ++ tr2, ?_, ?_, ?_⟩
    · simp only [importTests, bind_apply, h1, h2, List.append_assoc]
    · rw [List.filter_append, hf1, List.length_cons, List.range'_succ, List.map_cons]
      refine List.Forall₂.cons hop ?_
      have hmap : (List.range' (ti0 + 1) rest.length).map
            (fun (ti : Nat) => ((tests.erase (xts.Index, (ti0 : Int) + 1)).lookup
              (xts.Index, (ti : Int) + 1), (ti : Int) + 1))
          = (List.range' (ti0 + 1) rest.length).map
            (fun (ti : Nat) => (tests.lookup (xts.Index, (ti : Int) + 1), (ti : Int) + 1)) := by
        apply List.map_congr_left
        intro ti hti
        have hge : ti0 + 1 ≤ ti := (List.mem_range'_1.mp hti).1
        rw [AList.lookup_erase_ne]
        intro hc
        have := (Prod.mk.inj hc).2
        omega
      rw [← hmap]
      exact hf2
    · intro key hkey
      rw [hframe key hkey, AList.lookup_erase_ne]
      intro hc
      exact hkey (by rw [hc])

theorem readTestsByGroup_lookup (g : Nat) :
    ∀ (tests : List SpecificationTest) (gi : Nat) (groupTests : GoMap Nat (List SpecificationTest))
      (testIndex : GoMap (Nat × Int) Nat),
      (((readTestsByGroup gi tests groupTests testIndex).1).lookup g).getD []
        = (groupTests.lookup g).getD [] ++ tests.filter (fun x => decide (x.Group = g)) := by
  intro tests
  induction tests with
  | nil => intro gi groupTests testIndex; simp [readTestsByGroup]
  | cons test rest ih =>
    intro gi groupTests testIndex
    rw [readTestsByGroup, ih]
    by_cases hg : test.Group = g
    · subst hg
      simp [AList.lookup_insert]
    · have hne : g ≠ test.Group := fun h => hg h.symm
      simp [AList.lookup_insert_ne hne, hg]

theorem groupTests_length_le (tests : List SpecificationTest) (g : Nat) :
    ((((readTestsByGroup 0 tests ∅ ∅).1).lookup g).getD []).length ≤ tests.length := by
  rw [readTestsByGroup_lookup]
  simpa using List.length_filter_le _ tests

theorem fillTestset_Index (testset : SpecificationTestset) (group : SpecificationGroup)
    (xts : Testset) : (fillTestset testset group xts).Index = group.Name := rfl

theorem importGroup_ok (env : Env) (hok : ∀ t c, ∃ r, env.remote t c = .ok r)
    (hread : ∀ p, ∃ d, env.readFile p = .ok d) (path pid : String)
    (testset : SpecificationTestset) (groupTests : GoMap Nat (List SpecificationTest))
    (testIndex : GoMap (Nat × Int) Nat) (testsets : GoMap Nat Testset)
    (tests : GoMap (Nat × Int) Test) (group : SpecificationGroup) (t : List Call)
    (hsize : ((groupTests.lookup group.Name).getD []).length < 2 ^ 31) :
    ∃ testsets1 tests1 tr,
      importGroup env path pid testset groupTests testIndex testsets tests group t
          = (.ok (testsets1, tests1), t ++ tr)
        ∧ List.Forall₂ (fun (p : Option Test × Int) op => TestOpFor p.1 p.2 op)
            ((groupKeys group.Name ((groupTests.lookup group.Name).getD []).length).map
              (fun key => (tests.lookup key, key.2)))
            (tr.filter Call.isTestMutation)
        ∧ (∀ key : Nat × Int, key.1 ≠ group.Name → tests1.lookup key = tests.lookup key) := by
  have hkeys : (groupKeys group.Name ((groupTests.lookup group.Name).getD []).length).map
        (fun key => (tests.lookup key, key.2))
      = (List.range' 0 ((groupTests.lookup group.Name).getD []).length).map
        (fun (ti : Nat) => (tests.lookup (group.Name, (ti : Int) + 1), (ti : Int) + 1)) := by
    simp [groupKeys, List.range_eq_range', Function.comp_def]
  rw [hkeys]
  unfold importGroup
  simp only [bind_apply]
  by_cases hid : (fillTestset testset group ((testsets.lookup group.Name).getD Testset.zero)).Id ≠ ""
  · rw [if_pos hid]
    obtain ⟨r, hr⟩ := retry_ok env hok
      (.UpdateTestset (fillTestset testset group ((testsets.lookup group.Name).getD Testset.zero)).Id
        (fillTestset testset group ((testsets.lookup group.Name).getD Testset.zero)))
      RepeatNumber t
    obtain ⟨tests1, tr2, h2, hf2, hframe⟩ := importTests_ok env hok hread path testset testIndex
      (fillTestset testset group ((testsets.lookup group.Name).getD Testset.zero))
      ((groupTests.lookup group.Name).getD []).length ((groupTests.lookup group.Name).getD []) 0
      tests (t ++ [.UpdateTestset
        (fillTestset testset group ((testsets.lookup group.Name).getD Testset.zero)).Id
        (fillTestset testset group ((testsets.lookup group.Name).getD Testset.zero))])
      (by omega)
    rw [fillTestset_Index] at hf2 hframe
    refine ⟨testsets.erase group.Name, tests1,
      .UpdateTestset (fillTestset testset group ((testsets.lookup group.Name).getD Testset.zero)).Id
        (fillTestset testset group ((testsets.lookup group.Name).getD Testset.zero)) :: tr2,
      ?_, ?_, hframe⟩
    · simp only [bind_apply, UpdateTestset]
      rw [hr]
      simp only [pure_apply]
      rw [h2]
      simp
    · simpa [Call.isTestMutation] using hf2
  · rw [if_neg hid]
    obtain ⟨r, hr⟩ := retry_ok env hok
      (.CreateTestset pid
        (fillTestset testset group ((testsets.lookup group.Name).getD Testset.zero)))
      RepeatNumber t
    obtain ⟨tests1, tr2, h2, hf2, hframe⟩ := importTests_ok env hok hread path testset testIndex
      { fillTestset testset group ((testsets.lookup group.Name).getD Testset.zero) with Id := r.Id }
      ((groupTests.lookup group.Name).getD []).length ((groupTests.lookup group.Name).getD []) 0
      tests (t ++ [.CreateTestset pid
        (fillTestset testset group ((testsets.lookup group.Name).getD Testset.zero))])
      (by omega)
    simp only [fillTestset_Index] at hf2 hframe
    refine ⟨testsets.erase group.Name, tests1,
      .CreateTestset pid
        (fillTestset testset group ((testsets.lookup group.Name).getD Testset.zero)) :: tr2,
      ?_, ?_, hframe⟩
    · simp only [bind_apply, CreateTestset]
      rw [hr]
      simp only [pure_apply]
      rw [h2]
      simp
    · simpa [Call.isTestMutation] using hf2

theorem mem_groupKeys (name n : Nat) (key : Nat × Int) (h : key ∈ groupKeys name n) :
    key.1 = name := by
  simp only [groupKeys, List.mem_map] at h
  obtain ⟨ti, _, rfl⟩ := h
  rfl

theorem mem_desiredTestKeys (groupTests : GoMap Nat (List SpecificationTest))
    (groups : List SpecificationGroup) (key : Nat × Int)
    (h : key ∈ desiredTestKeys groupTests groups) :
    key.1 ∈ groups.map (fun g => g.Name) := by
  induction groups with
  | nil => simp [desiredTestKeys] at h
  | cons g rest ih =>
    simp only [desiredTestKeys, List.mem_append] at h
    rcases h with h | h
    · simp [mem_groupKeys _ _ _ h]
    · simp [ih h]

theorem importGroups_ok (env : Env) (hok : ∀ t c, ∃ r, env.remote t c = .ok r)
    (hread : ∀ p, ∃ d, env.readFile p = .ok d) (path pid : String)
    (testset : SpecificationTestset) (groupTests : GoMap Nat (List SpecificationTest))
    (testIndex : GoMap (Nat × Int) Nat)
    (hsize : ∀ g : Nat, ((groupTests.lookup g).getD []).length < 2 ^ 31) :
    ∀ (groups : List SpecificationGroup) (testsets : GoMap Nat Testset)
      (tests : GoMap (Nat × Int) Test) (t : List Call),
      (groups.map (fun g => g.Name)).Nodup →
      ∃ testsets1 tests1 tr,
        importGroups env path pid testset groupTests testIndex groups testsets tests t
            = (.ok (testsets1, tests1), t ++ tr)
          ∧ List.Forall₂ (fun (p : Option Test × Int) op => TestOpFor p.1 p.2 op)
              ((desiredTestKeys groupTests groups).map (fun key => (tests.lookup key, key.2)))
              (tr.filter Call.isTestMutation)
          ∧ (∀ key : Nat × Int, key.1 ∉ groups.map (fun g => g.Name) →
              tests1.lookup key = tests.lookup key) := by
  intro groups
  induction groups with
  | nil =>
    intro testsets tests t _
    exact ⟨testsets, tests, [], by simp [importGroups], by simp [desiredTestKeys],
      fun _ _ => rfl⟩
  | cons g rest ih =>
    intro testsets tests t hnodup
    simp only [List.map_cons, List.nodup_cons] at hnodup
    obtain ⟨testsets1, tests1, tr1, h1, hf1, hframe1⟩ :=
      importGroup_ok env hok hread path pid testset groupTests testIndex testsets tests g t
        (hsize g.Name)
    obtain ⟨testsets2, tests2, tr2, h2, hf2, hframe2⟩ :=
      ih testsets1 tests1 (t ++ tr1) hnodup.2
    refine ⟨testsets2, tests2, tr1 ++ tr2, ?_, ?_, ?_⟩
    · simp only [importGroups, bind_apply, h1, h2, List.append_assoc]
    · rw [List.filter_append, desiredTestKeys, List.map_append]
      refine List.rel_append hf1 ?_
      have hmap : (desiredTestKeys groupTests rest).map (fun key => (tests1.lookup key, key.2))
          = (desiredTestKeys groupTests rest).map (fun key => (tests.lookup key, key.2)) := by
        apply List.map_congr_left
        intro key hkey
        rw [hframe1 key]
        intro hc
        exact hnodup.1 (hc ▸ mem_desiredTestKeys groupTests rest key hkey)
      rw [← hmap]
      exact hf2
    · intro key hkey
      simp only [List.map_cons, List.mem_cons, not_or] at hkey
      rw [hframe2 key hkey.2, hframe1 key hkey.1]

theorem importTestsets_matching (env : Env) (path pid : String) (spec : Specification)
    (testset : SpecificationTestset) (others : List SpecificationTestset)
    (hspec : spec.Judging.Testsets = testset :: others)
    (hok : ∀ t c, ∃ r, env.remote t c = .ok r)
    (hread : ∀ p, ∃ d, env.readFile p = .ok d)
    (hnames : ((groupsOf testset).map (fun g => g.Name)).Nodup)
    (hsize : testset.Tests.length < 2 ^ 31)
    (testsets : GoMap Nat Testset) (tests : GoMap (Nat × Int) Test) (t : List Call) :
    ∃ testsets1 tests1 tr,
      importTestsets env path pid spec testsets tests t = (.ok (testsets1, tests1), t ++ tr)
        ∧ List.Forall₂ (fun key op => TestOpFor (tests.lookup key) key.2 op)
            (desiredTestKeys (readTestsByGroup 0 testset.Tests ∅ ∅).1 (groupsOf testset))
            (tr.filter Call.isTestMutation) := by
  obtain ⟨testsets1, tests1, tr, h, hf, _⟩ :=
    importGroups_ok env hok hread path pid testset (readTestsByGroup 0 testset.Tests ∅ ∅).1
      (readTestsByGroup 0 testset.Tests ∅ ∅).2
      (fun g => lt_of_le_of_lt (groupTests_length_le testset.Tests g) hsize)
      (groupsOf testset) testsets tests t hnames
  refine ⟨testsets1, tests1, tr, ?_, ?_⟩
  · simp only [importTestsets, hspec]
    exact h
  · exact (List.forall₂_map_left_iff).mp hf

/-! ### Which calls a step can add to the trace -/

theorem emits_mono {α : Type} {ks1 ks2 : List CallKind} {m : M α} (h : Emits ks1 m)
    (hsub : ∀ k ∈ ks1, k ∈ ks2) : Emits ks2 m := by
  intro t
  obtain ⟨tr, h1, h2⟩ := h t
  exact ⟨tr, h1, fun c hc => hsub _ (h2 c hc)⟩

theorem emits_pure {α : Type} (ks : List CallKind) (a : α) : Emits ks (pure a : M α) :=
  fun t => ⟨[], by simp, by simp⟩

theorem emits_fail {α : Type} (ks : List CallKind) (e : Fault) : Emits ks (M.fail e : M α) :=
  fun t => ⟨[], by simp [M.fail], by simp⟩

theorem emits_lift {α : Type} (ks : List CallKind) (r : Except Fault α) :
    Emits ks (M.lift r : M α) :=
  fun t => ⟨[], by simp [M.lift], by simp⟩

theorem emits_bind {α β : Type} {ks : List CallKind} {m : M α} {f : α → M β}
    (hm : Emits ks m) (hf : ∀ a, Emits ks (f a)) : Emits ks (m >>= f) := by
  intro t
  obtain ⟨tr1, h1, hk1⟩ := hm t
  rw [bind_apply]
  rcases hmt : m t with ⟨r, t1⟩
  rw [hmt] at h1
  simp only at h1
  subst h1
  cases r with
  | error e => exact ⟨tr1, rfl, hk1⟩
  | ok a =>
    obtain ⟨tr2, h2, hk2⟩ := hf a (t ++ tr1)
    refine ⟨tr1 ++ tr2, by simp only [h2, List.append_assoc], ?_⟩
    intro c hc
    rcases List.mem_append.mp hc with h | h
    · exact hk1 c h
    · exact hk2 c h

theorem emits_call (env : Env) (c : Call) : Emits [c.kind] (call env c) := by
  intro t
  refine ⟨[c], ?_, by simp⟩
  unfold call
  cases env.remote t c <;> rfl

theorem emits_callIgnore (env : Env) (c : Call) : Emits [c.kind] (callIgnore env c) := by
  intro t
  refine ⟨[c], ?_, by simp⟩
  unfold callIgnore
  cases env.remote t c <;> rfl

theorem emits_retry (env : Env) (c : Call) (n : Nat) : Emits [c.kind] (retry env c n) := by
  intro t
  obtain ⟨k, _, _, hk⟩ := retry_attempts env c n t
  refine ⟨List.replicate k c, hk, ?_⟩
  intro x hx
  rw [List.eq_of_mem_replicate hx]
  simp

theorem succeeds_emits {α : Type} {ks : List CallKind} {m : M α} (h : Succeeds ks m) :
    Emits ks m := by
  intro t
  obtain ⟨a, tr, h1, h2⟩ := h t
  exact ⟨tr, by rw [h1], h2⟩

theorem succeeds_mono {α : Type} {ks1 ks2 : List CallKind} {m : M α} (h : Succeeds ks1 m)
    (hsub : ∀ k ∈ ks1, k ∈ ks2) : Succeeds ks2 m := by
  intro t
  obtain ⟨a, tr, h1, h2⟩ := h t
  exact ⟨a, tr, h1, fun c hc => hsub _ (h2 c hc)⟩

theorem succeeds_pure {α : Type} (ks : List CallKind) (a : α) : Succeeds ks (pure a : M α) :=
  fun t => ⟨a, [], by simp, by simp⟩

theorem succeeds_bind {α β : Type} {ks : List CallKind} {m : M α} {f : α → M β}
    (hm : Succeeds ks m) (hf : ∀ a, Succeeds ks (f a)) : Succeeds ks (m >>= f) := by
  intro t
  obtain ⟨a, tr1, h1, hk1⟩ := hm t
  obtain ⟨b, tr2, h2, hk2⟩ := hf a (t ++ tr1)
  refine ⟨b, tr1 ++ tr2, by simp only [bind_apply, h1, h2, List.append_assoc], ?_⟩
  intro c hc
  rcases List.mem_append.mp hc with h | h
  · exact hk1 c h
  · exact hk2 c h

theorem succeeds_call (env : Env) (hok : ∀ t c, ∃ r, env.remote t c = .ok r) (c : Call) :
    Succeeds [c.kind] (call env c) := by
  intro t
  obtain ⟨r, hr⟩ := hok t c
  exact ⟨r, [c], by simp [call, hr], by simp⟩

theorem succeeds_callIgnore (env : Env) (c : Call) : Succeeds [c.kind] (callIgnore env c) := by
  intro t
  unfold callIgnore
  cases h : env.remote t c with
  | ok r => exact ⟨r, [c], rfl, by simp⟩
  | error e => exact ⟨Reply.empty, [c], rfl, by simp⟩

theorem emits_removeUnusedTests (env : Env) (l : List ((Nat × Int) × Test)) :
    Emits [.deleteTest] (removeUnusedTests env l) := by
  induction l with
  | nil => exact emits_pure _ _
  | cons x rest ih =>
    obtain ⟨k, test⟩ := x
    unfold removeUnusedTests
    exact emits_bind (emits_retry env (.DeleteTest test.Id) RepeatNumber) (fun _ => ih)

theorem emits_removeUnusedTestsets (env : Env) (l : List (Nat × Testset)) :
    Emits [.deleteTestset] (removeUnusedTestsets env l) := by
  induction l with
  | nil => exact emits_pure _ _
  | cons x rest ih =>
    obtain ⟨k, testset⟩ := x
    unfold removeUnusedTestsets
    exact emits_bind (emits_call env (.DeleteTestset testset.Id)) (fun _ => ih)

theorem emits_removeUnusedStatements (env : Env) (l : List (String × Statement)) :
    Emits [.deleteStatement] (removeUnusedStatements env l) := by
  induction l with
  | nil => exact emits_pure _ _
  | cons x rest ih =>
    obtain ⟨k, statement⟩ := x
    unfold removeUnusedStatements
    exact emits_bind (emits_call env (.DeleteStatement statement.Id)) (fun _ => ih)

theorem emits_removeUnusedSolutions (env : Env) (l : List (String × Solution)) :
    Emits [.deleteSolution] (removeUnusedSolutions env l) := by
  induction l with
  | nil => exact emits_pure _ _
  | cons x rest ih =>
    obtain ⟨k, solution⟩ := x
    unfold removeUnusedSolutions
    exact emits_bind (emits_call env (.DeleteSolution solution.Id)) (fun _ => ih)

theorem emits_UploadAsset_loop (env : Env) (c : Call) (n : Nat) :
    ∀ last, Emits [c.kind] (UploadAsset.loop env c n last) := by
  induction n with
  | zero => intro last; exact fun t => ⟨[], by simp [UploadAsset.loop, M.pure], by simp⟩
  | succ n ih =>
    intro last t
    unfold UploadAsset.loop
    cases h : env.remote t c with
    | ok output => exact ⟨[c], rfl, by simp⟩
    | error err =>
      obtain ⟨tr, h1, h2⟩ := ih (some (.error err)) (t ++ [c])
      refine ⟨c :: tr, by simp only [h1, List.append_assoc, List.singleton_append], ?_⟩
      intro x hx
      rcases List.mem_cons.mp hx with rfl | hx
      · simp
      · exact h2 x hx

theorem emits_UpdateContentWithPictures_loop (env : Env) (source : String)
    (files : List String) :
    ∀ content, Emits [.asset] (UpdateContentWithPictures.loop env source files content) := by
  induction files with
  | nil => intro content; exact fun t => ⟨[], by simp [UpdateContentWithPictures.loop, M.pure], by simp⟩
  | cons file rest ih =>
    intro content
    unfold UpdateContentWithPictures.loop
    split
    · split
      · exact emits_fail _ _
      · refine emits_bind (m := UploadAsset.loop env _ RepeatNumber none)
          (emits_UploadAsset_loop env _ RepeatNumber none) (fun r => ?_)
        split
        · exact emits_fail _ _
        · exact ih _
        · exact emits_fail _ _
    · exact ih _

theorem emits_UpdateContentWithPictures (env : Env) (content source : String) :
    Emits [.asset] (UpdateContentWithPictures env content source) := by
  unfold UpdateContentWithPictures
  split
  · exact emits_fail _ _
  · exact emits_UpdateContentWithPictures_loop env source _ content

theorem emits_MakeStatement (env : Env) (path : String) (statement : SpecificationStatement) :
    Emits [.asset] (MakeStatement env path statement) := by
  unfold MakeStatement
  split
  · exact emits_fail _ _
  · split
    · exact emits_fail _ _
    · split
      · exact emits_fail _ _
      · exact emits_bind (m := UpdateContentWithPictures env _ _)
          (emits_UpdateContentWithPictures env _ _)
          (fun _ => fun t => ⟨[], by simp [M.pure], by simp⟩)

theorem emits_makeStatements (env : Env) (path : String) (l : List SpecificationStatement) :
    ∀ newStatements, Emits [.asset] (makeStatements env path l newStatements) := by
  induction l with
  | nil => intro m; exact emits_pure _ _
  | cons ss rest ih =>
    intro m
    unfold makeStatements
    split
    · exact ih _
    · exact emits_bind (emits_MakeStatement env path ss) (fun _ => ih _)

theorem emits_importStatement (env : Env) (pid : String) (statements : GoMap String Statement)
    (statement : Statement) : Emits [.statement] (importStatement env pid statements statement) := by
  unfold importStatement
  simp only
  split
  · exact emits_bind (emits_retry env (.CreateStatement pid _) RepeatNumber)
      (fun _ => emits_pure _ _)
  · exact emits_bind (emits_retry env (.UpdateStatement _ _) RepeatNumber)
      (fun _ => emits_pure _ _)

theorem emits_importStatements (env : Env) (pid : String) (l : List (String × Statement)) :
    ∀ statements, Emits [.statement] (importStatements env pid l statements) := by
  induction l with
  | nil => intro m; exact emits_pure _ _
  | cons x rest ih =>
    intro m
    obtain ⟨k, statement⟩ := x
    unfold importStatements
    exact emits_bind (emits_importStatement env pid m statement) (fun _ => ih _)

theorem emits_importSolution (env : Env) (pid : String) (solutions : GoMap String Solution)
    (solution : Solution) : Emits [.solution] (importSolution env pid solutions solution) := by
  unfold importSolution
  simp only
  split
  · exact emits_bind (emits_call env (.CreateSolution pid _)) (fun _ => emits_pure _ _)
  · exact emits_bind (emits_call env (.UpdateSolution _ _)) (fun _ => emits_pure _ _)

theorem emits_importSolutions (env : Env) (path pid : String) (l : List SpecificationSolution) :
    ∀ solutions, Emits [.solution] (importSolutions env path pid l solutions) := by
  induction l with
  | nil => intro m; exact emits_pure _ _
  | cons ss rest ih =>
    intro m
    unfold importSolutions
    split
    · exact ih _
    · split
      · exact emits_fail _ _
      · exact emits_bind (emits_importSolution env pid m _) (fun _ => ih _)

theorem emits_importRest (env : Env) (path pid : String) (spec : Specification)
    (statements : GoMap String Statement) (solutions : GoMap String Solution)
    (testsets : GoMap Nat Testset) (tests : GoMap (Nat × Int) Test) :
    Emits [.deleteTest, .deleteTestset, .asset, .statement, .deleteStatement, .solution,
        .deleteSolution]
      (importRest env path pid spec statements solutions testsets tests) := by
  unfold importRest
  refine emits_bind (emits_mono (emits_removeUnusedTests env _) (by decide)) (fun _ => ?_)
  refine emits_bind (emits_mono (emits_removeUnusedTestsets env _) (by decide)) (fun _ => ?_)
  refine emits_bind (emits_mono (emits_makeStatements env path _ _) (by decide)) (fun _ => ?_)
  refine emits_bind (emits_lift _ _) (fun _ => ?_)
  refine emits_bind (emits_mono (emits_importStatements env pid _ _) (by decide)) (fun _ => ?_)
  refine emits_bind (emits_mono (emits_removeUnusedStatements env _) (by decide)) (fun _ => ?_)
  refine emits_bind (emits_mono (emits_importSolutions env path pid _ _) (by decide)) (fun _ => ?_)
  exact emits_mono (emits_removeUnusedSolutions env _) (by decide)

theorem succeeds_CreateProblem (env : Env) (hok : ∀ t c, ∃ r, env.remote t c = .ok r) :
    Succeeds [.problem] (CreateProblem env) := by
  intro t
  obtain ⟨r, hr⟩ := hok t .CreateProblem
  exact ⟨r.Id, [.CreateProblem], by simp [CreateProblem, RepeatNumber, CreateProblem.loop, call, hr],
    by simp [Call.kind]⟩

theorem succeeds_listTests (env : Env) (hok : ∀ t c, ∃ r, env.remote t c = .ok r)
    (ts : Testset) (tests : GoMap (Nat × Int) Test) : Succeeds [.list] (listTests env ts tests) := by
  unfold listTests
  exact succeeds_bind (succeeds_call env hok (.ListTests ts.Id)) (fun _ => succeeds_pure _ _)

theorem succeeds_listTestsets (env : Env) (hok : ∀ t c, ∃ r, env.remote t c = .ok r)
    (l : List Testset) :
    ∀ testsets tests, Succeeds [.list] (listTestsets env l testsets tests) := by
  induction l with
  | nil => intro testsets tests; exact succeeds_pure _ _
  | cons ts rest ih =>
    intro testsets tests
    unfold listTestsets
    exact succeeds_bind (succeeds_listTests env hok ts tests) (fun _ => ih _ _)

theorem succeeds_fetchRemote (env : Env) (hok : ∀ t c, ∃ r, env.remote t c = .ok r)
    (pid : String) : Succeeds [.list] (fetchRemote env pid) := by
  unfold fetchRemote
  refine succeeds_bind (succeeds_call env hok (.ListStatements pid)) (fun _ => ?_)
  refine succeeds_bind (succeeds_call env hok (.ListSolutions pid)) (fun _ => ?_)
  refine succeeds_bind (succeeds_call env hok (.ListTestsets pid)) (fun _ => ?_)
  refine succeeds_bind (succeeds_listTestsets env hok _ _ _) (fun r => ?_)
  obtain ⟨testsets, tests⟩ := r
  exact succeeds_pure _ _

theorem succeeds_deleteTemplates (env : Env) (l : List Template) :
    Succeeds [.template] (deleteTemplates env l) := by
  induction l with
  | nil => exact succeeds_pure _ _
  | cons template rest ih =>
    unfold deleteTemplates
    exact succeeds_bind (succeeds_callIgnore env (.DeleteCodeTemplate template.Id)) (fun _ => ih)

theorem succeeds_createTemplates (env : Env) (hread : ∀ p, ∃ d, env.readFile p = .ok d)
    (path pid : String) (file : SpecificationFile) (l : List String) :
    Succeeds [.template] (createTemplates env path pid file l) := by
  induction l with
  | nil => exact succeeds_pure _ _
  | cons lang rest ih =>
    unfold createTemplates
    obtain ⟨d, hd⟩ := hread (env.join [path, file.Source.Path])
    rw [hd]
    exact succeeds_bind (succeeds_callIgnore env (.CreateCodeTemplate pid ⟨"", pid, lang, d⟩))
      (fun _ => ih)

theorem succeeds_importTemplateFiles (env : Env) (hread : ∀ p, ∃ d, env.readFile p = .ok d)
    (path pid : String) (l : List SpecificationFile) :
    Succeeds [.template] (importTemplateFiles env path pid l) := by
  induction l with
  | nil => exact succeeds_pure _ _
  | cons file rest ih =>
    unfold importTemplateFiles
    split
    · exact succeeds_bind (succeeds_createTemplates env hread path pid file _) (fun _ => ih)
    · exact ih

theorem succeeds_importTemplates (env : Env) (hread : ∀ p, ∃ d, env.readFile p = .ok d)
    (path pid : String) (spec : Specification) :
    Succeeds [.template] (importTemplates env path pid spec) := by
  unfold importTemplates
  refine succeeds_bind (succeeds_callIgnore env (.ListCodeTemplates pid)) (fun _ => ?_)
  refine succeeds_bind (succeeds_deleteTemplates env _) (fun _ => ?_)
  exact succeeds_importTemplateFiles env hread path pid _

theorem succeeds_importVerifier (env : Env) (hok : ∀ t c, ∃ r, env.remote t c = .ok r)
    (path pid : String) (spec : Specification) (hv : ∃ v, MakeVerifier env path spec = .ok v) :
    Succeeds [.verifier] (importVerifier env path pid spec) := by
  obtain ⟨v, hv⟩ := hv
  unfold importVerifier
  rw [hv]
  exact succeeds_bind (succeeds_call env hok (.UpdateVerifier pid v)) (fun _ => succeeds_pure _ _)

theorem succeeds_importInteractor (env : Env) (hok : ∀ t c, ∃ r, env.remote t c = .ok r)
    (path pid : String) (spec : Specification)
    (hi : spec.Interactor.Sources = [] ∨ ∃ i, MakeInteractor env path spec = .ok i) :
    Succeeds [.interactor] (importInteractor env path pid spec) := by
  unfold importInteractor
  split
  · rename_i hne
    rcases hi with h | ⟨i, hi⟩
    · simp [h] at hne
    · rw [hi]
      exact succeeds_bind (succeeds_call env hok (.UpdateInteractor pid i))
        (fun _ => succeeds_pure _ _)
  · exact succeeds_pure _ _

theorem isTestMutation_iff (c : Call) : c.isTestMutation = true ↔ c.kind = .test := by
  cases c <;> simp [Call.isTestMutation, Call.kind]

theorem filter_test_of_kinds (ks : List CallKind) (hks : CallKind.test ∉ ks) (tr : List Call)
    (h : ∀ c ∈ tr, c.kind ∈ ks) : tr.filter Call.isTestMutation = [] := by
  rw [List.filter_eq_nil_iff]
  intro c hc hm
  exact hks ((isTestMutation_iff c).mp hm ▸ h c hc)

theorem importInto_test_mutations (env : Env) (path pid : String) (spec : Specification)
    (testset : SpecificationTestset) (others : List SpecificationTestset)
    (hspec : spec.Judging.Testsets = testset :: others)
    (hok : ∀ t c, ∃ r, env.remote t c = .ok r)
    (hread : ∀ p, ∃ d, env.readFile p = .ok d)
    (hverifier : ∃ v, MakeVerifier env path spec = .ok v)
    (hinteractor : spec.Interactor.Sources = [] ∨ ∃ i, MakeInteractor env path spec = .ok i)
    (hnames : ((groupsOf testset).map (fun g => g.Name)).Nodup)
    (hsize : testset.Tests.length < 2 ^ 31) (remote : Remote) (t : List Call) :
    ∃ tr, (importInto env path pid spec remote t).2 = t ++ tr
      ∧ List.Forall₂ (fun key op => TestOpFor (remote.tests.lookup key) key.2 op)
          (desiredTestKeys (readTestsByGroup 0 testset.Tests ∅ ∅).1 (groupsOf testset))
          (tr.filter Call.isTestMutation) := by
  obtain ⟨_, tr1, h1, hk1⟩ := succeeds_importTemplates env hread path pid spec t
  obtain ⟨_, tr2, h2, hk2⟩ := succeeds_importVerifier env hok path pid spec hverifier (t ++ tr1)
  obtain ⟨_, tr3, h3, hk3⟩ :=
    succeeds_importInteractor env hok path pid spec hinteractor (t ++ tr1 ++ tr2)
  obtain ⟨testsets1, tests1, tr4, h4, hf4⟩ :=
    importTestsets_matching env path pid spec testset others hspec hok hread hnames hsize
      remote.testsets remote.tests (t ++ tr1 ++ tr2 ++ tr3)
  obtain ⟨tr5, h5, hk5⟩ := emits_importRest env path pid spec remote.statements remote.solutions
    testsets1 tests1 (t ++ tr1 ++ tr2 ++ tr3 ++ tr4)
  refine ⟨tr1 ++ tr2 ++ tr3 ++ tr4 ++ tr5, ?_, ?_⟩
  · simp only [importInto, bind_apply, h1, h2, h3, h4]
    rw [h5]
    simp only [List.append_assoc]
  · simp only [List.filter_append]
    rw [filter_test_of_kinds _ (by decide) tr1 hk1, filter_test_of_kinds _ (by decide) tr2 hk2,
      filter_test_of_kinds _ (by decide) tr3 hk3, filter_test_of_kinds _ (by decide) tr5 hk5]
    simpa using hf4

/-- C10: in a run of `ImportProblem` in which no remote call fails, every file
can be read and the checker and interactor are classified, with group names
pairwise distinct and fewer than 2^31 tests, the test mutations of the run
(`CreateTest` and `UpdateTest` calls, in the order issued) correspond one to
one to the desired tests (natural keys of testset index and local index, in
the order walked).  For a key that the remote snapshot holds with a non-empty
id the mutation is an `UpdateTest` whose `TestId` is that id and whose payload
carries the same id; for a key the snapshot does not hold it is a
`CreateTest`.  The snapshot is the one listed from the remote, and is empty
when the problem is new. -/
theorem C10_natural_key_matching (env : Env) (path pid : String) (spec : Specification)
    (testset : SpecificationTestset) (others : List SpecificationTestset)
    (hstat : env.statNotExist path = none)
    (hopen : env.openSpec (env.join [path, "problem.xml"]) = .ok (.ok spec))
    (hspec : spec.Judging.Testsets = testset :: others)
    (hok : ∀ t c, ∃ r, env.remote t c = .ok r)
    (hread : ∀ p, ∃ d, env.readFile p = .ok d)
    (hverifier : ∃ v, MakeVerifier env path spec = .ok v)
    (hinteractor : spec.Interactor.Sources = [] ∨ ∃ i, MakeInteractor env path spec = .ok i)
    (hnames : ((groupsOf testset).map (fun g => g.Name)).Nodup)
    (hsize : testset.Tests.length < 2 ^ 31) (t : List Call) :
    ∃ (remote : Remote) (tr : List Call),
      (ImportProblem env path pid t).2 = t ++ tr
        ∧ (pid = "" → remote.tests = ∅)
        ∧ (pid ≠ "" → ∃ t0, fetchRemote env pid t = (.ok remote, t0))
        ∧ List.Forall₂ (fun key op => TestOpFor (remote.tests.lookup key) key.2 op)
            (desiredTestKeys (readTestsByGroup 0 testset.Tests ∅ ∅).1 (groupsOf testset))
            (tr.filter Call.isTestMutation) := by
  unfold ImportProblem
  simp only [hstat, hopen]
  by_cases hpid : pid = ""
  · rw [if_pos hpid]
    obtain ⟨pid1, tr0, h0, hk0⟩ := succeeds_CreateProblem env hok t
    obtain ⟨tr, h, hf⟩ := importInto_test_mutations env path pid1 spec testset others hspec hok
      hread hverifier hinteractor hnames hsize Remote.empty (t ++ tr0)
    refine ⟨Remote.empty, tr0 ++ tr, ?_, fun _ => rfl, fun h => absurd hpid h, ?_⟩
    · simp only [bind_apply, h0]
      rcases hr : importInto env path pid1 spec Remote.empty (t ++ tr0) with ⟨r, t1⟩
      rw [hr] at h
      simp only at h
      cases r <;> simp [h]
    · rw [List.filter_append, filter_test_of_kinds _ (by decide) tr0 hk0]
      simpa using hf
  · rw [if_neg hpid]
    obtain ⟨remote, tr0, h0, hk0⟩ := succeeds_fetchRemote env hok pid t
    obtain ⟨tr, h, hf⟩ := importInto_test_mutations env path pid spec testset others hspec hok
      hread hverifier hinteractor hnames hsize remote (t ++ tr0)
    refine ⟨remote, tr0 ++ tr, ?_, fun h => absurd h hpid, fun _ => ⟨_, h0⟩, ?_⟩
    · simp only [bind_apply, h0]
      rcases hr : importInto env path pid spec remote (t ++ tr0) with ⟨r, t1⟩
      rw [hr] at h
      simp only at h
      cases r <;> simp [h]
    · rw [List.filter_append, filter_test_of_kinds _ (by decide) tr0 hk0]
      simpa using hf

/-- Witness of C10: the remote holds the test `T2` under the key of testset 0
and local index 2, with 5 points; the package has three tests in the implicit
group 0.  The run issues one `UpdateTest` on `T2`, whose payload keeps the id
`T2` and carries the new score 33, and no `CreateTest` for that key; the two
other keys are absent from the remote and get one `CreateTest` each. -/
theorem C10_natural_key_matching_witness :
    (∃ (remote : Remote) (tr : List Call),
      (ImportProblem (sampleEnv sampleSpec sampleRemote) "p" "P1" []).2 = [] ++ tr
        ∧ ("P1" = "" → remote.tests = ∅)
        ∧ ("P1" ≠ "" →
            ∃ t0, fetchRemote (sampleEnv sampleSpec sampleRemote) "P1" [] = (.ok remote, t0))
        ∧ List.Forall₂ (fun key op => TestOpFor (remote.tests.lookup key) key.2 op)
            (desiredTestKeys (readTestsByGroup 0 sampleTestset.Tests ∅ ∅).1
              (groupsOf sampleTestset))
            (tr.filter Call.isTestMutation))
    ∧ desiredTestKeys (readTestsByGroup 0 sampleTestset.Tests ∅ ∅).1 (groupsOf sampleTestset)
        = [(0, 1), (0, 2), (0, 3)]
    ∧ (ImportProblem (sampleEnv sampleSpec sampleRemote) "p" "P1" []).2.filter
          Call.isTestMutation
        = [.CreateTest "TS0" ⟨"", 1, false, 33, "id7", "id8"⟩,
           .UpdateTest "T2" ⟨"T2", 2, false, 33, "id10", "id11"⟩,
           .CreateTest "TS0" ⟨"", 3, false, 34, "id13", "id14"⟩] :=
  ⟨C10_natural_key_matching (sampleEnv sampleSpec sampleRemote) "p" "P1" sampleSpec
      sampleTestset [] rfl rfl rfl (fun t c => by cases c <;> exact ⟨_, rfl⟩)
      (fun p => ⟨_, rfl⟩) ⟨_, rfl⟩ (Or.inl rfl) (by decide) (by decide) [],
    by decide, by decide⟩

/-! ## The runtime tables of checker and interactor (C13) and an unsupported checker (C14) -/

/-- C13: the runtime tables of `MakeVerifier` and `MakeInteractor` are not the
same.  `MakeVerifier` accepts the tag `cpp.msys2-mingw64-9-g++17` for the
runtime `gpp`, `MakeInteractor` does not (this tag is the only difference of
the two tables).  For a source list with one source of that type the custom
path of `MakeVerifier` finds the runtime `gpp`, while `MakeInteractor` fails
with `interactor configuration is not supported`, in either visiting order
of the table. -/
theorem C13_interactor_table_lacks_msys2 :
    accepts verifierMapping "gpp" "cpp.msys2-mingw64-9-g++17" = true
      ∧ accepts interactorMapping "gpp" "cpp.msys2-mingw64-9-g++17" = false
      ∧ interactorMapping = verifierMapping.map
          (fun e => (e.1, e.2.filter (fun t => decide (t ≠ "cpp.msys2-mingw64-9-g++17"))))
      ∧ MakeVerifier (sampleEnv msys2Spec sampleRemote) "p" msys2Spec
          = .ok ⟨VerifierType.PROGRAM, 0, false, "data:p/files/check.cpp", "gpp"⟩
      ∧ MakeInteractor (sampleEnv msys2Spec sampleRemote) "p" msys2Spec
          = .error (.error "interactor configuration is not supported")
      ∧ MakeVerifier (reversedEnv msys2Spec sampleRemote) "p" msys2Spec
          = .ok ⟨VerifierType.PROGRAM, 0, false, "data:p/files/check.cpp", "gpp"⟩
      ∧ MakeInteractor (reversedEnv msys2Spec sampleRemote) "p" msys2Spec
          = .error (.error "interactor configuration is not supported")
      ∧ (ImportProblem (sampleEnv msys2Spec sampleRemote) "p" "P1" []).1
          = .error (.error "interactor configuration is not supported") := by
  refine ⟨by decide, by decide, by decide, by decide, by decide, by decide, by decide, by decide⟩

theorem SourceByType_none (sources : List SpecificationSource) (types : List String)
    (h : ∀ s ∈ sources, s.Type_ ∉ types) : SourceByType sources types = none := by
  unfold SourceByType
  rw [List.find?_eq_none]
  intro s hs
  simpa using h s hs

/-- C14: when the checker name is none of the ten standard names and no checker
source has a type that a runtime of the table accepts, `MakeVerifier` returns
the error `checker configuration is not supported`; and a run of
`ImportProblem` that gets as far as the verifier (the package opens, the list
calls succeed, the template files can be read) returns that error, having
made only problem, list and code-template calls: no testset, test, statement
or solution mutation. -/
theorem C14_unsupported_checker (env : Env) (path pid : String) (spec : Specification)
    (t : List Call) (hperm : env.RangesArePerms)
    (hname : spec.Checker.Name ∉ ["std::rcmp4.cpp", "std::ncmp.cpp", "std::rcmp6.cpp",
        "std::rcmp9.cpp", "std::wcmp.cpp", "std::nyesno.cpp", "std::yesno.cpp",
        "std::fcmp.cpp", "std::hcmp.cpp", "std::lcmp.cpp"])
    (hsrc : ∀ s ∈ spec.Checker.Sources, ∀ e ∈ verifierMapping, s.Type_ ∉ e.2)
    (hstat : env.statNotExist path = none)
    (hopen : env.openSpec (env.join [path, "problem.xml"]) = .ok (.ok spec))
    (hok : ∀ t c, ∃ r, env.remote t c = .ok r)
    (hread : ∀ p, ∃ d, env.readFile p = .ok d) :
    MakeVerifier env path spec = .error (.error "checker configuration is not supported")
      ∧ ∃ tr, ImportProblem env path pid t
            = (.error (.error "checker configuration is not supported"), t ++ tr)
          ∧ ∀ c ∈ tr, c.kind ∈ [CallKind.problem, CallKind.list, CallKind.template] := by
  have hv : MakeVerifier env path spec
      = .error (.error "checker configuration is not supported") := by
    simp only [List.mem_cons, List.mem_singleton, List.not_mem_nil, or_false, not_or] at hname
    unfold MakeVerifier
    simp only [hname, false_or, if_false]
    apply scan_of_no_match
    intro e he
    exact SourceByType_none _ _
      (fun s hs => hsrc s hs e ((hperm _ verifierMapping).mem_iff.mp he))
  refine ⟨hv, ?_⟩
  have hfail : ∀ pid1 t1, importVerifier env path pid1 spec t1
      = (.error (.error "checker configuration is not supported"), t1) := by
    intro pid1 t1
    simp [importVerifier, hv, M.fail]
  unfold ImportProblem
  simp only [hstat, hopen]
  by_cases hpid : pid = ""
  · rw [if_pos hpid]
    obtain ⟨pid1, tr0, h0, hk0⟩ := succeeds_CreateProblem env hok t
    obtain ⟨_, tr1, h1, hk1⟩ := succeeds_importTemplates env hread path pid1 spec (t ++ tr0)
    refine ⟨tr0 ++ tr1, ?_, ?_⟩
    · simp only [bind_apply, h0, importInto, h1, hfail, List.append_assoc]
    · intro c hc
      rcases List.mem_append.mp hc with h | h
      · have := hk0 c h
        simp only [List.mem_singleton] at this
        simp [this]
      · have := hk1 c h
        simp only [List.mem_singleton] at this
        simp [this]
  · rw [if_neg hpid]
    obtain ⟨remote, tr0, h0, hk0⟩ := succeeds_fetchRemote env hok pid t
    obtain ⟨_, tr1, h1, hk1⟩ := succeeds_importTemplates env hread path pid spec (t ++ tr0)
    refine ⟨tr0 ++ tr1, ?_, ?_⟩
    · simp only [bind_apply, h0, importInto, h1, hfail, List.append_assoc]
    · intro c hc
      rcases List.mem_append.mp hc with h | h
      · have := hk0 c h
        simp only [List.mem_singleton] at this
        simp [this]
      · have := hk1 c h
        simp only [List.mem_singleton] at this
        simp [this]

/-- Witness of C14: a checker `check.hs` with one source of type `haskell.ghc`;
the run on an existing problem lists the remote entities and the code
templates, then returns the error. -/
theorem C14_unsupported_checker_witness :
    (MakeVerifier (sampleEnv unsupportedSpec sampleRemote) "p" unsupportedSpec
        = .error (.error "checker configuration is not supported")
      ∧ ∃ tr, ImportProblem (sampleEnv unsupportedSpec sampleRemote) "p" "P1" []
            = (.error (.error "checker configuration is not supported"), [] ++ tr)
          ∧ ∀ c ∈ tr, c.kind ∈ [CallKind.problem, CallKind.list, CallKind.template])
    ∧ (ImportProblem (sampleEnv unsupportedSpec sampleRemote) "p" "P1" []).2
        = [.ListStatements "P1", .ListSolutions "P1", .ListTestsets "P1", .ListTests "TS0",
           .ListCodeTemplates "P1"] :=
  ⟨C14_unsupported_checker (sampleEnv unsupportedSpec sampleRemote) "p" "P1" unsupportedSpec []
      (fun _ l => List.Perm.refl l) (by decide) (by decide) rfl rfl
      (fun t c => by cases c <;> exact ⟨_, rfl⟩) (fun p => ⟨_, rfl⟩),
    by decide⟩

/-! ## What a step returns and which calls it makes -/

theorem returns_true {α : Type} (m : M α) : Returns (fun _ => True) m :=
  fun _ _ _ _ => trivial

theorem returns_pure {α : Type} {Q : α → Prop} {a : α} (h : Q a) : Returns Q (pure a : M α) := by
  intro t b t1 hb
  rw [pure_apply] at hb
  cases hb
  exact h

theorem returns_fail {α : Type} (Q : α → Prop) (e : Fault) : Returns Q (M.fail e : M α) := by
  intro t b t1 hb
  simp [M.fail] at hb

theorem returns_lift {α : Type} {Q : α → Prop} {r : Except Fault α}
    (h : ∀ a, r = .ok a → Q a) : Returns Q (M.lift r : M α) := by
  intro t b t1 hb
  simp only [M.lift, Prod.mk.injEq] at hb
  exact h b hb.1

theorem returns_bind {α β : Type} {Q1 : α → Prop} {Q : β → Prop} {m : M α} {f : α → M β}
    (hm : Returns Q1 m) (hf : ∀ a, Q1 a → Returns Q (f a)) : Returns Q (m >>= f) := by
  intro t b t2 hb
  rw [bind_apply] at hb
  rcases hmt : m t with ⟨r, t1⟩
  rw [hmt] at hb
  cases r with
  | error e => simp at hb
  | ok a => exact hf a (hm t a t1 hmt) t1 b t2 hb

theorem returns_mono {α : Type} {Q1 Q2 : α → Prop} {m : M α} (h : Returns Q1 m)
    (himp : ∀ a, Q1 a → Q2 a) : Returns Q2 m :=
  fun t a t1 ha => himp a (h t a t1 ha)

theorem returns_and {α : Type} {Q1 Q2 : α → Prop} {m : M α} (h1 : Returns Q1 m)
    (h2 : Returns Q2 m) : Returns (fun a => Q1 a ∧ Q2 a) m :=
  fun t a t1 ha => ⟨h1 t a t1 ha, h2 t a t1 ha⟩

theorem bind_ok_inv {α β : Type} {m : M α} {f : α → M β} {t t2 : List Call} {b : β}
    (h : (m >>= f) t = (.ok b, t2)) : ∃ a t1, m t = (.ok a, t1) ∧ f a t1 = (.ok b, t2) := by
  rw [bind_apply] at h
  rcases hmt : m t with ⟨r, t1⟩
  rw [hmt] at h
  cases r with
  | error e => simp at h
  | ok a => exact ⟨a, t1, rfl, h⟩

theorem emitsP_of_emits {α : Type} {ks : List CallKind} {P : Call → Prop} {m : M α}
    (h : Emits ks m) (hP : ∀ c, c.kind ∈ ks → P c) : EmitsP P m := by
  intro t
  obtain ⟨tr, h1, h2⟩ := h t
  exact ⟨tr, h1, fun c hc => hP c (h2 c hc)⟩

theorem emitsP_pure {α : Type} (P : Call → Prop) (a : α) : EmitsP P (pure a : M α) :=
  fun t => ⟨[], by simp, by simp⟩

theorem emitsP_fail {α : Type} (P : Call → Prop) (e : Fault) : EmitsP P (M.fail e : M α) :=
  fun t => ⟨[], by simp [M.fail], by simp⟩

theorem emitsP_lift {α : Type} (P : Call → Prop) (r : Except Fault α) :
    EmitsP P (M.lift r : M α) :=
  fun t => ⟨[], by simp [M.lift], by simp⟩

theorem emitsP_bind {α β : Type} {P : Call → Prop} {Q : α → Prop} {m : M α} {f : α → M β}
    (hm : EmitsP P m) (hq : Returns Q m) (hf : ∀ a, Q a → EmitsP P (f a)) :
    EmitsP P (m >>= f) := by
  intro t
  obtain ⟨tr1, h1, hk1⟩ := hm t
  rw [bind_apply]
  rcases hmt : m t with ⟨r, t1⟩
  rw [hmt] at h1
  simp only at h1
  subst h1
  cases r with
  | error e => exact ⟨tr1, rfl, hk1⟩
  | ok a =>
    obtain ⟨tr2, h2, hk2⟩ := hf a (hq t a _ hmt) (t ++ tr1)
    refine ⟨tr1 ++ tr2, by simp only [h2, List.append_assoc], ?_⟩
    intro c hc
    rcases List.mem_append.mp hc with h | h
    · exact hk1 c h
    · exact hk2 c h

theorem emitsP_retry (env : Env) (P : Call → Prop) (c : Call) (n : Nat) (h : P c) :
    EmitsP P (retry env c n) := by
  intro t
  obtain ⟨k, _, _, hk⟩ := retry_attempts env c n t
  exact ⟨List.replicate k c, hk, fun x hx => by rw [List.eq_of_mem_replicate hx]; exact h⟩

theorem emitsP_call (env : Env) (P : Call → Prop) (c : Call) (h : P c) :
    EmitsP P (call env c) := by
  intro t
  refine ⟨[c], ?_, by simpa using h⟩
  unfold call
  cases env.remote t c <;> rfl

/-! ### The maps left after reconciling -/

/-- The map `m` without the keys `keys`. -/
theorem kerase_eq_filter {K V : Type} [DecidableEq K] (a : K) :
    ∀ (l : List (Sigma (fun _ : K => V))), l.NodupKeys →
      List.kerase a l = l.filter (fun e => decide (e.1 ≠ a)) := by
  intro l
  induction l with
  | nil => intro _; rfl
  | cons s rest ih =>
    intro hnd
    rw [List.nodupKeys_cons] at hnd
    by_cases h : a = s.1
    · rw [List.kerase_cons_eq h]
      have hs : decide (s.1 ≠ a) = false := by simp [h]
      rw [List.filter_cons_of_neg (by simp [h])]
      symm
      rw [List.filter_eq_self]
      intro e he
      have : e.1 ≠ a := by
        intro hc
        apply hnd.1
        rw [← h, ← hc]
        exact List.mem_keys_of_mem he
      simpa using this
    · rw [List.kerase_cons_ne h, ih hnd.2]
      rw [List.filter_cons_of_pos (by simpa using fun hc => h hc.symm)]

theorem erase_entries {K V : Type} [DecidableEq K] (m : GoMap K V) (a : K) :
    (m.erase a).entries = m.entries.filter (fun e => decide (e.1 ≠ a)) :=
  kerase_eq_filter a m.entries m.nodupKeys

theorem foldl_erase_entries {K V : Type} [DecidableEq K] (keys : List K) :
    ∀ m : GoMap K V, (keys.foldl (fun m k => m.erase k) m).entries
      = m.entries.filter (fun e => decide (e.1 ∉ keys)) := by
  induction keys with
  | nil => intro m; simp
  | cons k rest ih =>
    intro m
    rw [List.foldl_cons, ih, erase_entries, List.filter_filter]
    apply List.filter_congr
    intro e _
    simp only [List.mem_cons, not_or, decide_not, Bool.decide_and, ne_eq, eq_comm (a := e.1)]
    exact Bool.and_comm _ _

theorem foldl_erase_append {K V : Type} [DecidableEq K] (k1 k2 : List K) (m : GoMap K V) :
    (k1 ++ k2).foldl (fun m k => m.erase k) m
      = k2.foldl (fun m k => m.erase k) (k1.foldl (fun m k => m.erase k) m) :=
  List.foldl_append _ _ _ _

theorem returns_importTest (env : Env) (path : String) (testset : SpecificationTestset)
    (testIndex : GoMap (Nat × Int) Nat) (xts : Testset) (n : Nat)
    (tests : GoMap (Nat × Int) Test) (ti : Nat) (ts : SpecificationTest) :
    Returns (fun m1 => m1 = tests.erase (xts.Index, toInt32 ((ti : Int) + 1)))
      (importTest env path testset testIndex xts n tests ti ts) := by
  unfold importTest
  simp only
  refine returns_bind (returns_true _) (fun input _ => ?_)
  refine returns_bind (returns_true _) (fun answer _ => ?_)
  split
  · exact returns_bind (returns_true _) (fun _ _ => returns_pure rfl)
  · exact returns_bind (returns_true _) (fun _ _ => returns_pure rfl)

theorem returns_importTests (env : Env) (path : String) (testset : SpecificationTestset)
    (testIndex : GoMap (Nat × Int) Nat) (xts : Testset) (n : Nat) :
    ∀ (gts : List SpecificationTest) (ti0 : Nat) (tests : GoMap (Nat × Int) Test),
      ti0 + gts.length < 2 ^ 31 →
      Returns (fun m1 => m1 = ((List.range' ti0 gts.length).map
          (fun (ti : Nat) => (xts.Index, (ti : Int) + 1))).foldl (fun m k => m.erase k) tests)
        (importTests env path testset testIndex xts n ti0 gts tests) := by
  intro gts
  induction gts with
  | nil => intro ti0 tests _; exact returns_pure (by simp)
  | cons ts rest ih =>
    intro ti0 tests hlen
    simp only [List.length_cons] at hlen
    unfold importTests
    refine returns_bind (returns_importTest env path testset testIndex xts n tests ti0 ts)
      (fun m1 hm1 => ?_)
    rw [toInt32_of_small _ (by omega) (by omega)] at hm1
    subst hm1
    refine returns_mono (ih (ti0 + 1) _ (by omega)) (fun m2 hm2 => ?_)
    rw [hm2, List.length_cons, List.range'_succ, List.map_cons, List.foldl_cons]

theorem returns_importGroup (env : Env) (path pid : String) (testset : SpecificationTestset)
    (groupTests : GoMap Nat (List SpecificationTest)) (testIndex : GoMap (Nat × Int) Nat)
    (testsets : GoMap Nat Testset) (tests : GoMap (Nat × Int) Test)
    (group : SpecificationGroup)
    (hsize : ((groupTests.lookup group.Name).getD []).length < 2 ^ 31) :
    Returns (fun r => r.1 = testsets.erase group.Name
        ∧ r.2 = (groupKeys group.Name ((groupTests.lookup group.Name).getD []).length).foldl
            (fun m k => m.erase k) tests)
      (importGroup env path pid testset groupTests testIndex testsets tests group) := by
  unfold importGroup
  simp only
  refine @returns_bind _ _ (fun xts : Testset => xts.Index = group.Name) _ _ _ ?_
    (fun xts hxts => ?_)
  · split
    · exact returns_bind (returns_true _) (fun _ _ => returns_pure rfl)
    · exact returns_bind (returns_true _) (fun _ _ => returns_pure rfl)
  · refine returns_bind (returns_importTests env path testset testIndex xts _ _ 0 tests
      (by omega)) (fun m1 hm1 => returns_pure ⟨rfl, ?_⟩)
    rw [hm1, hxts, groupKeys, List.range_eq_range']

theorem returns_importGroups (env : Env) (path pid : String) (testset : SpecificationTestset)
    (groupTests : GoMap Nat (List SpecificationTest)) (testIndex : GoMap (Nat × Int) Nat)
    (hsize : ∀ g : Nat, ((groupTests.lookup g).getD []).length < 2 ^ 31) :
    ∀ (groups : List SpecificationGroup) (testsets : GoMap Nat Testset)
      (tests : GoMap (Nat × Int) Test),
      Returns (fun r =>
          r.1 = (groups.map (fun g => g.Name)).foldl (fun m k => m.erase k) testsets
          ∧ r.2 = (desiredTestKeys groupTests groups).foldl (fun m k => m.erase k) tests)
        (importGroups env path pid testset groupTests testIndex groups testsets tests) := by
  intro groups
  induction groups with
  | nil => intro testsets tests; exact returns_pure ⟨rfl, rfl⟩
  | cons g rest ih =>
    intro testsets tests
    unfold importGroups
    refine returns_bind (returns_importGroup env path pid testset groupTests testIndex testsets
      tests g (hsize g.Name)) (fun r hr => ?_)
    obtain ⟨ts1, tt1⟩ := r
    simp only at hr ⊢
    obtain ⟨h1, h2⟩ := hr
    subst h1 h2
    refine returns_mono (ih _ _) (fun r2 hr2 => ?_)
    rw [hr2.1, hr2.2]
    simp [desiredTestKeys, List.foldl_append]

theorem returns_importTestsets (env : Env) (path pid : String) (spec : Specification)
    (hsize : ∀ testset ∈ spec.Judging.Testsets.head?, testset.Tests.length < 2 ^ 31)
    (testsets : GoMap Nat Testset) (tests : GoMap (Nat × Int) Test) :
    Returns (fun r =>
        r.1 = (desiredTestsetIndices spec).foldl (fun m k => m.erase k) testsets
        ∧ r.2 = (desiredTestKeysOf spec).foldl (fun m k => m.erase k) tests)
      (importTestsets env path pid spec testsets tests) := by
  unfold importTestsets desiredTestsetIndices desiredTestKeysOf
  cases hts : spec.Judging.Testsets with
  | nil => exact returns_pure ⟨rfl, rfl⟩
  | cons testset others =>
    simp only
    exact returns_importGroups env path pid testset _ _
      (fun g => lt_of_le_of_lt (groupTests_length_le testset.Tests g)
        (hsize testset (by simp [hts]))) _ _ _

theorem MakeStatementLocale_ok (lang locale : String)
    (h : MakeStatementLocale lang = .ok locale) : locale = lang.take 2 := by
  unfold MakeStatementLocale at h
  split at h
  · injection h with h; exact h.symm
  · simp at h

theorem MakeSolutionLocale_ok (lang locale : String)
    (h : MakeSolutionLocale lang = .ok locale) : locale = lang.take 2 := by
  unfold MakeSolutionLocale at h
  split at h
  · injection h with h; exact h.symm
  · simp at h

theorem MakeSolution_ok (env : Env) (path : String) (ss : SpecificationSolution) (s : Solution)
    (h : MakeSolution env path ss = .ok s) : s.Locale = ss.Language.take 2 := by
  unfold MakeSolution at h
  split at h
  · simp at h
  · rename_i locale hl
    split at h
    · simp at h
    · split at h
      · simp at h
      · injection h with h
        rw [← h]
        exact MakeSolutionLocale_ok _ _ hl

theorem returns_MakeStatement (env : Env) (path : String) (ss : SpecificationStatement) :
    Returns (fun s => s.Locale = ss.Language.take 2) (MakeStatement env path ss) := by
  unfold MakeStatement
  split
  · exact returns_fail _ _
  · rename_i locale hl
    split
    · exact returns_fail _ _
    · split
      · exact returns_fail _ _
      · refine returns_bind (m := UpdateContentWithPictures env _ _) (returns_true _)
          (fun content _ => ?_)
        intro t b t1 hb
        simp only [M.pure, Prod.mk.injEq, Except.ok.injEq] at hb
        rw [← hb.1]
        exact MakeStatementLocale_ok _ _ hl

theorem localeKeyed_insert (m : GoMap String Statement) (s : Statement)
    (h : LocaleKeyed m) : LocaleKeyed (m.insert s.Locale s) := by
  intro k x hx
  rw [lookup_insert_ite] at hx
  split at hx
  · rename_i hk
    injection hx with hx
    rw [← hx, hk]
  · exact h k x hx

theorem returns_makeStatements (env : Env) (path : String) (l : List SpecificationStatement) :
    ∀ m0 : GoMap String Statement,
      Returns (fun m => (∀ k, k ∈ m ↔ k ∈ m0 ∨ k ∈ statementLocales l)
          ∧ (LocaleKeyed m0 → LocaleKeyed m))
        (makeStatements env path l m0) := by
  induction l with
  | nil =>
    intro m0
    exact returns_pure ⟨fun k => by simp [statementLocales], fun h => h⟩
  | cons ss rest ih =>
    intro m0
    unfold makeStatements
    split
    · rename_i hne
      refine returns_mono (ih m0) (fun m hm => ?_)
      have : statementLocales (ss :: rest) = statementLocales rest := by
        simp [statementLocales, List.filter_cons, hne]
      rw [this]
      exact hm
    · rename_i heq
      have heq : ss.Type_ = "application/x-tex" := by simpa using heq
      refine returns_bind (returns_MakeStatement env path ss) (fun s hs => ?_)
      refine returns_mono (ih _) (fun m hm => ⟨fun k => ?_, fun h0 => ?_⟩)
      · have : statementLocales (ss :: rest) = ss.Language.take 2 :: statementLocales rest := by
          simp [statementLocales, List.filter_cons, heq]
        rw [this, hm.1 k, AList.mem_insert, hs, List.mem_cons]
        tauto
      · exact hm.2 (localeKeyed_insert m0 s h0)

theorem backfillStep_ok (main : Option Statement) (m m1 : GoMap String Statement)
    (lang : String) (h : backfillStep main m lang = .ok m1) :
    (∀ k, k ∈ m1 ↔ k ∈ m ∨ k = lang) ∧ (LocaleKeyed m → LocaleKeyed m1) := by
  unfold backfillStep at h
  split at h
  · rename_i x hx
    injection h with h
    subst h
    refine ⟨fun k => ⟨Or.inl, fun hk => ?_⟩, fun h => h⟩
    rcases hk with hk | hk
    · exact hk
    · rw [hk, ← AList.lookup_isSome, hx]; rfl
  · split at h
    · simp at h
    · rename_i statement
      injection h with h
      subst h
      refine ⟨fun k => by rw [AList.mem_insert]; tauto, fun hinv => ?_⟩
      exact localeKeyed_insert m { statement with Locale := lang } hinv

theorem backfill_ok (m m1 : GoMap String Statement) (h : backfill m = .ok m1) :
    (∀ k, k ∈ m1 ↔ k ∈ m ∨ k ∈ ["uk", "en", "ru"]) ∧ (LocaleKeyed m → LocaleKeyed m1) := by
  unfold backfill at h
  simp only [List.foldlM, bind, Except.bind] at h
  split at h
  · simp at h
  · rename_i ma ha
    split at h
    · simp at h
    · rename_i mb hb
      simp only [pure, Except.pure] at h
      split at h
      · simp at h
      · rename_i mc hc
        injection h with h
        subst h
        obtain ⟨a1, a2⟩ := backfillStep_ok _ _ _ _ ha
        obtain ⟨b1, b2⟩ := backfillStep_ok _ _ _ _ hb
        obtain ⟨c1, c2⟩ := backfillStep_ok _ _ _ _ hc
        refine ⟨fun k => ?_, fun hinv => c2 (b2 (a2 hinv))⟩
        rw [c1, b1, a1]
        simp only [List.mem_cons, List.mem_singleton, List.not_mem_nil, or_false]
        tauto

theorem returns_importStatement (env : Env) (pid : String)
    (statements : GoMap String Statement) (statement : Statement) :
    Returns (fun m1 => m1 = statements.erase statement.Locale)
      (importStatement env pid statements statement) := by
  unfold importStatement
  simp only
  split
  · exact returns_bind (returns_true _) (fun _ _ => returns_pure rfl)
  · exact returns_bind (returns_true _) (fun _ _ => returns_pure rfl)

theorem returns_importStatements (env : Env) (pid : String) (l : List (String × Statement)) :
    ∀ statements : GoMap String Statement,
      Returns (fun m1 => m1 = (l.map (fun e => e.2.Locale)).foldl (fun m k => m.erase k)
          statements)
        (importStatements env pid l statements) := by
  induction l with
  | nil => intro m; exact returns_pure rfl
  | cons x rest ih =>
    intro m
    obtain ⟨k, statement⟩ := x
    unfold importStatements
    refine returns_bind (returns_importStatement env pid m statement) (fun m1 hm1 => ?_)
    subst hm1
    exact returns_mono (ih _) (fun m2 hm2 => by rw [hm2]; rfl)

theorem returns_importSolution (env : Env) (pid : String)
    (solutions : GoMap String Solution) (solution : Solution) :
    Returns (fun m1 => m1 = solutions.erase solution.Locale)
      (importSolution env pid solutions solution) := by
  unfold importSolution
  simp only
  split
  · exact returns_bind (returns_true _) (fun _ _ => returns_pure rfl)
  · exact returns_bind (returns_true _) (fun _ _ => returns_pure rfl)

theorem returns_importSolutions (env : Env) (path pid : String)
    (l : List SpecificationSolution) :
    ∀ solutions : GoMap String Solution,
      Returns (fun m1 => m1 = ((l.filter (fun ss => decide (ss.Type_ = "application/x-tex"))).map
          (fun ss => ss.Language.take 2)).foldl (fun m k => m.erase k) solutions)
        (importSolutions env path pid l solutions) := by
  induction l with
  | nil => intro m; exact returns_pure rfl
  | cons ss rest ih =>
    intro m
    unfold importSolutions
    split
    · rename_i hne
      refine returns_mono (ih m) (fun m1 hm1 => ?_)
      rw [hm1]
      simp [List.filter_cons, hne]
    · rename_i heq
      have heq : ss.Type_ = "application/x-tex" := by simpa using heq
      split
      · exact returns_fail _ _
      · rename_i solution hsol
        refine returns_bind (returns_importSolution env pid m solution) (fun m1 hm1 => ?_)
        subst hm1
        refine returns_mono (ih _) (fun m2 hm2 => ?_)
        rw [hm2, MakeSolution_ok env path ss solution hsol]
        simp [List.filter_cons, heq]

/-! ### Calls of the steps before the statements -/

theorem emits_CreateProblem_loop (env : Env) (n : Nat) :
    Emits [.problem] (CreateProblem.loop env n) := by
  induction n with
  | zero => exact fun t => ⟨[], by simp [CreateProblem.loop, M.pure], by simp⟩
  | succ n ih =>
    intro t
    unfold CreateProblem.loop
    cases h : env.remote t .CreateProblem with
    | ok r => exact ⟨[.CreateProblem], by simp [call, h], by simp [Call.kind]⟩
    | error e =>
      obtain ⟨tr, h1, h2⟩ := ih (t ++ [.CreateProblem])
      refine ⟨.CreateProblem :: tr, by simp [call, h, h1], ?_⟩
      intro x hx
      rcases List.mem_cons.mp hx with rfl | hx
      · simp [Call.kind]
      · exact h2 x hx

theorem emits_CreateProblem (env : Env) : Emits [.problem] (CreateProblem env) :=
  emits_CreateProblem_loop env RepeatNumber

theorem emits_listTestsets (env : Env) (l : List Testset) :
    ∀ testsets tests, Emits [.list] (listTestsets env l testsets tests) := by
  induction l with
  | nil => intro testsets tests; exact emits_pure _ _
  | cons ts rest ih =>
    intro testsets tests
    unfold listTestsets
    refine emits_bind ?_ (fun _ => ih _ _)
    unfold listTests
    exact emits_bind (emits_call env (.ListTests ts.Id)) (fun _ => emits_pure _ _)

theorem emits_fetchRemote (env : Env) (pid : String) : Emits [.list] (fetchRemote env pid) := by
  unfold fetchRemote
  refine emits_bind (emits_call env (.ListStatements pid)) (fun _ => ?_)
  refine emits_bind (emits_call env (.ListSolutions pid)) (fun _ => ?_)
  refine emits_bind (emits_call env (.ListTestsets pid)) (fun _ => ?_)
  refine emits_bind (emits_listTestsets env _ _ _) (fun r => ?_)
  obtain ⟨testsets, tests⟩ := r
  exact emits_pure _ _

theorem emits_deleteTemplates (env : Env) (l : List Template) :
    Emits [.template] (deleteTemplates env l) := by
  induction l with
  | nil => exact emits_pure _ _
  | cons template rest ih =>
    unfold deleteTemplates
    exact emits_bind (emits_callIgnore env (.DeleteCodeTemplate template.Id)) (fun _ => ih)

theorem emits_createTemplates (env : Env) (path pid : String) (file : SpecificationFile)
    (l : List String) : Emits [.template] (createTemplates env path pid file l) := by
  induction l with
  | nil => exact emits_pure _ _
  | cons lang rest ih =>
    unfold createTemplates
    split
    · exact emits_fail _ _
    · exact emits_bind (emits_callIgnore env (.CreateCodeTemplate pid _)) (fun _ => ih)

theorem emits_importTemplateFiles (env : Env) (path pid : String)
    (l : List SpecificationFile) : Emits [.template] (importTemplateFiles env path pid l) := by
  induction l with
  | nil => exact emits_pure _ _
  | cons file rest ih =>
    unfold importTemplateFiles
    split
    · exact emits_bind (emits_createTemplates env path pid file _) (fun _ => ih)
    · exact ih

theorem emits_importTemplates (env : Env) (path pid : String) (spec : Specification) :
    Emits [.template] (importTemplates env path pid spec) := by
  unfold importTemplates
  refine emits_bind (emits_callIgnore env (.ListCodeTemplates pid)) (fun _ => ?_)
  exact emits_bind (emits_deleteTemplates env _) (fun _ => emits_importTemplateFiles env path pid _)

theorem emits_importVerifier (env : Env) (path pid : String) (spec : Specification) :
    Emits [.verifier] (importVerifier env path pid spec) := by
  unfold importVerifier
  split
  · exact emits_fail _ _
  · exact emits_bind (emits_call env (.UpdateVerifier pid _)) (fun _ => emits_pure _ _)

theorem emits_importInteractor (env : Env) (path pid : String) (spec : Specification) :
    Emits [.interactor] (importInteractor env path pid spec) := by
  unfold importInteractor
  split
  · split
    · exact emits_fail _ _
    · exact emits_bind (emits_call env (.UpdateInteractor pid _)) (fun _ => emits_pure _ _)
  · exact emits_pure _ _

theorem emits_MakeObject_loop (env : Env) (data : String) (n : Nat) :
    ∀ last, Emits [.object] (MakeObject.loop env data n last) := by
  induction n with
  | zero =>
    intro last
    cases last with
    | none => exact fun t => ⟨[], by simp [MakeObject.loop, M.pure], by simp⟩
    | some e => exact fun t => ⟨[], by simp [MakeObject.loop, M.fail], by simp⟩
  | succ n ih =>
    intro last t
    unfold MakeObject.loop
    cases h : env.remote t (.CreateObject data) with
    | ok out => exact ⟨[.CreateObject data], rfl, by simp [Call.kind]⟩
    | error err =>
      obtain ⟨tr, h1, h2⟩ := ih (some err) (t ++ [.CreateObject data])
      refine ⟨.CreateObject data :: tr, by simp [h1], ?_⟩
      intro x hx
      rcases List.mem_cons.mp hx with rfl | hx
      · simp [Call.kind]
      · exact h2 x hx

theorem emits_MakeObject (env : Env) (path : String) : Emits [.object] (MakeObject env path) := by
  unfold MakeObject
  split
  · exact emits_fail _ _
  · exact emits_MakeObject_loop env _ RepeatNumber none

theorem emits_retry_mem (env : Env) (c : Call) (n : Nat) (ks : List CallKind)
    (h : c.kind ∈ ks) : Emits ks (retry env c n) :=
  emits_mono (emits_retry env c n) (fun k hk => by
    rw [List.mem_singleton] at hk
    rw [hk]
    exact h)

theorem emits_importTest (env : Env) (path : String) (testset : SpecificationTestset)
    (testIndex : GoMap (Nat × Int) Nat) (xts : Testset) (n : Nat)
    (tests : GoMap (Nat × Int) Test) (ti : Nat) (ts : SpecificationTest) :
    Emits [.object, .test] (importTest env path testset testIndex xts n tests ti ts) := by
  unfold importTest
  simp only
  refine emits_bind (emits_mono (emits_MakeObject env _) (by decide)) (fun input => ?_)
  refine emits_bind (emits_mono (emits_MakeObject env _) (by decide)) (fun answer => ?_)
  split
  · exact emits_bind (emits_retry_mem env (.CreateTest _ _) RepeatNumber _ (by simp [Call.kind]))
      (fun _ => emits_pure _ _)
  · exact emits_bind (emits_retry_mem env (.UpdateTest _ _) RepeatNumber _ (by simp [Call.kind]))
      (fun _ => emits_pure _ _)

theorem emits_importTests (env : Env) (path : String) (testset : SpecificationTestset)
    (testIndex : GoMap (Nat × Int) Nat) (xts : Testset) (n : Nat) :
    ∀ (gts : List SpecificationTest) (ti0 : Nat) (tests : GoMap (Nat × Int) Test),
      Emits [.object, .test] (importTests env path testset testIndex xts n ti0 gts tests) := by
  intro gts
  induction gts with
  | nil => intro ti0 tests; exact emits_pure _ _
  | cons ts rest ih =>
    intro ti0 tests
    unfold importTests
    exact emits_bind (emits_importTest env path testset testIndex xts n tests ti0 ts)
      (fun _ => ih _ _)

theorem emits_importGroup (env : Env) (path pid : String) (testset : SpecificationTestset)
    (groupTests : GoMap Nat (List SpecificationTest)) (testIndex : GoMap (Nat × Int) Nat)
    (testsets : GoMap Nat Testset) (tests : GoMap (Nat × Int) Test)
    (group : SpecificationGroup) :
    Emits [.testset, .object, .test]
      (importGroup env path pid testset groupTests testIndex testsets tests group) := by
  unfold importGroup
  simp only
  refine emits_bind ?_ (fun xts => ?_)
  · split
    · exact emits_bind (emits_retry_mem env (.UpdateTestset _ _) RepeatNumber _ (by simp [Call.kind])) (fun _ => emits_pure _ _)
    · exact emits_bind (emits_retry_mem env (.CreateTestset _ _) RepeatNumber _ (by simp [Call.kind])) (fun _ => emits_pure _ _)
  · exact emits_bind (emits_mono (emits_importTests env path testset testIndex xts _ _ _ _)
      (by decide)) (fun _ => emits_pure _ _)

theorem emits_importGroups (env : Env) (path pid : String) (testset : SpecificationTestset)
    (groupTests : GoMap Nat (List SpecificationTest)) (testIndex : GoMap (Nat × Int) Nat) :
    ∀ (groups : List SpecificationGroup) (testsets : GoMap Nat Testset)
      (tests : GoMap (Nat × Int) Test),
      Emits [.testset, .object, .test]
        (importGroups env path pid testset groupTests testIndex groups testsets tests) := by
  intro groups
  induction groups with
  | nil => intro testsets tests; exact emits_pure _ _
  | cons g rest ih =>
    intro testsets tests
    unfold importGroups
    refine emits_bind (emits_importGroup env path pid testset groupTests testIndex testsets
      tests g) (fun r => ?_)
    obtain ⟨ts1, tt1⟩ := r
    exact ih _ _

theorem emits_importTestsets (env : Env) (path pid : String) (spec : Specification)
    (testsets : GoMap Nat Testset) (tests : GoMap (Nat × Int) Test) :
    Emits [.testset, .object, .test] (importTestsets env path pid spec testsets tests) := by
  unfold importTestsets
  split
  · exact emits_pure _ _
  · exact emits_importGroups env path pid _ _ _ _ _ _

theorem emits_ok {α : Type} {ks : List CallKind} {m : M α} (h : Emits ks m) {t t1 : List Call}
    {r : Except Fault α} (hm : m t = (r, t1)) : ∃ tr, t1 = t ++ tr ∧ ∀ c ∈ tr, c.kind ∈ ks := by
  obtain ⟨tr, h1, h2⟩ := h t
  rw [hm] at h1
  exact ⟨tr, h1, h2⟩

theorem callsOfKind_append (k : CallKind) (a b : List Call) :
    callsOfKind k (a ++ b) = callsOfKind k a ++ callsOfKind k b := by
  simp [callsOfKind]

theorem callsOfKind_of_kinds (k : CallKind) (ks : List CallKind) (hk : k ∉ ks) (tr : List Call)
    (h : ∀ c ∈ tr, c.kind ∈ ks) : callsOfKind k tr = [] := by
  unfold callsOfKind
  rw [List.filter_eq_nil_iff]
  intro c hc hm
  have : c.kind = k := by simpa using hm
  exact hk (this ▸ h c hc)

/-! ### The removal loops when no remote call fails -/

theorem removeUnusedTests_ok (env : Env) (hok : ∀ t c, ∃ r, env.remote t c = .ok r)
    (l : List ((Nat × Int) × Test)) :
    ∀ t, removeUnusedTests env l t = (.ok (), t ++ l.map (fun e => Call.DeleteTest e.2.Id)) := by
  induction l with
  | nil => intro t; simp [removeUnusedTests]
  | cons x rest ih =>
    intro t
    obtain ⟨k, test⟩ := x
    obtain ⟨r, hr⟩ := retry_ok env hok (.DeleteTest test.Id) RepeatNumber t
    simp only [removeUnusedTests, bind_apply, DeleteTest]
    rw [hr]
    simp only
    rw [ih]
    simp

theorem removeUnusedTestsets_ok (env : Env) (hok : ∀ t c, ∃ r, env.remote t c = .ok r)
    (l : List (Nat × Testset)) :
    ∀ t, removeUnusedTestsets env l t
      = (.ok (), t ++ l.map (fun e => Call.DeleteTestset e.2.Id)) := by
  induction l with
  | nil => intro t; simp [removeUnusedTestsets]
  | cons x rest ih =>
    intro t
    obtain ⟨k, testset⟩ := x
    obtain ⟨r, hr⟩ := hok t (.DeleteTestset testset.Id)
    simp only [removeUnusedTestsets, bind_apply, call, hr]
    rw [ih]
    simp

theorem removeUnusedStatements_ok (env : Env) (hok : ∀ t c, ∃ r, env.remote t c = .ok r)
    (l : List (String × Statement)) :
    ∀ t, removeUnusedStatements env l t
      = (.ok (), t ++ l.map (fun e => Call.DeleteStatement e.2.Id)) := by
  induction l with
  | nil => intro t; simp [removeUnusedStatements]
  | cons x rest ih =>
    intro t
    obtain ⟨k, statement⟩ := x
    obtain ⟨r, hr⟩ := hok t (.DeleteStatement statement.Id)
    simp only [removeUnusedStatements, bind_apply, call, hr]
    rw [ih]
    simp

theorem removeUnusedSolutions_ok (env : Env) (hok : ∀ t c, ∃ r, env.remote t c = .ok r)
    (l : List (String × Solution)) :
    ∀ t, removeUnusedSolutions env l t
      = (.ok (), t ++ l.map (fun e => Call.DeleteSolution e.2.Id)) := by
  induction l with
  | nil => intro t; simp [removeUnusedSolutions]
  | cons x rest ih =>
    intro t
    obtain ⟨k, solution⟩ := x
    obtain ⟨r, hr⟩ := hok t (.DeleteSolution solution.Id)
    simp only [removeUnusedSolutions, bind_apply, call, hr]
    rw [ih]
    simp

/-! ### Deletions of a run (C11) -/

theorem rangeMap_perm {K V : Type} (env : Env) (hperm : env.RangesArePerms) (m : GoMap K V) :
    (rangeMap env m).Perm (m.entries.map (fun e => (e.1, e.2))) :=
  (hperm _ m.entries).map _

theorem callsOfKind_self (k : CallKind) (tr : List Call) (h : ∀ c ∈ tr, c.kind = k) :
    callsOfKind k tr = tr := by
  unfold callsOfKind
  rw [List.filter_eq_self]
  intro c hc
  simpa using h c hc

theorem kind_deleteTests {α : Type} (l : List α) (f : α → String) :
    ∀ c ∈ l.map (fun e => Call.DeleteTest (f e)), c.kind = .deleteTest := by
  intro c hc
  obtain ⟨e, _, rfl⟩ := List.mem_map.mp hc
  rfl

theorem kind_deleteTestsets {α : Type} (l : List α) (f : α → String) :
    ∀ c ∈ l.map (fun e => Call.DeleteTestset (f e)), c.kind = .deleteTestset := by
  intro c hc
  obtain ⟨e, _, rfl⟩ := List.mem_map.mp hc
  rfl

theorem kind_deleteStatements {α : Type} (l : List α) (f : α → String) :
    ∀ c ∈ l.map (fun e => Call.DeleteStatement (f e)), c.kind = .deleteStatement := by
  intro c hc
  obtain ⟨e, _, rfl⟩ := List.mem_map.mp hc
  rfl

theorem kind_deleteSolutions {α : Type} (l : List α) (f : α → String) :
    ∀ c ∈ l.map (fun e => Call.DeleteSolution (f e)), c.kind = .deleteSolution := by
  intro c hc
  obtain ⟨e, _, rfl⟩ := List.mem_map.mp hc
  rfl

theorem callsOfKind_other (k k2 : CallKind) (hne : k ≠ k2) (tr : List Call)
    (h : ∀ c ∈ tr, c.kind = k2) : callsOfKind k tr = [] :=
  callsOfKind_of_kinds k [k2] (by simpa using hne) tr (fun c hc => by simp [h c hc])

theorem mem_entry_locale (m : GoMap String Statement) (hkeyed : LocaleKeyed m)
    (e : Sigma (fun _ : String => Statement)) (he : e ∈ m.entries) : e.2.Locale = e.1 := by
  apply hkeyed e.1 e.2
  have : e.2 ∈ m.lookup e.1 := AList.mem_lookup_iff.mpr (by simpa using he)
  simpa using this

theorem mem_range_locales (env : Env) (hperm : env.RangesArePerms)
    (m : GoMap String Statement) (hkeyed : LocaleKeyed m) (k : String) :
    k ∈ (rangeMap env m).map (fun e => e.2.Locale) ↔ k ∈ m := by
  rw [((rangeMap_perm env hperm m).map _).mem_iff, List.map_map, List.mem_map]
  constructor
  · rintro ⟨e, he, hk⟩
    simp only [Function.comp_apply] at hk
    rw [← hk, mem_entry_locale m hkeyed e he, AList.mem_keys]
    exact List.mem_keys_of_mem he
  · intro hk
    rw [AList.mem_keys, AList.keys, List.mem_keys] at hk
    obtain ⟨b, hb⟩ := hk
    exact ⟨⟨k, b⟩, hb, mem_entry_locale m hkeyed ⟨k, b⟩ hb⟩

theorem importRest_deletions (env : Env) (hok : ∀ t c, ∃ r, env.remote t c = .ok r)
    (hperm : env.RangesArePerms) (path pid : String) (spec : Specification)
    (statements : GoMap String Statement) (solutions : GoMap String Solution)
    (testsets1 : GoMap Nat Testset) (tests1 : GoMap (Nat × Int) Test) (te t2 : List Call)
    (h : importRest env path pid spec statements solutions testsets1 tests1 te = (.ok (), t2)) :
    ∃ tr, t2 = te ++ tr
      ∧ (callsOfKind .deleteTestset tr).Perm
          (testsets1.entries.map (fun e => Call.DeleteTestset e.2.Id))
      ∧ (callsOfKind .deleteTest tr).Perm
          (tests1.entries.map (fun e => Call.DeleteTest e.2.Id))
      ∧ (callsOfKind .deleteStatement tr).Perm
          ((staleEntries statements (desiredStatementLocales spec)).map
            (fun e => Call.DeleteStatement e.2.Id))
      ∧ (callsOfKind .deleteSolution tr).Perm
          ((staleEntries solutions (desiredSolutionLocales spec)).map
            (fun e => Call.DeleteSolution e.2.Id)) := by
  unfold importRest at h
  obtain ⟨_, ta, h1, h⟩ := bind_ok_inv h
  obtain ⟨_, tb, h2, h⟩ := bind_ok_inv h
  obtain ⟨ns0, tc, h3, h⟩ := bind_ok_inv h
  obtain ⟨ns, td, h4, h⟩ := bind_ok_inv h
  obtain ⟨st1, tf, h5, h⟩ := bind_ok_inv h
  obtain ⟨_, tg, h6, h⟩ := bind_ok_inv h
  obtain ⟨so1, th, h7, h8⟩ := bind_ok_inv h
  rw [removeUnusedTests_ok env hok] at h1
  rw [removeUnusedTestsets_ok env hok] at h2
  rw [removeUnusedStatements_ok env hok] at h6
  rw [removeUnusedSolutions_ok env hok] at h8
  simp only [Prod.mk.injEq, true_and] at h1 h2 h6 h8
  obtain ⟨tr3, e3, k3⟩ := emits_ok (emits_makeStatements env path _ _) h3
  have hns := returns_makeStatements env path spec.Statements ∅ tb ns0 tc h3
  simp only [M.lift, Prod.mk.injEq] at h4
  obtain ⟨hback, e4⟩ := h4
  obtain ⟨tr5, e5, k5⟩ := emits_ok (emits_importStatements env pid _ _) h5
  have hst := returns_importStatements env pid _ statements td st1 tf h5
  obtain ⟨tr7, e7, k7⟩ := emits_ok (emits_importSolutions env path pid _ _) h7
  have hso := returns_importSolutions env path pid spec.Solutions solutions tg so1 th h7
  have hkeyed0 : LocaleKeyed ns0 := hns.2 (by intro k s hs; simp at hs)
  obtain ⟨hbk, hbinv⟩ := backfill_ok ns0 ns hback
  have hkeyed : LocaleKeyed ns := hbinv hkeyed0
  have hstale : st1.entries = staleEntries statements (desiredStatementLocales spec) := by
    rw [hst, foldl_erase_entries]
    unfold staleEntries
    apply List.filter_congr
    intro e _
    have hiff : e.1 ∈ (rangeMap env ns).map (fun e => e.2.Locale)
        ↔ e.1 ∈ desiredStatementLocales spec := by
      rw [mem_range_locales env hperm ns hkeyed, hbk, hns.1, desiredStatementLocales,
        List.mem_append]
      simp only [AList.not_mem_empty, false_or]
      tauto
    simp only [hiff]
  have hstaleSol : so1.entries = staleEntries solutions (desiredSolutionLocales spec) := by
    rw [hso, foldl_erase_entries]
    rfl
  subst h1 h2 e3 e4 e5 h6 e7 h8
  refine ⟨(rangeMap env tests1).map (fun e => Call.DeleteTest e.2.Id)
      ++ (rangeMap env testsets1).map (fun e => Call.DeleteTestset e.2.Id) ++ tr3 ++ tr5
      ++ (rangeMap env st1).map (fun e => Call.DeleteStatement e.2.Id) ++ tr7
      ++ (rangeMap env so1).map (fun e => Call.DeleteSolution e.2.Id),
    by simp only [List.append_assoc], ?_, ?_, ?_, ?_⟩
  · simp only [callsOfKind_append,
      callsOfKind_other CallKind.deleteTestset CallKind.deleteTest (by decide) _ (kind_deleteTests _ _),
      callsOfKind_self CallKind.deleteTestset _ (kind_deleteTestsets _ _),
      callsOfKind_of_kinds CallKind.deleteTestset [CallKind.asset] (by decide) _ k3,
      callsOfKind_of_kinds CallKind.deleteTestset [CallKind.statement] (by decide) _ k5,
      callsOfKind_other CallKind.deleteTestset CallKind.deleteStatement (by decide) _ (kind_deleteStatements _ _),
      callsOfKind_of_kinds CallKind.deleteTestset [CallKind.solution] (by decide) _ k7,
      callsOfKind_other CallKind.deleteTestset CallKind.deleteSolution (by decide) _ (kind_deleteSolutions _ _),
      List.append_nil, List.nil_append]
    have := (rangeMap_perm env hperm testsets1).map (fun e => Call.DeleteTestset e.2.Id)
    simpa [List.map_map, Function.comp_def] using this
  · simp only [callsOfKind_append,
      callsOfKind_self CallKind.deleteTest _ (kind_deleteTests _ _),
      callsOfKind_other CallKind.deleteTest CallKind.deleteTestset (by decide) _ (kind_deleteTestsets _ _),
      callsOfKind_of_kinds CallKind.deleteTest [CallKind.asset] (by decide) _ k3,
      callsOfKind_of_kinds CallKind.deleteTest [CallKind.statement] (by decide) _ k5,
      callsOfKind_other CallKind.deleteTest CallKind.deleteStatement (by decide) _ (kind_deleteStatements _ _),
      callsOfKind_of_kinds CallKind.deleteTest [CallKind.solution] (by decide) _ k7,
      callsOfKind_other CallKind.deleteTest CallKind.deleteSolution (by decide) _ (kind_deleteSolutions _ _),
      List.append_nil, List.nil_append]
    have := (rangeMap_perm env hperm tests1).map (fun e => Call.DeleteTest e.2.Id)
    simpa [List.map_map, Function.comp_def] using this
  · simp only [callsOfKind_append,
      callsOfKind_other CallKind.deleteStatement CallKind.deleteTest (by decide) _ (kind_deleteTests _ _),
      callsOfKind_other CallKind.deleteStatement CallKind.deleteTestset (by decide) _ (kind_deleteTestsets _ _),
      callsOfKind_of_kinds CallKind.deleteStatement [CallKind.asset] (by decide) _ k3,
      callsOfKind_of_kinds CallKind.deleteStatement [CallKind.statement] (by decide) _ k5,
      callsOfKind_self CallKind.deleteStatement _ (kind_deleteStatements _ _),
      callsOfKind_of_kinds CallKind.deleteStatement [CallKind.solution] (by decide) _ k7,
      callsOfKind_other CallKind.deleteStatement CallKind.deleteSolution (by decide) _ (kind_deleteSolutions _ _),
      List.append_nil, List.nil_append]
    have := (rangeMap_perm env hperm st1).map (fun e => Call.DeleteStatement e.2.Id)
    rw [← hstale]
    simpa [List.map_map, Function.comp_def] using this
  · simp only [callsOfKind_append,
      callsOfKind_other CallKind.deleteSolution CallKind.deleteTest (by decide) _ (kind_deleteTests _ _),
      callsOfKind_other CallKind.deleteSolution CallKind.deleteTestset (by decide) _ (kind_deleteTestsets _ _),
      callsOfKind_of_kinds CallKind.deleteSolution [CallKind.asset] (by decide) _ k3,
      callsOfKind_of_kinds CallKind.deleteSolution [CallKind.statement] (by decide) _ k5,
      callsOfKind_other CallKind.deleteSolution CallKind.deleteStatement (by decide) _ (kind_deleteStatements _ _),
      callsOfKind_of_kinds CallKind.deleteSolution [CallKind.solution] (by decide) _ k7,
      callsOfKind_self CallKind.deleteSolution _ (kind_deleteSolutions _ _),
      List.append_nil, List.nil_append]
    have := (rangeMap_perm env hperm so1).map (fun e => Call.DeleteSolution e.2.Id)
    rw [← hstaleSol]
    simpa [List.map_map, Function.comp_def] using this

theorem importInto_deletions (env : Env) (hok : ∀ t c, ∃ r, env.remote t c = .ok r)
    (hperm : env.RangesArePerms) (path pid : String) (spec : Specification)
    (hsize : ∀ testset ∈ spec.Judging.Testsets.head?, testset.Tests.length < 2 ^ 31)
    (remote : Remote) (ta t2 : List Call)
    (h : importInto env path pid spec remote ta = (.ok (), t2)) :
    ∃ tr, t2 = ta ++ tr
      ∧ (callsOfKind .deleteTestset tr).Perm
          ((staleEntries remote.testsets (desiredTestsetIndices spec)).map
            (fun e => Call.DeleteTestset e.2.Id))
      ∧ (callsOfKind .deleteTest tr).Perm
          ((staleEntries remote.tests (desiredTestKeysOf spec)).map
            (fun e => Call.DeleteTest e.2.Id))
      ∧ (callsOfKind .deleteStatement tr).Perm
          ((staleEntries remote.statements (desiredStatementLocales spec)).map
            (fun e => Call.DeleteStatement e.2.Id))
      ∧ (callsOfKind .deleteSolution tr).Perm
          ((staleEntries remote.solutions (desiredSolutionLocales spec)).map
            (fun e => Call.DeleteSolution e.2.Id)) := by
  unfold importInto at h
  obtain ⟨_, tb, h1, h⟩ := bind_ok_inv h
  obtain ⟨_, tc, h2, h⟩ := bind_ok_inv h
  obtain ⟨_, td, h3, h⟩ := bind_ok_inv h
  obtain ⟨r, te, h4, h5⟩ := bind_ok_inv h
  obtain ⟨tr1, e1, k1⟩ := emits_ok (emits_importTemplates env path pid spec) h1
  obtain ⟨tr2, e2, k2⟩ := emits_ok (emits_importVerifier env path pid spec) h2
  obtain ⟨tr3, e3, k3⟩ := emits_ok (emits_importInteractor env path pid spec) h3
  obtain ⟨tr4, e4, k4⟩ := emits_ok (emits_importTestsets env path pid spec _ _) h4
  obtain ⟨hr1, hr2⟩ := returns_importTestsets env path pid spec hsize _ _ td r te h4
  obtain ⟨tr5, e5, p1, p2, p3, p4⟩ :=
    importRest_deletions env hok hperm path pid spec _ _ _ _ te t2 h5
  rw [hr1, foldl_erase_entries] at p1
  rw [hr2, foldl_erase_entries] at p2
  subst e1 e2 e3 e4 e5
  refine ⟨tr1 ++ tr2 ++ tr3 ++ tr4 ++ tr5, by simp only [List.append_assoc], ?_, ?_, ?_, ?_⟩
  · simp only [callsOfKind_append,
      callsOfKind_of_kinds CallKind.deleteTestset _ (by decide) _ k1,
      callsOfKind_of_kinds CallKind.deleteTestset _ (by decide) _ k2,
      callsOfKind_of_kinds CallKind.deleteTestset _ (by decide) _ k3,
      callsOfKind_of_kinds CallKind.deleteTestset _ (by decide) _ k4, List.nil_append]
    exact p1
  · simp only [callsOfKind_append,
      callsOfKind_of_kinds CallKind.deleteTest _ (by decide) _ k1,
      callsOfKind_of_kinds CallKind.deleteTest _ (by decide) _ k2,
      callsOfKind_of_kinds CallKind.deleteTest _ (by decide) _ k3,
      callsOfKind_of_kinds CallKind.deleteTest _ (by decide) _ k4, List.nil_append]
    exact p2
  · simp only [callsOfKind_append,
      callsOfKind_of_kinds CallKind.deleteStatement _ (by decide) _ k1,
      callsOfKind_of_kinds CallKind.deleteStatement _ (by decide) _ k2,
      callsOfKind_of_kinds CallKind.deleteStatement _ (by decide) _ k3,
      callsOfKind_of_kinds CallKind.deleteStatement _ (by decide) _ k4, List.nil_append]
    exact p3
  · simp only [callsOfKind_append,
      callsOfKind_of_kinds CallKind.deleteSolution _ (by decide) _ k1,
      callsOfKind_of_kinds CallKind.deleteSolution _ (by decide) _ k2,
      callsOfKind_of_kinds CallKind.deleteSolution _ (by decide) _ k3,
      callsOfKind_of_kinds CallKind.deleteSolution _ (by decide) _ k4, List.nil_append]
    exact p4

theorem emits_importInto (env : Env) (path pid : String) (spec : Specification)
    (remote : Remote) :
    Emits [.template, .verifier, .interactor, .testset, .object, .test, .deleteTest,
        .deleteTestset, .asset, .statement, .deleteStatement, .solution, .deleteSolution]
      (importInto env path pid spec remote) := by
  unfold importInto
  refine emits_bind (emits_mono (emits_importTemplates env path pid spec) (by decide))
    (fun _ => ?_)
  refine emits_bind (emits_mono (emits_importVerifier env path pid spec) (by decide))
    (fun _ => ?_)
  refine emits_bind (emits_mono (emits_importInteractor env path pid spec) (by decide))
    (fun _ => ?_)
  refine emits_bind (emits_mono (emits_importTestsets env path pid spec _ _) (by decide))
    (fun r => ?_)
  exact emits_mono (emits_importRest env path pid spec _ _ _ _) (by decide)

theorem ImportProblem_ok_inv (env : Env) (path pid : String) (spec : Specification)
    (hopen : env.openSpec (env.join [path, "problem.xml"]) = .ok (.ok spec))
    (t : List Call) (pid1 : String) (hrun : (ImportProblem env path pid t).1 = .ok pid1) :
    ∃ (remote : Remote) (tr0 tr : List Call) (pid2 : String),
      (∀ c ∈ tr0, c.kind ∈ [CallKind.problem, CallKind.list])
        ∧ (pid = "" → remote = Remote.empty)
        ∧ (pid ≠ "" → pid2 = pid ∧ fetchRemote env pid t = (.ok remote, t ++ tr0))
        ∧ importInto env path pid2 spec remote (t ++ tr0) = (.ok (), t ++ tr0 ++ tr)
        ∧ (ImportProblem env path pid t).2 = t ++ tr0 ++ tr := by
  rcases hres : ImportProblem env path pid t with ⟨res, t2⟩
  rw [hres] at hrun
  simp only at hrun
  subst hrun
  unfold ImportProblem at hres
  cases hstat : env.statNotExist path with
  | some err => simp [hstat, M.fail] at hres
  | none =>
    simp only [hstat, hopen] at hres
    by_cases hpid : pid = ""
    · rw [if_pos hpid] at hres
      obtain ⟨pidc, ta, h0, hres⟩ := bind_ok_inv hres
      obtain ⟨_, tb, h1, hres⟩ := bind_ok_inv hres
      rw [pure_apply] at hres
      simp only [Prod.mk.injEq, Except.ok.injEq] at hres
      obtain ⟨tr0, e0, k0⟩ := emits_ok (emits_CreateProblem env) h0
      obtain ⟨tr, e1, _⟩ := emits_ok (emits_importInto env path pidc spec Remote.empty) h1
      subst e0 e1
      refine ⟨Remote.empty, tr0, tr, pidc, ?_, fun _ => rfl, fun h => absurd hpid h, h1,
        hres.2.symm⟩
      intro c hc
      have := k0 c hc
      simp only [List.mem_singleton] at this
      simp [this]
    · rw [if_neg hpid] at hres
      obtain ⟨remote, ta, h0, hres⟩ := bind_ok_inv hres
      obtain ⟨_, tb, h1, hres⟩ := bind_ok_inv hres
      rw [pure_apply] at hres
      simp only [Prod.mk.injEq, Except.ok.injEq] at hres
      obtain ⟨tr0, e0, k0⟩ := emits_ok (emits_fetchRemote env pid) h0
      obtain ⟨tr, e1, _⟩ := emits_ok (emits_importInto env path pid spec remote) h1
      subst e0 e1
      refine ⟨remote, tr0, tr, pid, ?_, fun h => absurd h hpid, fun _ => ⟨rfl, h0⟩, h1,
        hres.2.symm⟩
      intro c hc
      have := k0 c hc
      simp only [List.mem_singleton] at this
      simp [this]

/-- C11 (amended): in a run of `ImportProblem` that completes and in which no
remote call fails, every range loop visits each map entry once and the first
testset has fewer than 2^31 tests, for each kind of entity the delete calls of
the run are, up to order, exactly one call per entity of the remote snapshot whose natural key is not
desired, carrying the id of that entity: testsets by index against the names
of the groups walked, tests by testset index and local index against the
desired test keys, statements by locale against the locales of the TeX
statements and the three canonical locales, solutions by locale against the
locales of the TeX solutions.  An entity whose key is desired gets no delete
call.  The snapshot holds one entity per natural key; it is the one listed
from the remote, and is empty when the problem is new. -/
theorem C11_deletion (env : Env) (path pid : String) (spec : Specification) (t : List Call)
    (pid1 : String)
    (hopen : env.openSpec (env.join [path, "problem.xml"]) = .ok (.ok spec))
    (hok : ∀ t c, ∃ r, env.remote t c = .ok r)
    (hperm : env.RangesArePerms)
    (hsize : ∀ testset ∈ spec.Judging.Testsets.head?, testset.Tests.length < 2 ^ 31)
    (hrun : (ImportProblem env path pid t).1 = .ok pid1) :
    ∃ (remote : Remote) (tr : List Call),
      (ImportProblem env path pid t).2 = t ++ tr
        ∧ (pid = "" → remote = Remote.empty)
        ∧ (pid ≠ "" → ∃ t0, fetchRemote env pid t = (.ok remote, t0))
        ∧ (callsOfKind .deleteTestset tr).Perm
            ((staleEntries remote.testsets (desiredTestsetIndices spec)).map
              (fun e => Call.DeleteTestset e.2.Id))
        ∧ (callsOfKind .deleteTest tr).Perm
            ((staleEntries remote.tests (desiredTestKeysOf spec)).map
              (fun e => Call.DeleteTest e.2.Id))
        ∧ (callsOfKind .deleteStatement tr).Perm
            ((staleEntries remote.statements (desiredStatementLocales spec)).map
              (fun e => Call.DeleteStatement e.2.Id))
        ∧ (callsOfKind .deleteSolution tr).Perm
            ((staleEntries remote.solutions (desiredSolutionLocales spec)).map
              (fun e => Call.DeleteSolution e.2.Id)) := by
  obtain ⟨remote, tr0, tr, pid2, k0, hempty, hfetch, hinto, htrace⟩ :=
    ImportProblem_ok_inv env path pid spec hopen t pid1 hrun
  obtain ⟨tr1, e1, p1, p2, p3, p4⟩ :=
    importInto_deletions env hok hperm path pid2 spec hsize remote _ _ hinto
  have htr : tr = tr1 := List.append_cancel_left e1
  subst htr
  refine ⟨remote, tr0 ++ tr, by rw [htrace, List.append_assoc], hempty,
    fun h => ⟨_, (hfetch h).2⟩, ?_, ?_, ?_, ?_⟩
  · rw [callsOfKind_append, callsOfKind_of_kinds CallKind.deleteTestset _ (by decide) _ k0]
    exact p1
  · rw [callsOfKind_append, callsOfKind_of_kinds CallKind.deleteTest _ (by decide) _ k0]
    exact p2
  · rw [callsOfKind_append, callsOfKind_of_kinds CallKind.deleteStatement _ (by decide) _ k0]
    exact p3
  · rw [callsOfKind_append, callsOfKind_of_kinds CallKind.deleteSolution _ (by decide) _ k0]
    exact p4

/-- Witness of C11: the remote holds the testsets of index 0 and 5, the tests
`T2`, `T9` and `T51`, the statements `ru` and `de`, and the solution `fr`; the
package has three tests in the implicit group 0, a Russian statement and no
solution.  The run deletes the testset `TS5`, the tests `T51` and `T9`, the
statement `S2` and the solution `L1`, each once, and nothing else. -/
theorem C11_deletion_witness :
    (∃ (remote : Remote) (tr : List Call),
      (ImportProblem (sampleEnv sampleSpec staleRemote) "p" "P1" []).2 = [] ++ tr
        ∧ ("P1" = "" → remote = Remote.empty)
        ∧ ("P1" ≠ "" →
            ∃ t0, fetchRemote (sampleEnv sampleSpec staleRemote) "P1" [] = (.ok remote, t0))
        ∧ (callsOfKind .deleteTestset tr).Perm
            ((staleEntries remote.testsets (desiredTestsetIndices sampleSpec)).map
              (fun e => Call.DeleteTestset e.2.Id))
        ∧ (callsOfKind .deleteTest tr).Perm
            ((staleEntries remote.tests (desiredTestKeysOf sampleSpec)).map
              (fun e => Call.DeleteTest e.2.Id))
        ∧ (callsOfKind .deleteStatement tr).Perm
            ((staleEntries remote.statements (desiredStatementLocales sampleSpec)).map
              (fun e => Call.DeleteStatement e.2.Id))
        ∧ (callsOfKind .deleteSolution tr).Perm
            ((staleEntries remote.solutions (desiredSolutionLocales sampleSpec)).map
              (fun e => Call.DeleteSolution e.2.Id)))
    ∧ callsOfKind .deleteTestset (ImportProblem (sampleEnv sampleSpec staleRemote) "p" "P1" []).2
        = [.DeleteTestset "TS5"]
    ∧ callsOfKind .deleteTest (ImportProblem (sampleEnv sampleSpec staleRemote) "p" "P1" []).2
        = [.DeleteTest "T51", .DeleteTest "T9"]
    ∧ callsOfKind .deleteStatement
          (ImportProblem (sampleEnv sampleSpec staleRemote) "p" "P1" []).2
        = [.DeleteStatement "S2"]
    ∧ callsOfKind .deleteSolution (ImportProblem (sampleEnv sampleSpec staleRemote) "p" "P1" []).2
        = [.DeleteSolution "L1"] :=
  ⟨C11_deletion (sampleEnv sampleSpec staleRemote) "p" "P1" sampleSpec [] "P1" rfl
      (fun t c => by
        cases c <;> first | exact ⟨_, rfl⟩ | (simp only [sampleEnv, staleRemote]; split <;> exact ⟨_, rfl⟩))
      (fun _ l => List.Perm.refl l) (by intro ts hts; cases hts; decide) (by decide),
    by decide, by decide, by decide, by decide⟩

/-- C11 (counterexample): the remote `staleRemote` accepts every call and lists
every entity under a natural key of its own; its snapshot holds the stale
testset `TS5`, the stale tests `T51` and `T9`, the stale statement `S2` and
the stale solution `L1`.  The package `unsupportedSpec` has a checker that no
runtime accepts, so the run of `ImportProblem` returns the error of the
verifier step after the list calls: no remote call failed, and none of the
stale entities is deleted. -/
theorem C11_counterexample :
    (∀ t c, ∃ r, (sampleEnv unsupportedSpec staleRemote).remote t c = .ok r)
      ∧ (∃ (remote : Remote) (t0 : List Call),
          fetchRemote (sampleEnv unsupportedSpec staleRemote) "P1" [] = (.ok remote, t0)
            ∧ (staleEntries remote.testsets (desiredTestsetIndices unsupportedSpec)).map
                (fun e => e.2.Id) = ["TS5"]
            ∧ (staleEntries remote.tests (desiredTestKeysOf unsupportedSpec)).map
                (fun e => e.2.Id) = ["T51", "T9"]
            ∧ (staleEntries remote.statements (desiredStatementLocales unsupportedSpec)).map
                (fun e => e.2.Id) = ["S2"]
            ∧ (staleEntries remote.solutions (desiredSolutionLocales unsupportedSpec)).map
                (fun e => e.2.Id) = ["L1"])
      ∧ ImportProblem (sampleEnv unsupportedSpec staleRemote) "p" "P1" []
          = (.error (.error "checker configuration is not supported"),
              [.ListStatements "P1", .ListSolutions "P1", .ListTestsets "P1",
               .ListTests "TS0", .ListTests "TS5", .ListCodeTemplates "P1"]) :=
  ⟨fun t c => by
      cases c <;> first | exact ⟨_, rfl⟩ | (simp only [sampleEnv, staleRemote]; split <;> exact ⟨_, rfl⟩),
    ⟨_, _, rfl, by decide, by decide, by decide, by decide⟩, by decide⟩

/-! ## Idempotence (C12) -/

theorem idempotent_of_kind (remote : Remote) (c : Call)
    (h : c.kind ∈ [CallKind.list, CallKind.template, CallKind.verifier,
      CallKind.interactor, CallKind.object, CallKind.asset]) : IdempotentCall remote c := by
  cases c <;> simp [Call.kind] at h <;> trivial

theorem idempotentIn_of_object (remote : Remote) (name : Nat) (c : Call)
    (h : c.kind ∈ [CallKind.object]) : IdempotentIn remote name c := by
  cases c <;> simp [Call.kind] at h <;> trivial

theorem idempotentIn_call (remote : Remote) (name : Nat) (c : Call)
    (h : IdempotentIn remote name c) : IdempotentCall remote c := by
  cases c <;> simp only [IdempotentIn] at h <;> try trivial
  · obtain ⟨h1, h2, x, h3, h4⟩ := h
    exact ⟨h2, x, by rw [h1]; exact h3, h4⟩
  · obtain ⟨h1, x, h2, h3⟩ := h
    exact ⟨h1, (name, _), x, h2, h3, rfl⟩

theorem idempotentIn_step (remote : Remote) (name : Nat) (c : Call)
    (h : IdempotentIn remote name c) : c.isTestsetStep = true := by
  cases c <;> simp only [IdempotentIn] at h <;> rfl

theorem emitsP_mono {α : Type} {P Q : Call → Prop} {m : M α} (h : EmitsP P m)
    (himp : ∀ c, P c → Q c) : EmitsP Q m := by
  intro t
  obtain ⟨tr, h1, h2⟩ := h t
  exact ⟨tr, h1, fun c hc => himp c (h2 c hc)⟩

theorem emitsP_and {α : Type} {P Q : Call → Prop} {m : M α} (hp : EmitsP P m)
    (hq : EmitsP Q m) : EmitsP (fun c => P c ∧ Q c) m := by
  intro t
  obtain ⟨tr1, h1, k1⟩ := hp t
  obtain ⟨tr2, h2, k2⟩ := hq t
  have : tr1 = tr2 := List.append_cancel_left (h1.symm.trans h2)
  subst this
  exact ⟨tr1, h1, fun c hc => ⟨k1 c hc, k2 c hc⟩⟩

theorem emitsP_importTest (env : Env) (remote : Remote) (path : String)
    (testset : SpecificationTestset) (testIndex : GoMap (Nat × Int) Nat) (xts : Testset)
    (n : Nat) (tests : GoMap (Nat × Int) Test) (ti : Nat) (ts : SpecificationTest)
    (xtt : Test) (hid : xtt.Id ≠ "")
    (hcur : tests.lookup (xts.Index, toInt32 ((ti : Int) + 1)) = some xtt)
    (hrem : remote.tests.lookup (xts.Index, toInt32 ((ti : Int) + 1)) = some xtt) :
    EmitsP (IdempotentIn remote xts.Index)
      (importTest env path testset testIndex xts n tests ti ts) := by
  unfold importTest
  simp only [hcur, Option.getD_some]
  refine emitsP_bind (emitsP_of_emits (emits_MakeObject env _)
    (fun c hc => idempotentIn_of_object remote _ c hc)) (returns_true _)
    (fun input _ => ?_)
  refine emitsP_bind (emitsP_of_emits (emits_MakeObject env _)
    (fun c hc => idempotentIn_of_object remote _ c hc)) (returns_true _)
    (fun answer _ => ?_)
  rw [fillTest_Id, if_neg hid]
  refine emitsP_bind (emitsP_retry env _ _ RepeatNumber ?_) (returns_true _)
    (fun _ _ => emitsP_pure _ _)
  simp only [IdempotentIn, fillTest_Id, true_and]
  rw [fillTest_Index]
  exact ⟨xtt, hrem, rfl⟩

theorem lookup_foldl_erase {K V : Type} [DecidableEq K] (keys : List K) (k : K)
    (hk : k ∉ keys) : ∀ m : GoMap K V, (keys.foldl (fun m a => m.erase a) m).lookup k = m.lookup k := by
  induction keys with
  | nil => intro m; rfl
  | cons a rest ih =>
    intro m
    simp only [List.mem_cons, not_or] at hk
    rw [List.foldl_cons, ih hk.2, AList.lookup_erase_ne hk.1]

theorem emitsP_importTests (env : Env) (remote : Remote) (path : String)
    (testset : SpecificationTestset) (testIndex : GoMap (Nat × Int) Nat) (xts : Testset)
    (n : Nat) :
    ∀ (gts : List SpecificationTest) (ti0 : Nat) (tests : GoMap (Nat × Int) Test),
      ti0 + gts.length < 2 ^ 31 →
      (∀ ti : Nat, ti0 ≤ ti → ti < ti0 + gts.length → ∃ xtt : Test, xtt.Id ≠ ""
        ∧ tests.lookup (xts.Index, (ti : Int) + 1) = some xtt
        ∧ remote.tests.lookup (xts.Index, (ti : Int) + 1) = some xtt) →
      EmitsP (IdempotentIn remote xts.Index)
        (importTests env path testset testIndex xts n ti0 gts tests) := by
  intro gts
  induction gts with
  | nil => intro ti0 tests _ _; exact emitsP_pure _ _
  | cons ts rest ih =>
    intro ti0 tests hlen hinv
    simp only [List.length_cons] at hlen hinv
    unfold importTests
    have hsmall : toInt32 ((ti0 : Int) + 1) = (ti0 : Int) + 1 :=
      toInt32_of_small _ (by omega) (by omega)
    obtain ⟨xtt, hid, hcur, hrem⟩ := hinv ti0 (le_refl _) (by omega)
    refine emitsP_bind (emitsP_importTest env remote path testset testIndex xts n tests ti0 ts
      xtt hid (by rw [hsmall]; exact hcur) (by rw [hsmall]; exact hrem))
      (returns_importTest env path testset testIndex xts n tests ti0 ts) (fun m1 hm1 => ?_)
    rw [hsmall] at hm1
    subst hm1
    refine ih (ti0 + 1) _ (by omega) (fun ti h1 h2 => ?_)
    obtain ⟨x, hx, hc, hr⟩ := hinv ti (by omega) (by omega)
    refine ⟨x, hx, ?_, hr⟩
    rw [AList.lookup_erase_ne, hc]
    intro hkey
    have := (Prod.mk.inj hkey).2
    omega

theorem emitsP_importGroup (env : Env) (remote : Remote) (path pid : String)
    (testset : SpecificationTestset) (groupTests : GoMap Nat (List SpecificationTest))
    (testIndex : GoMap (Nat × Int) Nat) (testsets : GoMap Nat Testset)
    (tests : GoMap (Nat × Int) Test) (group : SpecificationGroup)
    (hsize : ((groupTests.lookup group.Name).getD []).length < 2 ^ 31)
    (hts : ∃ x : Testset, x.Id ≠ "" ∧ testsets.lookup group.Name = some x
      ∧ remote.testsets.lookup group.Name = some x)
    (htt : ∀ key ∈ groupKeys group.Name ((groupTests.lookup group.Name).getD []).length,
      ∃ xtt : Test, xtt.Id ≠ "" ∧ tests.lookup key = some xtt
        ∧ remote.tests.lookup key = some xtt) :
    EmitsP (IdempotentIn remote group.Name)
      (importGroup env path pid testset groupTests testIndex testsets tests group) := by
  obtain ⟨x, hx, hcur, hrem⟩ := hts
  unfold importGroup
  simp only [hcur, Option.getD_some]
  have hfid : (fillTestset testset group x).Id = x.Id := rfl
  rw [hfid, if_pos hx]
  refine emitsP_bind (Q := fun xts => xts.Index = group.Name) ?_ ?_ (fun xts hxts => ?_)
  · refine emitsP_bind (emitsP_retry env _ _ RepeatNumber ?_) (returns_true _)
      (fun _ _ => emitsP_pure _ _)
    exact ⟨rfl, rfl, x, hrem, rfl⟩
  · exact returns_bind (returns_true _) (fun _ _ => returns_pure rfl)
  · have hin := emitsP_importTests env remote path testset testIndex xts
      ((groupTests.lookup group.Name).getD []).length
      ((groupTests.lookup group.Name).getD []) 0 tests (by omega)
    rw [hxts] at hin
    refine emitsP_bind (hin (fun ti _ h2 => ?_)) (returns_true _) (fun _ _ => emitsP_pure _ _)
    apply htt
    simp only [groupKeys, List.mem_map, List.mem_range]
    exact ⟨ti, by omega, rfl⟩

theorem segments_empty (remote : Remote) (names : List Nat) :
    (names.map (fun _ => ([] : List Call))).flatten = []
      ∧ List.Forall₂ (fun name seg => ∀ c ∈ seg, IdempotentIn remote name c) names
          (names.map (fun _ => ([] : List Call))) := by
  induction names with
  | nil => exact ⟨rfl, List.Forall₂.nil⟩
  | cons a rest ih =>
    refine ⟨by simpa using ih.1, ?_⟩
    rw [List.map_cons]
    exact List.Forall₂.cons (fun c hc => by simp at hc) ih.2

theorem segments_mem (remote : Remote) :
    ∀ {names : List Nat} {segs : List (List Call)},
      List.Forall₂ (fun name seg => ∀ c ∈ seg, IdempotentIn remote name c) names segs →
      ∀ c ∈ segs.flatten, ∃ name, IdempotentIn remote name c := by
  intro names segs h
  induction h with
  | nil => intro c hc; simp at hc
  | cons hab _ ih =>
    intro c hc
    rw [List.flatten_cons, List.mem_append] at hc
    rcases hc with hc | hc
    · exact ⟨_, hab c hc⟩
    · exact ih c hc

theorem importGroups_segments (env : Env) (remote : Remote) (path pid : String)
    (testset : SpecificationTestset) (groupTests : GoMap Nat (List SpecificationTest))
    (testIndex : GoMap (Nat × Int) Nat)
    (hsize : ∀ g : Nat, ((groupTests.lookup g).getD []).length < 2 ^ 31) :
    ∀ (groups : List SpecificationGroup) (testsets : GoMap Nat Testset)
      (tests : GoMap (Nat × Int) Test),
      (groups.map (fun g => g.Name)).Nodup →
      (∀ k ∈ groups.map (fun g => g.Name), ∃ x : Testset, x.Id ≠ ""
        ∧ testsets.lookup k = some x ∧ remote.testsets.lookup k = some x) →
      (∀ key ∈ desiredTestKeys groupTests groups, ∃ xtt : Test, xtt.Id ≠ ""
        ∧ tests.lookup key = some xtt ∧ remote.tests.lookup key = some xtt) →
      ∀ t, ∃ segs,
        (importGroups env path pid testset groupTests testIndex groups testsets tests t).2
            = t ++ segs.flatten
          ∧ List.Forall₂ (fun name seg => ∀ c ∈ seg, IdempotentIn remote name c)
              (groups.map (fun g => g.Name)) segs := by
  intro groups
  induction groups with
  | nil =>
    intro testsets tests _ _ _ t
    exact ⟨[], by simp [importGroups], List.Forall₂.nil⟩
  | cons g rest ih =>
    intro testsets tests hnodup hts htt t
    simp only [List.map_cons, List.nodup_cons] at hnodup
    obtain ⟨tr1, e1, k1⟩ := emitsP_importGroup env remote path pid testset groupTests testIndex
      testsets tests g (hsize g.Name) (hts g.Name (by simp))
      (fun key hkey => htt key (by simp [desiredTestKeys, hkey])) t
    rcases hres : importGroup env path pid testset groupTests testIndex testsets tests g t
      with ⟨r, t1⟩
    rw [hres] at e1
    simp only at e1
    subst e1
    cases r with
    | error e =>
      obtain ⟨hnil, hall⟩ := segments_empty remote (rest.map (fun g => g.Name))
      refine ⟨tr1 :: (rest.map (fun g => g.Name)).map (fun _ => []), ?_, ?_⟩
      · simp only [importGroups, bind_apply, hres, List.flatten_cons, hnil, List.append_nil]
      · rw [List.map_cons]
        exact List.Forall₂.cons k1 hall
    | ok r =>
      obtain ⟨ts1, tt1⟩ := r
      have hr := returns_importGroup env path pid testset groupTests testIndex testsets tests g
        (hsize g.Name) t (ts1, tt1) _ hres
      simp only at hr
      obtain ⟨h1, h2⟩ := hr
      subst h1 h2
      have hts1 : ∀ k ∈ rest.map (fun g => g.Name), ∃ x : Testset, x.Id ≠ ""
          ∧ (testsets.erase g.Name).lookup k = some x ∧ remote.testsets.lookup k = some x := by
        intro k hk
        obtain ⟨x, hx, hc, hr⟩ := hts k (by simp [List.mem_map] at hk ⊢; exact Or.inr hk)
        refine ⟨x, hx, ?_, hr⟩
        rw [AList.lookup_erase_ne, hc]
        intro hc2
        exact hnodup.1 (hc2 ▸ hk)
      have htt1 : ∀ key ∈ desiredTestKeys groupTests rest, ∃ xtt : Test, xtt.Id ≠ ""
          ∧ ((groupKeys g.Name ((groupTests.lookup g.Name).getD []).length).foldl
              (fun m k => m.erase k) tests).lookup key = some xtt
          ∧ remote.tests.lookup key = some xtt := by
        intro key hkey
        obtain ⟨x, hx, hc, hr⟩ := htt key (by simp [desiredTestKeys, hkey])
        refine ⟨x, hx, ?_, hr⟩
        rw [lookup_foldl_erase _ _ ?_, hc]
        intro hmem
        have h1 := mem_groupKeys _ _ _ hmem
        have h2 := mem_desiredTestKeys groupTests rest key hkey
        exact hnodup.1 (h1 ▸ h2)
      obtain ⟨segs, e2, hf2⟩ := ih _ _ hnodup.2 hts1 htt1 (t ++ tr1)
      refine ⟨tr1 :: segs, ?_, ?_⟩
      · simp only [importGroups, bind_apply, hres, List.flatten_cons]
        rw [e2, List.append_assoc]
      · rw [List.map_cons]
        exact List.Forall₂.cons k1 hf2

theorem emitsP_importStatement (env : Env) (remote : Remote) (pid : String)
    (statements : GoMap String Statement) (statement x : Statement) (hid : x.Id ≠ "")
    (hcur : statements.lookup statement.Locale = some x)
    (hrem : remote.statements.lookup statement.Locale = some x) :
    EmitsP (IdempotentCall remote) (importStatement env pid statements statement) := by
  unfold importStatement
  simp only [hcur]
  rw [if_neg hid]
  refine emitsP_bind (emitsP_retry env _ _ RepeatNumber ?_) (returns_true _)
    (fun _ _ => emitsP_pure _ _)
  exact ⟨rfl, x, hrem, rfl⟩

theorem emitsP_importStatements (env : Env) (remote : Remote) (pid : String) :
    ∀ (l : List (String × Statement)) (statements : GoMap String Statement),
      (l.map (fun e => e.2.Locale)).Nodup →
      (∀ k ∈ l.map (fun e => e.2.Locale), ∃ x : Statement, x.Id ≠ ""
        ∧ statements.lookup k = some x ∧ remote.statements.lookup k = some x) →
      EmitsP (IdempotentCall remote) (importStatements env pid l statements) := by
  intro l
  induction l with
  | nil => intro statements _ _; exact emitsP_pure _ _
  | cons e rest ih =>
    intro statements hnodup hinv
    obtain ⟨k0, statement⟩ := e
    simp only [List.map_cons, List.nodup_cons] at hnodup
    unfold importStatements
    obtain ⟨x, hx, hc, hr⟩ := hinv statement.Locale (by simp)
    refine emitsP_bind (emitsP_importStatement env remote pid statements statement x hx hc hr)
      (returns_importStatement env pid statements statement) (fun m1 hm1 => ?_)
    subst hm1
    refine ih _ hnodup.2 (fun k hk => ?_)
    obtain ⟨y, hy, hc2, hr2⟩ := hinv k (by simp only [List.map_cons, List.mem_cons]; exact Or.inr hk)
    refine ⟨y, hy, ?_, hr2⟩
    rw [AList.lookup_erase_ne, hc2]
    intro hc3
    exact hnodup.1 (hc3 ▸ hk)

theorem emitsP_importSolution (env : Env) (remote : Remote) (pid : String)
    (solutions : GoMap String Solution) (solution x : Solution) (hid : x.Id ≠ "")
    (hcur : solutions.lookup solution.Locale = some x)
    (hrem : remote.solutions.lookup solution.Locale = some x) :
    EmitsP (IdempotentCall remote) (importSolution env pid solutions solution) := by
  unfold importSolution
  simp only [hcur]
  rw [if_neg hid]
  refine emitsP_bind (emitsP_call env _ _ ?_) (returns_true _) (fun _ _ => emitsP_pure _ _)
  exact ⟨rfl, x, hrem, rfl⟩

theorem emitsP_importSolutions (env : Env) (remote : Remote) (path pid : String) :
    ∀ (l : List SpecificationSolution) (solutions : GoMap String Solution),
      ((l.filter (fun ss => decide (ss.Type_ = "application/x-tex"))).map
        (fun ss => ss.Language.take 2)).Nodup →
      (∀ k ∈ (l.filter (fun ss => decide (ss.Type_ = "application/x-tex"))).map
          (fun ss => ss.Language.take 2), ∃ x : Solution, x.Id ≠ ""
        ∧ solutions.lookup k = some x ∧ remote.solutions.lookup k = some x) →
      EmitsP (IdempotentCall remote) (importSolutions env path pid l solutions) := by
  intro l
  induction l with
  | nil => intro solutions _ _; exact emitsP_pure _ _
  | cons ss rest ih =>
    intro solutions hnodup hinv
    unfold importSolutions
    by_cases htex : ss.Type_ = "application/x-tex"
    · rw [if_neg (by simpa using htex)]
      simp only [List.filter_cons, htex, decide_True, if_true, List.map_cons,
        List.nodup_cons] at hnodup hinv
      cases hmk : MakeSolution env path ss with
      | error e => exact emitsP_fail _ _
      | ok solution =>
        simp only
        have hloc := MakeSolution_ok env path ss solution hmk
        obtain ⟨x, hx, hc, hr⟩ := hinv (ss.Language.take 2) (by simp)
        refine emitsP_bind (emitsP_importSolution env remote pid solutions solution x hx
          (by rw [hloc]; exact hc) (by rw [hloc]; exact hr))
          (returns_importSolution env pid solutions solution) (fun m1 hm1 => ?_)
        subst hm1
        refine ih _ hnodup.2 (fun k hk => ?_)
        obtain ⟨y, hy, hc2, hr2⟩ := hinv k (by simp only [List.mem_cons]; exact Or.inr hk)
        refine ⟨y, hy, ?_, hr2⟩
        rw [AList.lookup_erase_ne, hc2]
        rw [hloc]
        intro hc3
        exact hnodup.1 (hc3 ▸ hk)
    · rw [if_pos (by simpa using htex)]
      simp only [List.filter_cons, htex, decide_False] at hnodup hinv
      exact ih _ hnodup hinv

theorem foldl_erase_all {K V : Type} [DecidableEq K] (keys : List K) (m : GoMap K V)
    (h : ∀ k, k ∈ m → k ∈ keys) : (keys.foldl (fun m k => m.erase k) m).entries = [] := by
  rw [foldl_erase_entries, List.filter_eq_nil_iff]
  intro e he
  have hk : e.1 ∈ m := by
    rw [AList.mem_keys, AList.keys]
    exact List.mem_keys_of_mem he
  simp [h e.1 hk]

theorem rangeMap_of_entries_nil {K V : Type} (env : Env) (hperm : env.RangesArePerms)
    (m : GoMap K V) (h : m.entries = []) : rangeMap env m = [] := by
  have hp := rangeMap_perm env hperm m
  rw [h] at hp
  exact List.Perm.eq_nil hp

theorem range_locales_nodup (env : Env) (hperm : env.RangesArePerms)
    (m : GoMap String Statement) (hkeyed : LocaleKeyed m) :
    ((rangeMap env m).map (fun e => e.2.Locale)).Nodup := by
  have hp := (rangeMap_perm env hperm m).map (fun e => e.2.Locale)
  rw [hp.nodup_iff, List.map_map]
  have hmap : m.entries.map ((fun e : String × Statement => e.2.Locale)
      ∘ (fun e : Sigma (fun _ : String => Statement) => (e.1, e.2))) = m.keys := by
    rw [AList.keys, List.keys]
    apply List.map_congr_left
    intro e he
    exact mem_entry_locale m hkeyed e he
  rw [hmap]
  exact m.keys_nodup

theorem importTestsets_segments (env : Env) (remote : Remote) (path pid : String)
    (spec : Specification)
    (hsize : ∀ testset ∈ spec.Judging.Testsets.head?, testset.Tests.length < 2 ^ 31)
    (hnames : (desiredTestsetIndices spec).Nodup)
    (hts : ConvergedOn (fun x : Testset => x.Id) remote.testsets (desiredTestsetIndices spec))
    (htt : ConvergedOn (fun x : Test => x.Id) remote.tests (desiredTestKeysOf spec))
    (t : List Call) :
    ∃ segs, (importTestsets env path pid spec remote.testsets remote.tests t).2
        = t ++ segs.flatten
      ∧ List.Forall₂ (fun name seg => ∀ c ∈ seg, IdempotentIn remote name c)
          (desiredTestsetIndices spec) segs := by
  unfold importTestsets
  unfold desiredTestsetIndices at hnames hts ⊢
  unfold desiredTestKeysOf at htt
  cases hsp : spec.Judging.Testsets with
  | nil => exact ⟨[], by simp, List.Forall₂.nil⟩
  | cons testset others =>
    rw [hsp] at hnames hts htt
    simp only at hnames hts htt ⊢
    refine importGroups_segments env remote path pid testset _ _
      (fun g => lt_of_le_of_lt (groupTests_length_le testset.Tests g)
        (hsize testset (by simp [hsp]))) _ _ _ hnames (fun k hk => ?_) (fun key hkey => ?_) t
    · obtain ⟨x, hx, hid⟩ := hts.1 k hk
      exact ⟨x, hid, hx, hx⟩
    · obtain ⟨x, hx, hid⟩ := htt.1 key hkey
      exact ⟨x, hid, hx, hx⟩

theorem emitsP_importRest (env : Env) (remote : Remote) (hperm : env.RangesArePerms)
    (path pid : String) (spec : Specification)
    (hsols : (desiredSolutionLocales spec).Nodup)
    (hst : ConvergedOn (fun x : Statement => x.Id) remote.statements
      (desiredStatementLocales spec))
    (hso : ConvergedOn (fun x : Solution => x.Id) remote.solutions
      (desiredSolutionLocales spec))
    (testsets1 : GoMap Nat Testset) (tests1 : GoMap (Nat × Int) Test)
    (h1 : testsets1.entries = []) (h2 : tests1.entries = []) :
    EmitsP (IdempotentCall remote)
      (importRest env path pid spec remote.statements remote.solutions testsets1 tests1) := by
  unfold importRest
  rw [rangeMap_of_entries_nil env hperm tests1 h2,
    rangeMap_of_entries_nil env hperm testsets1 h1]
  unfold removeUnusedTests removeUnusedTestsets
  refine emitsP_bind (emitsP_pure _ _) (returns_true _) (fun _ _ => ?_)
  refine emitsP_bind (emitsP_pure _ _) (returns_true _) (fun _ _ => ?_)
  refine emitsP_bind (emitsP_of_emits (emits_makeStatements env path _ _)
      (fun c hc => idempotent_of_kind remote c (by simp at hc; simp [hc])))
    (returns_makeStatements env path spec.Statements ∅) (fun ns0 hns0 => ?_)
  refine emitsP_bind (Q := fun ns => backfill ns0 = .ok ns) (emitsP_lift _ _)
    (returns_lift (fun a ha => ha)) (fun ns hback => ?_)
  have hkeyed0 : LocaleKeyed ns0 := hns0.2 (by intro k s hs; simp at hs)
  obtain ⟨hbk, hbinv⟩ := backfill_ok ns0 ns hback
  have hkeyed : LocaleKeyed ns := hbinv hkeyed0
  have hiff : ∀ k, k ∈ (rangeMap env ns).map (fun e => e.2.Locale)
      ↔ k ∈ desiredStatementLocales spec := by
    intro k
    rw [mem_range_locales env hperm ns hkeyed, hbk, hns0.1, desiredStatementLocales,
      List.mem_append]
    simp only [AList.not_mem_empty, false_or]
    tauto
  refine emitsP_bind (emitsP_importStatements env remote pid _ _
      (range_locales_nodup env hperm ns hkeyed) (fun k hk => ?_))
    (returns_importStatements env pid _ remote.statements) (fun st1 hst1 => ?_)
  · obtain ⟨x, hx, hid⟩ := hst.1 k ((hiff k).1 hk)
    exact ⟨x, hid, hx, hx⟩
  have hst1e : st1.entries = [] := by
    rw [hst1]
    exact foldl_erase_all _ _ (fun k hk => (hiff k).2 (hst.2 k hk))
  rw [rangeMap_of_entries_nil env hperm st1 hst1e]
  unfold removeUnusedStatements
  refine emitsP_bind (emitsP_pure _ _) (returns_true _) (fun _ _ => ?_)
  refine emitsP_bind (emitsP_importSolutions env remote path pid _ _ hsols (fun k hk => ?_))
    (returns_importSolutions env path pid spec.Solutions remote.solutions)
    (fun so1 hso1 => ?_)
  · obtain ⟨x, hx, hid⟩ := hso.1 k hk
    exact ⟨x, hid, hx, hx⟩
  have hso1e : so1.entries = [] := by
    rw [hso1]
    exact foldl_erase_all _ _ (fun k hk => hso.2 k hk)
  rw [rangeMap_of_entries_nil env hperm so1 hso1e]
  unfold removeUnusedSolutions
  exact emitsP_pure _ _

theorem run_of_segments {α : Type} (remote : Remote) (names : List Nat) (m : M α)
    (h : ∀ t, ∃ segs, (m t).2 = t ++ segs.flatten
      ∧ List.Forall₂ (fun name seg => ∀ c ∈ seg, IdempotentIn remote name c) names segs) :
    IdempotentRun remote names m := by
  intro t
  obtain ⟨segs, e, hf⟩ := h t
  refine ⟨segs.flatten, segs, e, fun c hc => ?_, ?_, hf⟩
  · obtain ⟨name, hn⟩ := segments_mem remote hf c hc
    exact idempotentIn_call remote name c hn
  · rw [List.filter_eq_self]
    intro c hc
    obtain ⟨name, hn⟩ := segments_mem remote hf c hc
    exact idempotentIn_step remote name c hn

theorem run_pre {α β : Type} (remote : Remote) (names : List Nat) {m : M α} {f : α → M β}
    (hm : EmitsP (fun c => IdempotentCall remote c ∧ c.isTestsetStep = false) m)
    (hf : ∀ a, IdempotentRun remote names (f a)) : IdempotentRun remote names (m >>= f) := by
  intro t
  obtain ⟨tr1, e1, k1⟩ := hm t
  have hnone : tr1.filter Call.isTestsetStep = [] := by
    rw [List.filter_eq_nil_iff]
    intro c hc
    rw [(k1 c hc).2]
    exact Bool.false_ne_true
  rw [bind_apply]
  rcases hmt : m t with ⟨r, t1⟩
  rw [hmt] at e1
  simp only at e1
  subst e1
  cases r with
  | error e =>
    obtain ⟨hnil, hall⟩ := segments_empty remote names
    exact ⟨tr1, _, rfl, fun c hc => (k1 c hc).1, by rw [hnone, hnil], hall⟩
  | ok a =>
    obtain ⟨tr2, segs, e2, k2, hfil, hseg⟩ := hf a (t ++ tr1)
    refine ⟨tr1 ++ tr2, segs, by simp only [e2, List.append_assoc], ?_, ?_, hseg⟩
    · intro c hc
      rcases List.mem_append.mp hc with h | h
      · exact (k1 c h).1
      · exact k2 c h
    · rw [List.filter_append, hnone, List.nil_append, hfil]

theorem run_post {α β : Type} (remote : Remote) (names : List Nat) {Q : α → Prop} {m : M α}
    {f : α → M β} (hm : IdempotentRun remote names m) (hq : Returns Q m)
    (hf : ∀ a, Q a → EmitsP (fun c => IdempotentCall remote c ∧ c.isTestsetStep = false) (f a)) :
    IdempotentRun remote names (m >>= f) := by
  intro t
  obtain ⟨tr1, segs, e1, k1, hfil, hseg⟩ := hm t
  rw [bind_apply]
  rcases hmt : m t with ⟨r, t1⟩
  rw [hmt] at e1
  simp only at e1
  subst e1
  cases r with
  | error e => exact ⟨tr1, segs, rfl, k1, hfil, hseg⟩
  | ok a =>
    obtain ⟨tr2, e2, k2⟩ := hf a (hq t a _ hmt) (t ++ tr1)
    have hnone : tr2.filter Call.isTestsetStep = [] := by
      rw [List.filter_eq_nil_iff]
      intro c hc
      rw [(k2 c hc).2]
      exact Bool.false_ne_true
    refine ⟨tr1 ++ tr2, segs, by simp only [e2, List.append_assoc], ?_, ?_, hseg⟩
    · intro c hc
      rcases List.mem_append.mp hc with h | h
      · exact k1 c h
      · exact (k2 c h).1
    · rw [List.filter_append, hnone, List.append_nil, hfil]

theorem quiet_of_kind (remote : Remote) (c : Call)
    (h : c.kind ∈ [CallKind.list, CallKind.template, CallKind.verifier, CallKind.interactor]) :
    IdempotentCall remote c ∧ c.isTestsetStep = false := by
  cases c <;> simp [Call.kind] at h <;> exact ⟨trivial, rfl⟩

theorem not_step_of_kind (c : Call)
    (h : c.kind ∈ [CallKind.deleteTest, CallKind.deleteTestset, CallKind.asset,
      CallKind.statement, CallKind.deleteStatement, CallKind.solution,
      CallKind.deleteSolution]) : c.isTestsetStep = false := by
  cases c <;> simp [Call.kind] at h <;> rfl

theorem importInto_run (env : Env) (remote : Remote) (hperm : env.RangesArePerms)
    (path pid : String) (spec : Specification)
    (hsize : ∀ testset ∈ spec.Judging.Testsets.head?, testset.Tests.length < 2 ^ 31)
    (hnames : (desiredTestsetIndices spec).Nodup)
    (hsols : (desiredSolutionLocales spec).Nodup)
    (hconv : Converged spec remote) :
    IdempotentRun remote (desiredTestsetIndices spec) (importInto env path pid spec remote) := by
  obtain ⟨hts, htt, hst, hso⟩ := hconv
  unfold importInto
  refine run_pre remote _ (emitsP_of_emits (emits_importTemplates env path pid spec)
      (fun c hc => quiet_of_kind remote c (by simp at hc; simp [hc]))) (fun _ => ?_)
  refine run_pre remote _ (emitsP_of_emits (emits_importVerifier env path pid spec)
      (fun c hc => quiet_of_kind remote c (by simp at hc; simp [hc]))) (fun _ => ?_)
  refine run_pre remote _ (emitsP_of_emits (emits_importInteractor env path pid spec)
      (fun c hc => quiet_of_kind remote c (by simp at hc; simp [hc]))) (fun _ => ?_)
  refine run_post remote _
    (run_of_segments remote _ _
      (importTestsets_segments env remote path pid spec hsize hnames hts htt))
    (returns_importTestsets env path pid spec hsize remote.testsets remote.tests)
    (fun r hr => ?_)
  exact emitsP_and
    (emitsP_importRest env remote hperm path pid spec hsols hst hso r.1 r.2
      (by rw [hr.1]; exact foldl_erase_all _ _ hts.2)
      (by rw [hr.2]; exact foldl_erase_all _ _ htt.2))
    (emitsP_of_emits (emits_importRest env path pid spec _ _ _ _)
      (fun c hc => not_step_of_kind c hc))

theorem convergedOn_of_lists {K V : Type} [DecidableEq K] (ident : V → String)
    (m : GoMap K V) (desired : List K)
    (h1 : ∀ k ∈ desired, (m.lookup k).map (fun x => decide (ident x ≠ "")) = some true)
    (h2 : ∀ k ∈ m.keys, k ∈ desired) : ConvergedOn ident m desired := by
  refine ⟨fun k hk => ?_, fun k hk => h2 k (AList.mem_keys.1 hk)⟩
  have h := h1 k hk
  cases hl : m.lookup k with
  | none => rw [hl] at h; simp at h
  | some x =>
    rw [hl] at h
    simp only [Option.map_some', Option.some.injEq, decide_eq_true_eq] at h
    exact ⟨x, rfl, h⟩

theorem converged_sample : Converged templateSpec convergedSnapshot :=
  ⟨convergedOn_of_lists _ _ _ (by decide) (by decide),
    convergedOn_of_lists _ _ _ (by decide) (by decide),
    convergedOn_of_lists _ _ _ (by decide) (by decide),
    convergedOn_of_lists _ _ _ (by decide) (by decide)⟩

/-- C12 (counterexample): the remote `convergedRemote` is converged for the
specification `templateSpec`, whose package holds the code template file
`files/template_cpp.cpp`; the run of `ImportProblem` on it succeeds, and it
deletes both code templates of the remote and creates two new ones, so the
run does issue delete and create operations.  It also uploads the data of the
three tests again. -/
theorem C12_counterexample :
    fetchRemote (sampleEnv templateSpec convergedRemote) "P1" []
        = (.ok convergedSnapshot, [.ListStatements "P1", .ListSolutions "P1",
            .ListTestsets "P1", .ListTests "TS0"])
      ∧ Converged templateSpec convergedSnapshot
      ∧ (ImportProblem (sampleEnv templateSpec convergedRemote) "p" "P1" []).1 = .ok "P1"
      ∧ callsOfKind .template (ImportProblem (sampleEnv templateSpec convergedRemote) "p" "P1" []).2
        = [.ListCodeTemplates "P1", .DeleteCodeTemplate "K1", .DeleteCodeTemplate "K2",
            .CreateCodeTemplate "P1" ⟨"", "P1", "gpp", "data:p/files/template_cpp.cpp"⟩,
            .CreateCodeTemplate "P1" ⟨"", "P1", "cpp:17-gnu10", "data:p/files/template_cpp.cpp"⟩]
      ∧ callsOfKind .object (ImportProblem (sampleEnv templateSpec convergedRemote) "p" "P1" []).2
        = [.CreateObject "data:p/tests/%02d1", .CreateObject "data:p/tests/%02d.a1",
            .CreateObject "data:p/tests/%02d2", .CreateObject "data:p/tests/%02d.a2",
            .CreateObject "data:p/tests/%02d3", .CreateObject "data:p/tests/%02d.a3"] :=
  ⟨rfl, converged_sample, by decide, by decide, by decide⟩

/-- C12 (amended): let `ImportProblem` be run for an existing problem whose
specification opens and whose snapshot `remote`, as listed from the remote, is
converged for the specification (an entity with a non-empty id under every
desired natural key, none under another key), with the names of the groups
walked distinct, the locales of the TeX solutions distinct, fewer than 2^31
tests in the first testset and range loops that visit every map entry once.
Then, whatever the remote answers during the run, the run creates no problem
and creates and deletes no testset, test, statement or solution; every update
of a testset, statement or solution is sent under the id that the snapshot
holds under the natural key of the payload (index or locale), with a payload
carrying that id; and the calls on testsets, tests and test data fall into one
segment per group walked, in order, in which the testset updated is the one
the snapshot holds under the name of the group and every test updated is the
one the snapshot holds under the key of that group name and the index of the
payload, sent under its id with a payload carrying that id.  Nothing is
stated about code templates, the verifier, the interactor and uploads. -/
theorem C12_idempotent_on_reconciled_entities (env : Env) (path pid : String)
    (spec : Specification) (remote : Remote) (t t0 : List Call)
    (hopen : env.openSpec (env.join [path, "problem.xml"]) = .ok (.ok spec))
    (hpid : pid ≠ "")
    (hperm : env.RangesArePerms)
    (hsize : ∀ testset ∈ spec.Judging.Testsets.head?, testset.Tests.length < 2 ^ 31)
    (hnames : (desiredTestsetIndices spec).Nodup)
    (hsols : (desiredSolutionLocales spec).Nodup)
    (hfetch : fetchRemote env pid t = (.ok remote, t0))
    (hconv : Converged spec remote) :
    ∃ (tr : List Call) (segs : List (List Call)),
      (ImportProblem env path pid t).2 = t ++ tr
        ∧ (∀ c ∈ tr, IdempotentCall remote c)
        ∧ tr.filter Call.isTestsetStep = segs.flatten
        ∧ List.Forall₂ (fun name seg => ∀ c ∈ seg, IdempotentIn remote name c)
            (desiredTestsetIndices spec) segs := by
  unfold ImportProblem
  cases hstat : env.statNotExist path with
  | some err =>
    obtain ⟨hnil, hall⟩ := segments_empty remote (desiredTestsetIndices spec)
    exact ⟨[], _, by simp [M.fail], by simp, by rw [hnil]; rfl, hall⟩
  | none =>
    simp only [hopen, if_neg hpid, bind_apply, hfetch]
    obtain ⟨tr0, e0, k0⟩ := emits_ok (emits_fetchRemote env pid) hfetch
    obtain ⟨tr1, segs, e1, k1, hfil, hseg⟩ :=
      importInto_run env remote hperm path pid spec hsize hnames hsols hconv t0
    have hq : ∀ c ∈ tr0, IdempotentCall remote c ∧ c.isTestsetStep = false :=
      fun c hc => quiet_of_kind remote c (by have := k0 c hc; simp at this; simp [this])
    have hnone : tr0.filter Call.isTestsetStep = [] := by
      rw [List.filter_eq_nil_iff]
      intro c hc
      rw [(hq c hc).2]
      exact Bool.false_ne_true
    refine ⟨tr0 ++ tr1, segs, ?_, ?_, ?_, hseg⟩
    · cases hinto : importInto env path pid spec remote t0 with
      | mk r t1 =>
        rw [hinto] at e1
        simp only at e1
        cases r with
        | ok u => simp only [pure_apply]; rw [e1, e0, List.append_assoc]
        | error e => simp only; rw [e1, e0, List.append_assoc]
    · intro c hc
      rcases List.mem_append.1 hc with h | h
      · exact (hq c h).1
      · exact k1 c h
    · rw [List.filter_append, hnone, List.nil_append, hfil]

/-- Witness of C12: on the converged remote `convergedRemote` the run for
`templateSpec` succeeds; it updates the testset `TS0`, the tests `T1`, `T2`,
`T3`, the three statements and the solution under the ids of the snapshot and
creates or deletes none of them. -/
theorem C12_idempotent_on_reconciled_entities_witness :
    (∃ (tr : List Call) (segs : List (List Call)),
      (ImportProblem (sampleEnv templateSpec convergedRemote) "p" "P1" []).2 = [] ++ tr
        ∧ (∀ c ∈ tr, IdempotentCall convergedSnapshot c)
        ∧ tr.filter Call.isTestsetStep = segs.flatten
        ∧ List.Forall₂ (fun name seg => ∀ c ∈ seg, IdempotentIn convergedSnapshot name c)
            (desiredTestsetIndices templateSpec) segs)
      ∧ desiredTestsetIndices templateSpec = [0]
      ∧ (ImportProblem (sampleEnv templateSpec convergedRemote) "p" "P1" []).1 = .ok "P1"
      ∧ (ImportProblem (sampleEnv templateSpec convergedRemote) "p" "P1" []).2.filter
          (fun c => decide (c.kind ∈ [CallKind.testset, CallKind.test, CallKind.statement,
            CallKind.solution]))
        = [.UpdateTestset "TS0" ⟨"TS0", 0, 1000, 256, 536870912, .EACH, .ICPC_EXPANDED, []⟩,
           .UpdateTest "T1" ⟨"T1", 1, false, 33, "id11", "id12"⟩,
           .UpdateTest "T2" ⟨"T2", 2, false, 33, "id14", "id15"⟩,
           .UpdateTest "T3" ⟨"T3", 3, false, 34, "id17", "id18"⟩,
           .UpdateStatement "S2" ⟨"S2", "en", "Name",
              "Legend\n\n\\InputFile\n\nin\n\n\\OutputFile\n\nout", .TEX, "author", "polygon"⟩,
           .UpdateStatement "S1" ⟨"S1", "uk", "Name",
              "Legend\n\n\\InputFile\n\nin\n\n\\OutputFile\n\nout", .TEX, "author", "polygon"⟩,
           .UpdateStatement "S3" ⟨"S3", "ru", "Name",
              "Legend\n\n\\InputFile\n\nin\n\n\\OutputFile\n\nout", .TEX, "author", "polygon"⟩,
           .UpdateSolution "L1" ⟨"L1", "en", "sol", .TEX⟩] :=
  ⟨C12_idempotent_on_reconciled_entities (sampleEnv templateSpec convergedRemote) "p" "P1"
      templateSpec convergedSnapshot [] _ rfl (by decide) (fun _ l => List.Perm.refl l)
      (by intro ts hts; cases hts; decide) (by decide) (by decide) rfl converged_sample,
    by decide, by decide, by decide⟩

/-! ## Local and global test index (C15, C16) -/

theorem testIndex_frame (grp : Nat) (k : Int) :
    ∀ (tests : List SpecificationTest) (gi : Nat)
      (groupTests : GoMap Nat (List SpecificationTest)) (testIndex : GoMap (Nat × Int) Nat),
      k ≤ (((groupTests.lookup grp).getD []).length : Int) →
      ((readTestsByGroup gi tests groupTests testIndex).2).lookup (grp, k)
        = testIndex.lookup (grp, k) := by
  intro tests
  induction tests with
  | nil => intro gi groupTests testIndex _; rfl
  | cons test rest ih =>
    intro gi groupTests testIndex hk
    rw [readTestsByGroup]
    by_cases hg : test.Group = grp
    · subst hg
      rw [ih]
      · rw [AList.lookup_insert_ne]
        intro hc
        have := (Prod.mk.inj hc).2
        simp only [List.length_append, List.length_singleton, Nat.cast_add, Nat.cast_one] at this
        omega
      · simp only [AList.lookup_insert, Option.getD_some, List.length_append,
          List.length_singleton, Nat.cast_add, Nat.cast_one]
        omega
    · have hne : grp ≠ test.Group := fun h => hg h.symm
      rw [ih]
      · rw [AList.lookup_insert_ne]
        intro hc
        exact hne (Prod.mk.inj hc).1
      · rw [AList.lookup_insert_ne hne]
        exact hk

theorem testIndex_lookup (grp : Nat) :
    ∀ (tests : List SpecificationTest) (gi : Nat)
      (groupTests : GoMap Nat (List SpecificationTest)) (testIndex : GoMap (Nat × Int) Nat)
      (i g : Nat),
      (((tests.enumFrom gi).filter (fun p => decide (p.2.Group = grp))).map (fun p => p.1))[i]?
          = some g →
      ((readTestsByGroup gi tests groupTests testIndex).2).lookup
          (grp, ((((groupTests.lookup grp).getD []).length : Int) + (i : Int) + 1)) = some g := by
  intro tests
  induction tests with
  | nil => intro gi groupTests testIndex i g h; simp at h
  | cons test rest ih =>
    intro gi groupTests testIndex i g h
    rw [readTestsByGroup]
    by_cases hg : test.Group = grp
    · subst hg
      simp only [List.enumFrom_cons, List.filter_cons, decide_True, if_true, List.map_cons] at h
      cases i with
      | zero =>
        simp only [List.getElem?_cons_zero, Option.some.injEq] at h
        subst h
        rw [testIndex_frame]
        · simp only [List.length_append, List.length_singleton, Nat.cast_add, Nat.cast_one,
            Nat.cast_zero, add_zero]
          exact AList.lookup_insert _
        · simp only [AList.lookup_insert, Option.getD_some, List.length_append,
            List.length_singleton, Nat.cast_add, Nat.cast_one, Nat.cast_zero, add_zero]
          exact le_refl _
      | succ j =>
        simp only [List.getElem?_cons_succ] at h
        have hl : (((groupTests.insert test.Group
            ((groupTests.lookup test.Group).getD [] ++ [test])).lookup test.Group).getD []).length
            = ((groupTests.lookup test.Group).getD []).length + 1 := by
          rw [AList.lookup_insert]
          simp
        have := ih (gi + 1)
          (groupTests.insert test.Group ((groupTests.lookup test.Group).getD [] ++ [test]))
          (testIndex.insert (test.Group,
            ((((groupTests.lookup test.Group).getD [] ++ [test]).length : Nat) : Int)) gi) j g h
        rw [hl] at this
        have hkey : ((((groupTests.lookup test.Group).getD []).length : Int)
              + (((j + 1 : Nat)) : Int) + 1)
            = (((((groupTests.lookup test.Group).getD []).length + 1 : Nat) : Int)
              + (j : Int) + 1) := by
          push_cast
          ring
        rw [hkey]
        exact this
    · have hne : grp ≠ test.Group := fun h => hg h.symm
      simp only [List.enumFrom_cons, List.filter_cons, hg, decide_False] at h
      have := ih (gi + 1)
        (groupTests.insert test.Group ((groupTests.lookup test.Group).getD [] ++ [test]))
        (testIndex.insert (test.Group,
          ((((groupTests.lookup test.Group).getD [] ++ [test]).length : Nat) : Int)) gi) i g h
      rw [AList.lookup_insert_ne hne] at this
      exact this

theorem positions_length (grp : Nat) :
    ∀ (tests : List SpecificationTest) (gi : Nat),
      (((tests.enumFrom gi).filter (fun p => decide (p.2.Group = grp))).map
          (fun p => p.1)).length
        = (tests.filter (fun x => decide (x.Group = grp))).length := by
  intro tests
  induction tests with
  | nil => intro gi; rfl
  | cons test rest ih =>
    intro gi
    by_cases hg : test.Group = grp
    · simp only [List.enumFrom_cons, List.filter_cons, hg, decide_True, if_true,
        List.map_cons, List.length_cons, ih]
    · simp only [List.enumFrom_cons, List.filter_cons, hg, decide_False, ih]
      simpa using ih (gi + 1)

theorem positionsOf_length (grp : Nat) (tests : List SpecificationTest) :
    (positionsOf grp tests).length
      = (((readTestsByGroup 0 tests ∅ ∅).1.lookup grp).getD []).length := by
  rw [readTestsByGroup_lookup]
  simp only [AList.lookup_empty, Option.getD_none, List.nil_append]
  exact positions_length grp tests 0

theorem testIndex_positionsOf (grp : Nat) (tests : List SpecificationTest) (i g : Nat)
    (h : (positionsOf grp tests)[i]? = some g) :
    ((readTestsByGroup 0 tests ∅ ∅).2).lookup (grp, (i : Int) + 1) = some g := by
  have := testIndex_lookup grp tests 0 ∅ ∅ i g h
  simp only [AList.lookup_empty, Option.getD_none, List.length_nil, Nat.cast_ofNat,
    Int.Nat.cast_ofNat_Int] at this
  rw [Int.zero_add] at this
  exact this

theorem forall₂_imp_mem {α β : Type} {R S : α → β → Prop} :
    ∀ {l : List α} {u : List β}, List.Forall₂ R l u →
      (∀ a ∈ l, ∀ b, R a b → S a b) → List.Forall₂ S l u := by
  intro l u h
  induction h with
  | nil => intro _; exact List.Forall₂.nil
  | cons hab _ ih =>
    intro himp
    exact List.Forall₂.cons (himp _ (List.mem_cons_self _ _) _ hab)
      (ih (fun a ha b hr => himp a (List.mem_cons_of_mem _ ha) b hr))

theorem MakeObject_read (env : Env) (hok : ∀ t c, ∃ r, env.remote t c = .ok r)
    (p d : String) (hd : env.readFile p = .ok d) (t : List Call) :
    ∃ key, MakeObject env p t = (.ok key, t ++ [.CreateObject d]) := by
  obtain ⟨r, hr⟩ := hok t (.CreateObject d)
  refine ⟨r.Id, ?_⟩
  simp [MakeObject, hd, RepeatNumber, MakeObject.loop, hr]

theorem importTest_shape (env : Env) (hok : ∀ t c, ∃ r, env.remote t c = .ok r)
    (hread : ∀ p, ∃ d, env.readFile p = .ok d) (path : String) (testset : SpecificationTestset)
    (testIndex : GoMap (Nat × Int) Nat) (xts : Testset) (n : Nat)
    (tests : GoMap (Nat × Int) Test) (ti : Nat) (ts : SpecificationTest) (t : List Call) :
    ∃ chunk, importTest env path testset testIndex xts n tests ti ts t
        = (.ok (tests.erase (xts.Index, toInt32 ((ti : Int) + 1))), t ++ chunk)
      ∧ TestUploadFor env path testset (tests.lookup (xts.Index, toInt32 ((ti : Int) + 1)))
          ((testIndex.lookup (xts.Index, toInt32 ((ti : Int) + 1))).getD 0)
          (toInt32 ((ti : Int) + 1)) chunk := by
  unfold importTest
  simp only [bind_apply]
  obtain ⟨d1, hd1⟩ := hread (env.join [path, env.sprintf testset.InputPathPattern
      ((((testIndex.lookup (xts.Index, toInt32 ((ti : Int) + 1))).getD 0 : Nat) : Int) + 1)])
  obtain ⟨d2, hd2⟩ := hread (env.join [path, env.sprintf testset.AnswerPathPattern
      ((((testIndex.lookup (xts.Index, toInt32 ((ti : Int) + 1))).getD 0 : Nat) : Int) + 1)])
  obtain ⟨k1, h1⟩ := MakeObject_read env hok _ d1 hd1 t
  rw [h1]
  simp only
  obtain ⟨k2, h2⟩ := MakeObject_read env hok _ d2 hd2 (t ++ [.CreateObject d1])
  rw [h2]
  simp only
  rw [fillTest_Id]
  by_cases hid : ((tests.lookup (xts.Index, toInt32 ((ti : Int) + 1))).getD Test.zero).Id = ""
  · rw [if_pos hid]
    obtain ⟨r, hr⟩ := retry_ok env hok (.CreateTest xts.Id (fillTest xts n ti ts k1 k2
      ((tests.lookup (xts.Index, toInt32 ((ti : Int) + 1))).getD Test.zero))) RepeatNumber
      (t ++ [.CreateObject d1] ++ [.CreateObject d2])
    refine ⟨[.CreateObject d1, .CreateObject d2, .CreateTest xts.Id (fillTest xts n ti ts k1 k2
      ((tests.lookup (xts.Index, toInt32 ((ti : Int) + 1))).getD Test.zero))], ?_,
      d1, d2, _, rfl, hd1, hd2, ?_⟩
    · simp only [bind_apply, CreateTest]
      rw [hr]
      simp
    · rcases hl : tests.lookup (xts.Index, toInt32 ((ti : Int) + 1)) with _ | xtt
      · exact ⟨_, _, rfl, by rw [fillTest_Id]; rfl, fillTest_Index _ _ _ _ _ _ _⟩
      · rw [hl] at hid
        simp only [TestOpFor, Option.getD_some] at hid ⊢
        rw [if_pos hid]
        exact ⟨_, _, rfl, fillTest_Index _ _ _ _ _ _ _⟩
  · rw [if_neg hid]
    obtain ⟨r, hr⟩ := retry_ok env hok
      (.UpdateTest ((tests.lookup (xts.Index, toInt32 ((ti : Int) + 1))).getD Test.zero).Id
        (fillTest xts n ti ts k1 k2
          ((tests.lookup (xts.Index, toInt32 ((ti : Int) + 1))).getD Test.zero))) RepeatNumber
      (t ++ [.CreateObject d1] ++ [.CreateObject d2])
    refine ⟨[.CreateObject d1, .CreateObject d2,
      .UpdateTest ((tests.lookup (xts.Index, toInt32 ((ti : Int) + 1))).getD Test.zero).Id
        (fillTest xts n ti ts k1 k2
          ((tests.lookup (xts.Index, toInt32 ((ti : Int) + 1))).getD Test.zero))], ?_,
      d1, d2, _, rfl, hd1, hd2, ?_⟩
    · simp only [bind_apply, UpdateTest]
      rw [hr]
      simp
    · rcases hl : tests.lookup (xts.Index, toInt32 ((ti : Int) + 1)) with _ | xtt
      · rw [hl] at hid
        exact absurd rfl hid
      · rw [hl] at hid
        simp only [TestOpFor, Option.getD_some] at hid ⊢
        rw [if_neg hid]
        exact ⟨_, rfl, fillTest_Id _ _ _ _ _ _ _, fillTest_Index _ _ _ _ _ _ _⟩

theorem importTests_shape (env : Env) (hok : ∀ t c, ∃ r, env.remote t c = .ok r)
    (hread : ∀ p, ∃ d, env.readFile p = .ok d) (path : String) (testset : SpecificationTestset)
    (testIndex : GoMap (Nat × Int) Nat) (xts : Testset) (n : Nat) :
    ∀ (gts : List SpecificationTest) (ti0 : Nat) (tests : GoMap (Nat × Int) Test)
      (t : List Call), ti0 + gts.length < 2 ^ 31 →
      ∃ tests1 chunks, importTests env path testset testIndex xts n ti0 gts tests t
          = (.ok tests1, t ++ chunks.flatten)
        ∧ List.Forall₂ (fun (ti : Nat) chunk =>
              TestUploadFor env path testset (tests.lookup (xts.Index, (ti : Int) + 1))
                ((testIndex.lookup (xts.Index, (ti : Int) + 1)).getD 0) ((ti : Int) + 1) chunk)
            (List.range' ti0 gts.length) chunks
        ∧ (∀ key : Nat × Int, key.1 ≠ xts.Index → tests1.lookup key = tests.lookup key) := by
  intro gts
  induction gts with
  | nil =>
    intro ti0 tests t _
    exact ⟨tests, [], by simp [importTests], by simp, fun _ _ => rfl⟩
  | cons ts rest ih =>
    intro ti0 tests t hlen
    simp only [List.length_cons] at hlen
    obtain ⟨chunk, h1, hop⟩ :=
      importTest_shape env hok hread path testset testIndex xts n tests ti0 ts t
    have hsmall : toInt32 ((ti0 : Int) + 1) = (ti0 : Int) + 1 :=
      toInt32_of_small _ (by omega) (by omega)
    rw [hsmall] at h1 hop
    obtain ⟨tests1, chunks, h2, hf2, hframe⟩ :=
      ih (ti0 + 1) (tests.erase (xts.Index, (ti0 : Int) + 1)) (t ++ chunk) (by omega)
    refine ⟨tests1, chunk :: chunks, ?_, ?_, ?_⟩
    · simp only [importTests, bind_apply, h1, h2, List.append_assoc, List.flatten_cons]
    · rw [List.length_cons, List.range'_succ]
      refine List.Forall₂.cons hop ?_
      refine forall₂_imp_mem hf2 (fun ti hti chunk hc => ?_)
      have hge : ti0 + 1 ≤ ti := (List.mem_range'_1.mp hti).1
      rw [AList.lookup_erase_ne] at hc
      · exact hc
      · intro hc2
        have := (Prod.mk.inj hc2).2
        omega
    · intro key hkey
      rw [hframe key hkey, AList.lookup_erase_ne]
      intro hc
      exact hkey (by rw [hc])

theorem importGroup_shape (env : Env) (hok : ∀ t c, ∃ r, env.remote t c = .ok r)
    (hread : ∀ p, ∃ d, env.readFile p = .ok d) (path pid : String)
    (testset : SpecificationTestset) (groupTests : GoMap Nat (List SpecificationTest))
    (testIndex : GoMap (Nat × Int) Nat) (testsets : GoMap Nat Testset)
    (tests : GoMap (Nat × Int) Test) (group : SpecificationGroup) (t : List Call)
    (hsize : ((groupTests.lookup group.Name).getD []).length < 2 ^ 31) :
    ∃ tests1 op chunks,
      importGroup env path pid testset groupTests testIndex testsets tests group t
          = (.ok (testsets.erase group.Name, tests1), t ++ op :: chunks.flatten)
        ∧ TestsetOpFor pid testset group (testsets.lookup group.Name) op
        ∧ List.Forall₂ (fun (ti : Nat) chunk =>
              TestUploadFor env path testset (tests.lookup (group.Name, (ti : Int) + 1))
                ((testIndex.lookup (group.Name, (ti : Int) + 1)).getD 0) ((ti : Int) + 1) chunk)
            (List.range' 0 ((groupTests.lookup group.Name).getD []).length) chunks
        ∧ (∀ key : Nat × Int, key.1 ≠ group.Name → tests1.lookup key = tests.lookup key) := by
  unfold importGroup
  simp only [bind_apply]
  by_cases hid : (fillTestset testset group ((testsets.lookup group.Name).getD Testset.zero)).Id ≠ ""
  · rw [if_pos hid]
    obtain ⟨r, hr⟩ := retry_ok env hok
      (.UpdateTestset (fillTestset testset group ((testsets.lookup group.Name).getD Testset.zero)).Id
        (fillTestset testset group ((testsets.lookup group.Name).getD Testset.zero)))
      RepeatNumber t
    obtain ⟨tests1, chunks, h2, hf2, hframe⟩ := importTests_shape env hok hread path testset
      testIndex (fillTestset testset group ((testsets.lookup group.Name).getD Testset.zero))
      ((groupTests.lookup group.Name).getD []).length ((groupTests.lookup group.Name).getD []) 0
      tests (t ++ [.UpdateTestset
        (fillTestset testset group ((testsets.lookup group.Name).getD Testset.zero)).Id
        (fillTestset testset group ((testsets.lookup group.Name).getD Testset.zero))])
      (by omega)
    rw [fillTestset_Index] at hf2 hframe
    refine ⟨tests1, _, chunks, ?_, (by unfold TestsetOpFor; rw [if_pos hid]), hf2, hframe⟩
    simp only [bind_apply, UpdateTestset]
    rw [hr]
    simp only [pure_apply]
    rw [h2]
    simp
  · rw [if_neg hid]
    obtain ⟨r, hr⟩ := retry_ok env hok
      (.CreateTestset pid
        (fillTestset testset group ((testsets.lookup group.Name).getD Testset.zero)))
      RepeatNumber t
    obtain ⟨tests1, chunks, h2, hf2, hframe⟩ := importTests_shape env hok hread path testset
      testIndex
      { fillTestset testset group ((testsets.lookup group.Name).getD Testset.zero) with Id := r.Id }
      ((groupTests.lookup group.Name).getD []).length ((groupTests.lookup group.Name).getD []) 0
      tests (t ++ [.CreateTestset pid
        (fillTestset testset group ((testsets.lookup group.Name).getD Testset.zero))])
      (by omega)
    simp only [fillTestset_Index] at hf2 hframe
    refine ⟨tests1, _, chunks, ?_, (by unfold TestsetOpFor; rw [if_neg hid]), hf2, hframe⟩
    simp only [bind_apply, CreateTestset]
    rw [hr]
    simp only [pure_apply]
    rw [h2]
    simp

theorem importGroups_shape (env : Env) (hok : ∀ t c, ∃ r, env.remote t c = .ok r)
    (hread : ∀ p, ∃ d, env.readFile p = .ok d) (path pid : String)
    (testset : SpecificationTestset) (groupTests : GoMap Nat (List SpecificationTest))
    (testIndex : GoMap (Nat × Int) Nat)
    (hsize : ∀ g : Nat, ((groupTests.lookup g).getD []).length < 2 ^ 31) :
    ∀ (groups : List SpecificationGroup) (testsets : GoMap Nat Testset)
      (tests : GoMap (Nat × Int) Test) (t : List Call),
      (groups.map (fun g => g.Name)).Nodup →
      ∃ testsets1 tests1 segs,
        importGroups env path pid testset groupTests testIndex groups testsets tests t
            = (.ok (testsets1, tests1), t ++ segs.flatten)
          ∧ List.Forall₂ (fun (group : SpecificationGroup) seg =>
              ∃ op chunks, seg = op :: chunks.flatten
                ∧ TestsetOpFor pid testset group (testsets.lookup group.Name) op
                ∧ List.Forall₂ (fun (ti : Nat) chunk =>
                    TestUploadFor env path testset (tests.lookup (group.Name, (ti : Int) + 1))
                      ((testIndex.lookup (group.Name, (ti : Int) + 1)).getD 0)
                      ((ti : Int) + 1) chunk)
                  (List.range' 0 ((groupTests.lookup group.Name).getD []).length) chunks)
              groups segs
          ∧ (∀ key : Nat × Int, key.1 ∉ groups.map (fun g => g.Name) →
              tests1.lookup key = tests.lookup key) := by
  intro groups
  induction groups with
  | nil =>
    intro testsets tests t _
    exact ⟨testsets, tests, [], by simp [importGroups], List.Forall₂.nil, fun _ _ => rfl⟩
  | cons g rest ih =>
    intro testsets tests t hnodup
    simp only [List.map_cons, List.nodup_cons] at hnodup
    obtain ⟨tests1, op, chunks, h1, hop, hf1, hframe1⟩ :=
      importGroup_shape env hok hread path pid testset groupTests testIndex testsets tests g t
        (hsize g.Name)
    obtain ⟨testsets2, tests2, segs, h2, hf2, hframe2⟩ :=
      ih (testsets.erase g.Name) tests1 (t ++ op :: chunks.flatten) hnodup.2
    refine ⟨testsets2, tests2, (op :: chunks.flatten) :: segs, ?_, ?_, ?_⟩
    · simp only [importGroups, bind_apply, h1, h2, List.append_assoc, List.flatten_cons]
    · refine List.Forall₂.cons ⟨op, chunks, rfl, hop, hf1⟩ ?_
      refine forall₂_imp_mem hf2 (fun group hgroup seg hseg => ?_)
      have hne : group.Name ≠ g.Name := by
        intro hc
        exact hnodup.1 (hc ▸ List.mem_map_of_mem (fun g => g.Name) hgroup)
      obtain ⟨op2, chunks2, e2, hop2, hin2⟩ := hseg
      refine ⟨op2, chunks2, e2, ?_, ?_⟩
      · rw [AList.lookup_erase_ne hne] at hop2
        exact hop2
      · refine List.Forall₂.imp (fun ti chunk hc => ?_) hin2
        rw [hframe1 _ hne] at hc
        exact hc
    · intro key hkey
      simp only [List.map_cons, List.mem_cons, not_or] at hkey
      rw [hframe2 key hkey.2, hframe1 key hkey.1]

theorem importTestsets_shape (env : Env) (path pid : String) (spec : Specification)
    (testset : SpecificationTestset) (others : List SpecificationTestset)
    (hspec : spec.Judging.Testsets = testset :: others)
    (hok : ∀ t c, ∃ r, env.remote t c = .ok r)
    (hread : ∀ p, ∃ d, env.readFile p = .ok d)
    (hnames : ((groupsOf testset).map (fun g => g.Name)).Nodup)
    (hsize : testset.Tests.length < 2 ^ 31) (remote : Remote) (t : List Call) :
    ∃ testsets1 tests1 segs,
      importTestsets env path pid spec remote.testsets remote.tests t
          = (.ok (testsets1, tests1), t ++ segs.flatten)
        ∧ List.Forall₂ (GroupUploadFor env path pid testset remote) (groupsOf testset) segs := by
  obtain ⟨testsets1, tests1, segs, h, hf, _⟩ :=
    importGroups_shape env hok hread path pid testset (readTestsByGroup 0 testset.Tests ∅ ∅).1
      (readTestsByGroup 0 testset.Tests ∅ ∅).2
      (fun g => lt_of_le_of_lt (groupTests_length_le testset.Tests g) hsize)
      (groupsOf testset) remote.testsets remote.tests t hnames
  refine ⟨testsets1, tests1, segs, ?_, ?_⟩
  · simp only [importTestsets, hspec]
    exact h
  · refine List.Forall₂.imp (fun group seg hseg => ?_) hf
    obtain ⟨op, chunks, e, hop, hin⟩ := hseg
    refine ⟨op, chunks, e, hop, ?_⟩
    rw [← positionsOf_length, ← List.enumFrom_map_fst 0 (positionsOf group.Name testset.Tests),
      List.forall₂_map_left_iff] at hin
    refine forall₂_imp_mem hin (fun p hp chunk hc => ?_)
    obtain ⟨i, g⟩ := p
    have hg : (positionsOf group.Name testset.Tests)[i]? = some g :=
      List.mk_mem_enum_iff_getElem?.1 hp
    simp only at hc ⊢
    rw [testIndex_positionsOf group.Name testset.Tests i g hg] at hc
    exact hc

theorem filter_step_of_kinds (ks : List CallKind)
    (hks : ∀ k ∈ ks, k ∉ [CallKind.testset, CallKind.object, CallKind.test]) (tr : List Call)
    (h : ∀ c ∈ tr, c.kind ∈ ks) : tr.filter Call.isTestsetStep = [] := by
  rw [List.filter_eq_nil_iff]
  intro c hc
  have := hks _ (h c hc)
  simpa [Call.isTestsetStep] using this

theorem filter_step_self (tr : List Call)
    (h : ∀ c ∈ tr, c.kind ∈ [CallKind.testset, CallKind.object, CallKind.test]) :
    tr.filter Call.isTestsetStep = tr := by
  rw [List.filter_eq_self]
  intro c hc
  simpa [Call.isTestsetStep] using h c hc

theorem importInto_shape (env : Env) (path pid : String) (spec : Specification)
    (testset : SpecificationTestset) (others : List SpecificationTestset)
    (hspec : spec.Judging.Testsets = testset :: others)
    (hok : ∀ t c, ∃ r, env.remote t c = .ok r)
    (hread : ∀ p, ∃ d, env.readFile p = .ok d)
    (hverifier : ∃ v, MakeVerifier env path spec = .ok v)
    (hinteractor : spec.Interactor.Sources = [] ∨ ∃ i, MakeInteractor env path spec = .ok i)
    (hnames : ((groupsOf testset).map (fun g => g.Name)).Nodup)
    (hsize : testset.Tests.length < 2 ^ 31) (remote : Remote) (t : List Call) :
    ∃ tr segs, (importInto env path pid spec remote t).2 = t ++ tr
      ∧ tr.filter Call.isTestsetStep = segs.flatten
      ∧ List.Forall₂ (GroupUploadFor env path pid testset remote) (groupsOf testset) segs := by
  obtain ⟨_, tr1, h1, hk1⟩ := succeeds_importTemplates env hread path pid spec t
  obtain ⟨_, tr2, h2, hk2⟩ := succeeds_importVerifier env hok path pid spec hverifier (t ++ tr1)
  obtain ⟨_, tr3, h3, hk3⟩ :=
    succeeds_importInteractor env hok path pid spec hinteractor (t ++ tr1 ++ tr2)
  obtain ⟨testsets1, tests1, segs, h4, hf4⟩ :=
    importTestsets_shape env path pid spec testset others hspec hok hread hnames hsize
      remote (t ++ tr1 ++ tr2 ++ tr3)
  obtain ⟨tr4, e4, hk4⟩ := emits_ok (emits_importTestsets env path pid spec _ _) h4
  have e4 : segs.flatten = tr4 := List.append_cancel_left e4
  obtain ⟨tr5, h5, hk5⟩ := emits_importRest env path pid spec remote.statements remote.solutions
    testsets1 tests1 (t ++ tr1 ++ tr2 ++ tr3 ++ segs.flatten)
  refine ⟨tr1 ++ tr2 ++ tr3 ++ segs.flatten ++ tr5, segs, ?_, ?_, hf4⟩
  · simp only [importInto, bind_apply, h1, h2, h3, h4]
    rw [h5]
    simp only [List.append_assoc]
  · simp only [List.filter_append]
    rw [filter_step_of_kinds _ (by decide) tr1 hk1, filter_step_of_kinds _ (by decide) tr2 hk2,
      filter_step_of_kinds _ (by decide) tr3 hk3, filter_step_of_kinds _ (by decide) tr5 hk5,
      filter_step_self _ (by rw [e4]; exact hk4)]
    simp

theorem ImportProblem_shape (env : Env) (path pid : String) (spec : Specification)
    (testset : SpecificationTestset) (others : List SpecificationTestset)
    (hstat : env.statNotExist path = none)
    (hopen : env.openSpec (env.join [path, "problem.xml"]) = .ok (.ok spec))
    (hspec : spec.Judging.Testsets = testset :: others)
    (hok : ∀ t c, ∃ r, env.remote t c = .ok r)
    (hread : ∀ p, ∃ d, env.readFile p = .ok d)
    (hverifier : ∃ v, MakeVerifier env path spec = .ok v)
    (hinteractor : spec.Interactor.Sources = [] ∨ ∃ i, MakeInteractor env path spec = .ok i)
    (hnames : ((groupsOf testset).map (fun g => g.Name)).Nodup)
    (hsize : testset.Tests.length < 2 ^ 31) (t : List Call) :
    ∃ (remote : Remote) (pid1 : String) (tr : List Call) (segs : List (List Call)),
      (ImportProblem env path pid t).2 = t ++ tr
        ∧ (pid = "" → remote = Remote.empty)
        ∧ (pid ≠ "" → pid1 = pid ∧ ∃ t0, fetchRemote env pid t = (.ok remote, t0))
        ∧ tr.filter Call.isTestsetStep = segs.flatten
        ∧ List.Forall₂ (GroupUploadFor env path pid1 testset remote) (groupsOf testset) segs := by
  unfold ImportProblem
  simp only [hstat, hopen]
  by_cases hpid : pid = ""
  · rw [if_pos hpid]
    obtain ⟨pid1, tr0, h0, hk0⟩ := succeeds_CreateProblem env hok t
    obtain ⟨tr, segs, h, hfil, hf⟩ := importInto_shape env path pid1 spec testset others hspec
      hok hread hverifier hinteractor hnames hsize Remote.empty (t ++ tr0)
    refine ⟨Remote.empty, pid1, tr0 ++ tr, segs, ?_, fun _ => rfl, fun h => absurd hpid h,
      ?_, hf⟩
    · simp only [bind_apply, h0]
      rcases hr : importInto env path pid1 spec Remote.empty (t ++ tr0) with ⟨r, t1⟩
      rw [hr] at h
      simp only at h
      cases r <;> simp [h]
    · rw [List.filter_append, filter_step_of_kinds _ (by decide) tr0 hk0]
      simpa using hfil
  · rw [if_neg hpid]
    obtain ⟨remote, tr0, h0, hk0⟩ := succeeds_fetchRemote env hok pid t
    obtain ⟨tr, segs, h, hfil, hf⟩ := importInto_shape env path pid spec testset others hspec
      hok hread hverifier hinteractor hnames hsize remote (t ++ tr0)
    refine ⟨remote, pid, tr0 ++ tr, segs, ?_, fun h => absurd h hpid, fun _ => ⟨rfl, _, h0⟩,
      ?_, hf⟩
    · simp only [bind_apply, h0]
      rcases hr : importInto env path pid spec remote (t ++ tr0) with ⟨r, t1⟩
      rw [hr] at h
      simp only at h
      cases r <;> simp [h]
    · rw [List.filter_append, filter_step_of_kinds _ (by decide) tr0 hk0]
      simpa using hfil

theorem positions_rank :
    ∀ (tests : List SpecificationTest) (gi g : Nat) (x : SpecificationTest),
      tests[g]? = some x →
      (((tests.enumFrom gi).filter (fun p => decide (p.2.Group = x.Group))).map (fun p => p.1))[
          ((tests.take g).filter (fun y => decide (y.Group = x.Group))).length]?
        = some (gi + g) := by
  intro tests
  induction tests with
  | nil => intro gi g x h; simp at h
  | cons test rest ih =>
    intro gi g x h
    cases g with
    | zero =>
      simp only [List.getElem?_cons_zero, Option.some.injEq] at h
      subst h
      simp
    | succ j =>
      simp only [List.getElem?_cons_succ] at h
      have := ih (gi + 1) j x h
      by_cases hg : test.Group = x.Group
      · simp only [List.enumFrom_cons, List.filter_cons, hg, decide_True, if_true,
          List.map_cons, List.take_succ_cons, List.length_cons, List.getElem?_cons_succ]
        rw [this]
        congr 1
        omega
      · simp only [List.enumFrom_cons, List.filter_cons, hg, decide_False, List.take_succ_cons]
        simp only [Bool.false_eq_true, if_false]
        rw [this]
        congr 1
        omega

theorem positionsOf_rank (tests : List SpecificationTest) (g : Nat) (x : SpecificationTest)
    (h : tests[g]? = some x) :
    (positionsOf x.Group tests)[
        ((tests.take g).filter (fun y => decide (y.Group = x.Group))).length]? = some g := by
  have := positions_rank tests 0 g x h
  rw [Nat.zero_add] at this
  exact this

theorem uploads_length (env : Env) (path : String) (testset : SpecificationTestset)
    (remote : Remote) (name : Nat) :
    ∀ (l : List (Nat × Nat)) (chunks : List (List Call)),
      List.Forall₂ (fun (p : Nat × Nat) chunk =>
          TestUploadFor env path testset (remote.tests.lookup (name, (p.1 : Int) + 1))
            p.2 ((p.1 : Int) + 1) chunk) l chunks →
      (chunks.flatten.filter Call.isTestMutation).length = l.length := by
  intro l chunks h
  induction h with
  | nil => rfl
  | cons hab _ ih =>
    obtain ⟨din, dans, op, e, _, _, hop⟩ := hab
    have hmut : op.isTestMutation = true := by
      unfold TestOpFor at hop
      split at hop
      · split at hop
        · obtain ⟨_, _, e2, _⟩ := hop; rw [e2]; rfl
        · obtain ⟨_, e2, _⟩ := hop; rw [e2]; rfl
      · obtain ⟨_, _, e2, _⟩ := hop; rw [e2]; rfl
    have hch : [Call.CreateObject din, Call.CreateObject dans, op].filter Call.isTestMutation
        = [op] := by
      have h1 : (Call.CreateObject din).isTestMutation = false := rfl
      have h2 : (Call.CreateObject dans).isTestMutation = false := rfl
      simp only [List.filter_cons, h1, h2, hmut, Bool.false_eq_true, if_false, if_true,
        List.filter_nil]
    rw [List.flatten_cons, List.filter_append, List.length_append, ih, e, hch]
    simp only [List.length_cons, List.length_nil]
    omega

theorem filter_mutation_of_step (tr : List Call) :
    tr.filter Call.isTestMutation = (tr.filter Call.isTestsetStep).filter Call.isTestMutation := by
  rw [List.filter_filter]
  apply List.filter_congr
  intro c _
  cases c <;> rfl

/-- C15: in a run of `ImportProblem` in which no remote call fails, every file
can be read and the checker and interactor are classified, with group names
pairwise distinct and fewer than 2^31 tests, the calls that concern testsets,
tests and test data are, group by group in the order of the groups walked, the
mutation of the testset of the group followed, for every test of the group in
order of appearance, by the upload of its input file, the upload of its answer
file and the mutation of the test.  For the test at place `i` (from 0) among
the tests of its group, which is at position `g` (from 0) of the flat list,
the two files are the ones the patterns name at `g + 1`, the test sent has the
index `i + 1`, and it is matched against the snapshot under the key of group
name and `i + 1`.  The local indices of a group are therefore 1 to the number
of its tests without gaps, and the test at position `g` of the flat list has
the local index one more than the number of earlier tests of its group. -/
theorem C15_local_and_global_index (env : Env) (path pid : String) (spec : Specification)
    (testset : SpecificationTestset) (others : List SpecificationTestset)
    (hstat : env.statNotExist path = none)
    (hopen : env.openSpec (env.join [path, "problem.xml"]) = .ok (.ok spec))
    (hspec : spec.Judging.Testsets = testset :: others)
    (hok : ∀ t c, ∃ r, env.remote t c = .ok r)
    (hread : ∀ p, ∃ d, env.readFile p = .ok d)
    (hverifier : ∃ v, MakeVerifier env path spec = .ok v)
    (hinteractor : spec.Interactor.Sources = [] ∨ ∃ i, MakeInteractor env path spec = .ok i)
    (hnames : ((groupsOf testset).map (fun g => g.Name)).Nodup)
    (hsize : testset.Tests.length < 2 ^ 31) (t : List Call) :
    (∀ (g : Nat) (x : SpecificationTest), testset.Tests[g]? = some x →
        (positionsOf x.Group testset.Tests)[
            ((testset.Tests.take g).filter (fun y => decide (y.Group = x.Group))).length]?
          = some g)
      ∧ ∃ (remote : Remote) (pid1 : String) (tr : List Call) (segs : List (List Call)),
        (ImportProblem env path pid t).2 = t ++ tr
          ∧ (pid = "" → remote = Remote.empty)
          ∧ (pid ≠ "" → pid1 = pid ∧ ∃ t0, fetchRemote env pid t = (.ok remote, t0))
          ∧ tr.filter Call.isTestsetStep = segs.flatten
          ∧ List.Forall₂ (GroupUploadFor env path pid1 testset remote) (groupsOf testset) segs :=
  ⟨fun g x h => positionsOf_rank testset.Tests g x h,
    ImportProblem_shape env path pid spec testset others hstat hopen hspec hok hread hverifier
      hinteractor hnames hsize t⟩

/-- Witness of C15: the package declares the groups 1 and 2 and lists four
tests whose groups alternate.  The tests of group 1 are at the positions 0 and
2: they are sent with the indices 1 and 2 and the files named at 1 and 3.  The
tests of group 2 are at the positions 1 and 3: they are sent with the indices
1 and 2 and the files named at 2 and 4. -/
theorem C15_local_and_global_index_witness :
    ((∀ (g : Nat) (x : SpecificationTest),
        [sampleTest 1, sampleTest 2, sampleTest 1, sampleTest 2][g]? = some x →
        (positionsOf x.Group [sampleTest 1, sampleTest 2, sampleTest 1, sampleTest 2])[
            (([sampleTest 1, sampleTest 2, sampleTest 1, sampleTest 2].take g).filter
              (fun y => decide (y.Group = x.Group))).length]?
          = some g)
      ∧ ∃ (remote : Remote) (pid1 : String) (tr : List Call) (segs : List (List Call)),
        (ImportProblem (sampleEnv interleavedSpec sampleRemote) "p" "" []).2 = [] ++ tr
          ∧ ("" = "" → remote = Remote.empty)
          ∧ ("" ≠ "" → pid1 = ""
              ∧ ∃ t0, fetchRemote (sampleEnv interleavedSpec sampleRemote) "" [] = (.ok remote, t0))
          ∧ tr.filter Call.isTestsetStep = segs.flatten
          ∧ List.Forall₂
              (GroupUploadFor (sampleEnv interleavedSpec sampleRemote) "p" pid1
                ⟨1000, 256, "tests/%02d", "tests/%02d.a",
                  [⟨"points", 1, 0, "each-test", []⟩, ⟨"points", 2, 0, "each-test", []⟩],
                  [sampleTest 1, sampleTest 2, sampleTest 1, sampleTest 2]⟩ remote)
              [⟨"points", 1, 0, "each-test", []⟩, ⟨"points", 2, 0, "each-test", []⟩] segs)
    ∧ positionsOf 1 [sampleTest 1, sampleTest 2, sampleTest 1, sampleTest 2] = [0, 2]
    ∧ positionsOf 2 [sampleTest 1, sampleTest 2, sampleTest 1, sampleTest 2] = [1, 3]
    ∧ (ImportProblem (sampleEnv interleavedSpec sampleRemote) "p" "" []).2.filter
          Call.isTestsetStep
        = [.CreateTestset "id0" ⟨"", 1, 1000, 256, 536870912, .EACH, .ICPC, []⟩,
           .CreateObject "data:p/tests/%02d1", .CreateObject "data:p/tests/%02d.a1",
           .CreateTest "id3" ⟨"", 1, false, 0, "id4", "id5"⟩,
           .CreateObject "data:p/tests/%02d3", .CreateObject "data:p/tests/%02d.a3",
           .CreateTest "id3" ⟨"", 2, false, 0, "id7", "id8"⟩,
           .CreateTestset "id0" ⟨"", 2, 1000, 256, 536870912, .EACH, .ICPC, []⟩,
           .CreateObject "data:p/tests/%02d2", .CreateObject "data:p/tests/%02d.a2",
           .CreateTest "id10" ⟨"", 1, false, 0, "id11", "id12"⟩,
           .CreateObject "data:p/tests/%02d4", .CreateObject "data:p/tests/%02d.a4",
           .CreateTest "id10" ⟨"", 2, false, 0, "id14", "id15"⟩] :=
  ⟨C15_local_and_global_index (sampleEnv interleavedSpec sampleRemote) "p" "" interleavedSpec
      ⟨1000, 256, "tests/%02d", "tests/%02d.a",
        [⟨"points", 1, 0, "each-test", []⟩, ⟨"points", 2, 0, "each-test", []⟩],
        [sampleTest 1, sampleTest 2, sampleTest 1, sampleTest 2]⟩ [] rfl rfl rfl
      (fun t c => by cases c <;> exact ⟨_, rfl⟩)
      (fun p => ⟨_, rfl⟩) ⟨_, rfl⟩ (Or.inl rfl) (by decide) (by decide) [],
    by decide, by decide, by decide⟩

theorem retry_ok_reply (env : Env) (c : Call) (n : Nat) (t : List Call) (r : Reply)
    (hr : env.remote t c = .ok r) : retry env c n t = (.ok r, t ++ [c]) := by
  cases n <;> simp [retry, call, hr]

theorem emitsP_importTest_testset (env : Env) (path : String) (testset : SpecificationTestset)
    (testIndex : GoMap (Nat × Int) Nat) (xts : Testset) (n : Nat)
    (tests : GoMap (Nat × Int) Test) (ti : Nat) (ts : SpecificationTest) :
    EmitsP (fun c => ∀ id payload, c = Call.CreateTest id payload → id = xts.Id)
      (importTest env path testset testIndex xts n tests ti ts) := by
  have hobj : ∀ c : Call, c.kind ∈ [CallKind.object] →
      ∀ id payload, c = Call.CreateTest id payload → id = xts.Id := by
    intro c hc id payload h
    rw [h] at hc
    simp [Call.kind] at hc
  unfold importTest
  simp only
  refine emitsP_bind (emitsP_of_emits (emits_MakeObject env _) hobj) (returns_true _)
    (fun input _ => ?_)
  refine emitsP_bind (emitsP_of_emits (emits_MakeObject env _) hobj) (returns_true _)
    (fun answer _ => ?_)
  split
  · refine emitsP_bind (emitsP_retry env _ _ RepeatNumber ?_) (returns_true _)
      (fun _ _ => emitsP_pure _ _)
    intro id payload h
    injection h with h1 _
    exact h1.symm
  · refine emitsP_bind (emitsP_retry env _ _ RepeatNumber ?_) (returns_true _)
      (fun _ _ => emitsP_pure _ _)
    intro id payload h
    cases h

theorem emitsP_importTests_testset (env : Env) (path : String)
    (testset : SpecificationTestset) (testIndex : GoMap (Nat × Int) Nat) (xts : Testset)
    (n : Nat) :
    ∀ (gts : List SpecificationTest) (ti0 : Nat) (tests : GoMap (Nat × Int) Test),
      EmitsP (fun c => ∀ id payload, c = Call.CreateTest id payload → id = xts.Id)
        (importTests env path testset testIndex xts n ti0 gts tests) := by
  intro gts
  induction gts with
  | nil => intro ti0 tests; exact emitsP_pure _ _
  | cons ts rest ih =>
    intro ti0 tests
    unfold importTests
    exact emitsP_bind (emitsP_importTest_testset env path testset testIndex xts n tests ti0 ts)
      (returns_true _) (fun m1 _ => ih (ti0 + 1) m1)

theorem importGroup_shape_id (env : Env) (hok : ∀ t c, ∃ r, env.remote t c = .ok r)
    (hread : ∀ p, ∃ d, env.readFile p = .ok d) (path pid : String)
    (testset : SpecificationTestset) (groupTests : GoMap Nat (List SpecificationTest))
    (testIndex : GoMap (Nat × Int) Nat) (testsets : GoMap Nat Testset)
    (tests : GoMap (Nat × Int) Test) (group : SpecificationGroup) (t : List Call)
    (hsize : ((groupTests.lookup group.Name).getD []).length < 2 ^ 31) :
    ∃ tests1 op chunks tsid,
      importGroup env path pid testset groupTests testIndex testsets tests group t
          = (.ok (testsets.erase group.Name, tests1), t ++ op :: chunks.flatten)
        ∧ TestsetOpFor pid testset group (testsets.lookup group.Name) op
        ∧ (((fillTestset testset group ((testsets.lookup group.Name).getD Testset.zero)).Id ≠ ""
              ∧ tsid
                = (fillTestset testset group ((testsets.lookup group.Name).getD Testset.zero)).Id)
            ∨ ((fillTestset testset group ((testsets.lookup group.Name).getD Testset.zero)).Id = ""
              ∧ ∃ out, env.remote t op = .ok out ∧ out.Id = tsid))
        ∧ List.Forall₂ (fun (ti : Nat) chunk =>
              TestUploadFor env path testset (tests.lookup (group.Name, (ti : Int) + 1))
                ((testIndex.lookup (group.Name, (ti : Int) + 1)).getD 0) ((ti : Int) + 1) chunk)
            (List.range' 0 ((groupTests.lookup group.Name).getD []).length) chunks
        ∧ (∀ id payload, Call.CreateTest id payload ∈ chunks.flatten → id = tsid) := by
  unfold importGroup
  simp only [bind_apply]
  by_cases hid : (fillTestset testset group ((testsets.lookup group.Name).getD Testset.zero)).Id ≠ ""
  · rw [if_pos hid]
    obtain ⟨r, hr⟩ := retry_ok env hok
      (.UpdateTestset (fillTestset testset group ((testsets.lookup group.Name).getD Testset.zero)).Id
        (fillTestset testset group ((testsets.lookup group.Name).getD Testset.zero)))
      RepeatNumber t
    obtain ⟨tests1, chunks, h2, hf2, _⟩ := importTests_shape env hok hread path testset
      testIndex (fillTestset testset group ((testsets.lookup group.Name).getD Testset.zero))
      ((groupTests.lookup group.Name).getD []).length ((groupTests.lookup group.Name).getD []) 0
      tests (t ++ [.UpdateTestset
        (fillTestset testset group ((testsets.lookup group.Name).getD Testset.zero)).Id
        (fillTestset testset group ((testsets.lookup group.Name).getD Testset.zero))])
      (by omega)
    obtain ⟨tr, e, k⟩ := emitsP_importTests_testset env path testset testIndex
      (fillTestset testset group ((testsets.lookup group.Name).getD Testset.zero))
      ((groupTests.lookup group.Name).getD []).length ((groupTests.lookup group.Name).getD []) 0
      tests (t ++ [.UpdateTestset
        (fillTestset testset group ((testsets.lookup group.Name).getD Testset.zero)).Id
        (fillTestset testset group ((testsets.lookup group.Name).getD Testset.zero))])
    rw [h2] at e
    have htr : chunks.flatten = tr := List.append_cancel_left e
    rw [fillTestset_Index] at hf2
    refine ⟨tests1, _, chunks,
      (fillTestset testset group ((testsets.lookup group.Name).getD Testset.zero)).Id, ?_,
      (by unfold TestsetOpFor; rw [if_pos hid]), Or.inl ⟨hid, rfl⟩, hf2,
      fun id payload hmem => k _ (htr ▸ hmem) id payload rfl⟩
    simp only [bind_apply, UpdateTestset]
    rw [hr]
    simp only [pure_apply]
    rw [h2]
    simp
  · rw [if_neg hid]
    obtain ⟨r, hr⟩ := hok t (.CreateTestset pid
      (fillTestset testset group ((testsets.lookup group.Name).getD Testset.zero)))
    have hretry := retry_ok_reply env _ RepeatNumber t r hr
    obtain ⟨tests1, chunks, h2, hf2, _⟩ := importTests_shape env hok hread path testset
      testIndex
      { fillTestset testset group ((testsets.lookup group.Name).getD Testset.zero) with Id := r.Id }
      ((groupTests.lookup group.Name).getD []).length ((groupTests.lookup group.Name).getD []) 0
      tests (t ++ [.CreateTestset pid
        (fillTestset testset group ((testsets.lookup group.Name).getD Testset.zero))])
      (by omega)
    obtain ⟨tr, e, k⟩ := emitsP_importTests_testset env path testset testIndex
      { fillTestset testset group ((testsets.lookup group.Name).getD Testset.zero) with Id := r.Id }
      ((groupTests.lookup group.Name).getD []).length ((groupTests.lookup group.Name).getD []) 0
      tests (t ++ [.CreateTestset pid
        (fillTestset testset group ((testsets.lookup group.Name).getD Testset.zero))])
    rw [h2] at e
    have htr : chunks.flatten = tr := List.append_cancel_left e
    simp only [fillTestset_Index] at hf2
    refine ⟨tests1, _, chunks, r.Id, ?_, (by unfold TestsetOpFor; rw [if_neg hid]),
      Or.inr ⟨not_not.1 hid, r, hr, rfl⟩, hf2,
      fun id payload hmem => k _ (htr ▸ hmem) id payload rfl⟩
    simp only [bind_apply, CreateTestset]
    rw [hretry]
    simp only [pure_apply]
    rw [h2]
    simp

theorem forall₂_right_mem {α β : Type} {R : α → β → Prop} :
    ∀ {l : List α} {u : List β}, List.Forall₂ R l u → ∀ b ∈ u, ∃ a ∈ l, R a b := by
  intro l u h
  induction h with
  | nil => intro b hb; simp at hb
  | cons hab _ ih =>
    intro b hb
    rcases List.mem_cons.1 hb with h | h
    · exact ⟨_, List.mem_cons_self _ _, h ▸ hab⟩
    · obtain ⟨a, ha, hr⟩ := ih b h
      exact ⟨a, List.mem_cons_of_mem _ ha, hr⟩

theorem importTestsets_implicit (env : Env) (path pid : String) (spec : Specification)
    (testset : SpecificationTestset) (others : List SpecificationTestset)
    (hspec : spec.Judging.Testsets = testset :: others)
    (hgroups : testset.Groups = [])
    (hok : ∀ t c, ∃ r, env.remote t c = .ok r)
    (hread : ∀ p, ∃ d, env.readFile p = .ok d)
    (hsize : testset.Tests.length < 2 ^ 31) (remote : Remote) (t : List Call) :
    ∃ testsets1 tests1 op chunks tsid,
      importTestsets env path pid spec remote.testsets remote.tests t
          = (.ok (testsets1, tests1), t ++ op :: chunks.flatten)
        ∧ (∃ payload, payload.Index = 0 ∧ payload.FeedbackPolicy = .ICPC_EXPANDED
            ∧ payload.ScoringMode = .EACH
            ∧ ((op = .UpdateTestset tsid payload
                  ∧ ∃ xts, remote.testsets.lookup 0 = some xts ∧ xts.Id = tsid)
              ∨ (op = .CreateTestset pid payload
                  ∧ ∃ out, env.remote t op = .ok out ∧ out.Id = tsid)))
        ∧ List.Forall₂
            (fun (p : Nat × Nat) chunk =>
              TestUploadFor env path testset (remote.tests.lookup (0, (p.1 : Int) + 1))
                p.2 ((p.1 : Int) + 1) chunk)
            (positionsOf 0 testset.Tests).enum chunks
        ∧ (∀ id payload, Call.CreateTest id payload ∈ chunks.flatten → id = tsid) := by
  have hg : groupsOf testset = [⟨"icpc-expanded", 0, 100, "each-test", []⟩] := by
    unfold groupsOf
    rw [hgroups]
    rfl
  obtain ⟨tests1, op, chunks, tsid, h, hop, hid, hin, hcr⟩ :=
    importGroup_shape_id env hok hread path pid testset (readTestsByGroup 0 testset.Tests ∅ ∅).1
      (readTestsByGroup 0 testset.Tests ∅ ∅).2 remote.testsets remote.tests
      ⟨"icpc-expanded", 0, 100, "each-test", []⟩ t
      (lt_of_le_of_lt (groupTests_length_le testset.Tests 0) hsize)
  dsimp only at h hop hid hin
  refine ⟨remote.testsets.erase 0, tests1, op, chunks, tsid, ?_, ?_, ?_, hcr⟩
  · simp only [importTestsets, hspec, hg, importGroups, bind_apply, h, pure_apply]
  · unfold TestsetOpFor at hop
    rcases hid with ⟨hne, htsid⟩ | ⟨heq, out, hout, hout2⟩
    · rw [if_pos hne] at hop
      refine ⟨(fillTestset testset ⟨"icpc-expanded", 0, 100, "each-test", []⟩
        ((remote.testsets.lookup 0).getD Testset.zero)),
        rfl, by simp [fillTestset], by simp [fillTestset], Or.inl ⟨?_, ?_⟩⟩
      · rw [htsid]; exact hop
      · cases hl : remote.testsets.lookup 0 with
        | none =>
          rw [hl] at hne
          exact absurd rfl hne
        | some xts =>
          refine ⟨xts, rfl, ?_⟩
          rw [htsid, hl]
          rfl
    · rw [if_neg (not_not.2 heq)] at hop
      exact ⟨(fillTestset testset ⟨"icpc-expanded", 0, 100, "each-test", []⟩
        ((remote.testsets.lookup 0).getD Testset.zero)),
        rfl, by simp [fillTestset], by simp [fillTestset], Or.inr ⟨hop, out, hout, hout2⟩⟩
  · rw [← positionsOf_length, ← List.enumFrom_map_fst 0 (positionsOf 0 testset.Tests),
      List.forall₂_map_left_iff] at hin
    refine forall₂_imp_mem hin (fun p hp chunk hc => ?_)
    obtain ⟨i, g⟩ := p
    have hgi : (positionsOf 0 testset.Tests)[i]? = some g :=
      List.mk_mem_enum_iff_getElem?.1 hp
    simp only at hc ⊢
    rw [testIndex_positionsOf 0 testset.Tests i g hgi] at hc
    exact hc

theorem importInto_implicit (env : Env) (path pid : String) (spec : Specification)
    (testset : SpecificationTestset) (others : List SpecificationTestset)
    (hspec : spec.Judging.Testsets = testset :: others)
    (hgroups : testset.Groups = [])
    (hok : ∀ t c, ∃ r, env.remote t c = .ok r)
    (hread : ∀ p, ∃ d, env.readFile p = .ok d)
    (hverifier : ∃ v, MakeVerifier env path spec = .ok v)
    (hinteractor : spec.Interactor.Sources = [] ∨ ∃ i, MakeInteractor env path spec = .ok i)
    (hsize : testset.Tests.length < 2 ^ 31) (remote : Remote) (t : List Call) :
    ∃ pre op chunks post tsid,
      (importInto env path pid spec remote t).2 = t ++ (pre ++ op :: chunks.flatten ++ post)
        ∧ pre.filter Call.isTestsetStep = [] ∧ post.filter Call.isTestsetStep = []
        ∧ (∃ payload, payload.Index = 0 ∧ payload.FeedbackPolicy = .ICPC_EXPANDED
            ∧ payload.ScoringMode = .EACH
            ∧ ((op = .UpdateTestset tsid payload
                  ∧ ∃ xts, remote.testsets.lookup 0 = some xts ∧ xts.Id = tsid)
              ∨ (op = .CreateTestset pid payload
                  ∧ ∃ out, env.remote (t ++ pre) op = .ok out ∧ out.Id = tsid)))
        ∧ List.Forall₂
            (fun (p : Nat × Nat) chunk =>
              TestUploadFor env path testset (remote.tests.lookup (0, (p.1 : Int) + 1))
                p.2 ((p.1 : Int) + 1) chunk)
            (positionsOf 0 testset.Tests).enum chunks
        ∧ (∀ id payload, Call.CreateTest id payload ∈ chunks.flatten → id = tsid) := by
  obtain ⟨_, tr1, h1, hk1⟩ := succeeds_importTemplates env hread path pid spec t
  obtain ⟨_, tr2, h2, hk2⟩ := succeeds_importVerifier env hok path pid spec hverifier (t ++ tr1)
  obtain ⟨_, tr3, h3, hk3⟩ :=
    succeeds_importInteractor env hok path pid spec hinteractor (t ++ tr1 ++ tr2)
  obtain ⟨testsets1, tests1, op, chunks, tsid, h4, hop, hin, hcr⟩ :=
    importTestsets_implicit env path pid spec testset others hspec hgroups hok hread hsize
      remote (t ++ tr1 ++ tr2 ++ tr3)
  obtain ⟨tr5, h5, hk5⟩ := emits_importRest env path pid spec remote.statements remote.solutions
    testsets1 tests1 (t ++ tr1 ++ tr2 ++ tr3 ++ op :: chunks.flatten)
  refine ⟨tr1 ++ tr2 ++ tr3, op, chunks, tr5, tsid, ?_, ?_, ?_, ?_, hin, hcr⟩
  · simp only [importInto, bind_apply, h1, h2, h3, h4]
    rw [h5]
    simp only [List.append_assoc]
  · simp only [List.filter_append]
    rw [filter_step_of_kinds _ (by decide) tr1 hk1, filter_step_of_kinds _ (by decide) tr2 hk2,
      filter_step_of_kinds _ (by decide) tr3 hk3]
    rfl
  · exact filter_step_of_kinds _ (by decide) tr5 hk5
  · simp only [List.append_assoc] at hop ⊢
    exact hop

/-- C16 (counterexample): the testset `strayGroupTestset` declares no groups
and lists three tests, the second of which carries the group attribute 1.  The
run of `ImportProblem` succeeds and sends the implicit testset of index 0 with
two tests only, those at the positions 0 and 2 of the flat list; the test with
the group attribute 1 yields no create-or-update. -/
theorem C16_counterexample :
    strayGroupTestset.Groups = []
      ∧ strayGroupTestset.Tests.length = 3
      ∧ (ImportProblem (sampleEnv strayGroupSpec sampleRemote) "p" "" []).1 = .ok "id0"
      ∧ (ImportProblem (sampleEnv strayGroupSpec sampleRemote) "p" "" []).2.filter
            Call.isTestsetStep
          = [.CreateTestset "id0" ⟨"", 0, 1000, 256, 536870912, .EACH, .ICPC_EXPANDED, []⟩,
             .CreateObject "data:p/tests/%02d1", .CreateObject "data:p/tests/%02d.a1",
             .CreateTest "id3" ⟨"", 1, false, 50, "id4", "id5"⟩,
             .CreateObject "data:p/tests/%02d3", .CreateObject "data:p/tests/%02d.a3",
             .CreateTest "id3" ⟨"", 2, false, 50, "id7", "id8"⟩]
      ∧ ((ImportProblem (sampleEnv strayGroupSpec sampleRemote) "p" "" []).2.filter
            Call.isTestMutation).length = 2 :=
  ⟨rfl, rfl, by decide, by decide, by decide⟩

/-- C16 (amended): when the first testset declares no groups, a run of
`ImportProblem` in which the package opens, no remote call fails, every file
can be read, the checker and interactor are classified and the testset has
fewer than 2^31 tests sends exactly one testset, created or updated with index
0, feedback policy `ICPC_EXPANDED` and scoring mode `EACH`: an update goes to
the testset the snapshot holds under index 0, under its id.  That testset
covers the tests whose group attribute is 0: each of them, in order of
appearance, yields the upload of its two files and one test create-or-update
with its local index, and a test with another group attribute yields none.  A
test that is created is created in the implicit testset (under the id of the
testset updated, or the id the remote returned for the testset created); a
test that is updated is the one the snapshot holds under testset index 0 and
the local index.  The number of test mutations is the number of tests of
group 0. -/
theorem C16_implicit_testset_covers_group_zero (env : Env) (path pid : String)
    (spec : Specification) (testset : SpecificationTestset)
    (others : List SpecificationTestset)
    (hstat : env.statNotExist path = none)
    (hopen : env.openSpec (env.join [path, "problem.xml"]) = .ok (.ok spec))
    (hspec : spec.Judging.Testsets = testset :: others)
    (hgroups : testset.Groups = [])
    (hok : ∀ t c, ∃ r, env.remote t c = .ok r)
    (hread : ∀ p, ∃ d, env.readFile p = .ok d)
    (hverifier : ∃ v, MakeVerifier env path spec = .ok v)
    (hinteractor : spec.Interactor.Sources = [] ∨ ∃ i, MakeInteractor env path spec = .ok i)
    (hsize : testset.Tests.length < 2 ^ 31) (t : List Call) :
    ∃ (remote : Remote) (pid1 : String) (tr pre : List Call) (op : Call)
      (chunks : List (List Call)) (post : List Call) (tsid : String),
      (ImportProblem env path pid t).2 = t ++ tr
        ∧ (pid = "" → remote = Remote.empty)
        ∧ (pid ≠ "" → pid1 = pid ∧ ∃ t0, fetchRemote env pid t = (.ok remote, t0))
        ∧ tr = pre ++ op :: chunks.flatten ++ post
        ∧ pre.filter Call.isTestsetStep = [] ∧ post.filter Call.isTestsetStep = []
        ∧ tr.filter Call.isTestsetStep = op :: chunks.flatten
        ∧ (∃ payload, payload.Index = 0 ∧ payload.FeedbackPolicy = .ICPC_EXPANDED
            ∧ payload.ScoringMode = .EACH
            ∧ ((op = .UpdateTestset tsid payload
                  ∧ ∃ xts, remote.testsets.lookup 0 = some xts ∧ xts.Id = tsid)
              ∨ (op = .CreateTestset pid1 payload
                  ∧ ∃ out, env.remote (t ++ pre) op = .ok out ∧ out.Id = tsid)))
        ∧ List.Forall₂
            (fun (p : Nat × Nat) chunk =>
              TestUploadFor env path testset (remote.tests.lookup (0, (p.1 : Int) + 1))
                p.2 ((p.1 : Int) + 1) chunk)
            (positionsOf 0 testset.Tests).enum chunks
        ∧ (∀ id payload, Call.CreateTest id payload ∈ chunks.flatten → id = tsid)
        ∧ (tr.filter Call.isTestMutation).length
            = (testset.Tests.filter (fun x => decide (x.Group = 0))).length := by
  have hmain : ∀ (remote : Remote) (pid1 : String) (tr0 : List Call),
      tr0.filter Call.isTestsetStep = [] →
      ∃ (tr pre : List Call) (op : Call) (chunks : List (List Call)) (post : List Call)
        (tsid : String),
        (importInto env path pid1 spec remote (t ++ tr0)).2 = t ++ tr
          ∧ tr = pre ++ op :: chunks.flatten ++ post
          ∧ pre.filter Call.isTestsetStep = [] ∧ post.filter Call.isTestsetStep = []
          ∧ tr.filter Call.isTestsetStep = op :: chunks.flatten
          ∧ (∃ payload, payload.Index = 0 ∧ payload.FeedbackPolicy = .ICPC_EXPANDED
              ∧ payload.ScoringMode = .EACH
              ∧ ((op = .UpdateTestset tsid payload
                    ∧ ∃ xts, remote.testsets.lookup 0 = some xts ∧ xts.Id = tsid)
                ∨ (op = .CreateTestset pid1 payload
                    ∧ ∃ out, env.remote (t ++ pre) op = .ok out ∧ out.Id = tsid)))
          ∧ List.Forall₂
              (fun (p : Nat × Nat) chunk =>
                TestUploadFor env path testset (remote.tests.lookup (0, (p.1 : Int) + 1))
                  p.2 ((p.1 : Int) + 1) chunk)
              (positionsOf 0 testset.Tests).enum chunks
          ∧ (∀ id payload, Call.CreateTest id payload ∈ chunks.flatten → id = tsid)
          ∧ (tr.filter Call.isTestMutation).length
              = (testset.Tests.filter (fun x => decide (x.Group = 0))).length := by
    intro remote pid1 tr0 h0
    obtain ⟨pre, op, chunks, post, tsid, h, hpre, hpost, hop, hin, hcr⟩ :=
      importInto_implicit env path pid1 spec testset others hspec hgroups hok hread hverifier
        hinteractor hsize remote (t ++ tr0)
    have hopstep : op.isTestsetStep = true := by
      obtain ⟨payload, _, _, _, hcases⟩ := hop
      rcases hcases with ⟨h, _⟩ | ⟨h, _⟩ <;> rw [h] <;> rfl
    have hnot : op.isTestMutation = false := by
      obtain ⟨payload, _, _, _, hcases⟩ := hop
      rcases hcases with ⟨h, _⟩ | ⟨h, _⟩ <;> rw [h] <;> rfl
    have hchunks : chunks.flatten.filter Call.isTestsetStep = chunks.flatten := by
      have hsub : ∀ c ∈ chunks.flatten, c.isTestsetStep = true := by
        intro c hc
        obtain ⟨chunk, hchunk, hcc⟩ := List.mem_flatten.1 hc
        obtain ⟨p, _, hup⟩ := forall₂_right_mem hin chunk hchunk
        obtain ⟨din, dans, top, e, _, _, htop⟩ := hup
        rw [e] at hcc
        simp only [List.mem_cons, List.mem_singleton, List.not_mem_nil, or_false] at hcc
        rcases hcc with h | h | h
        · rw [h]; rfl
        · rw [h]; rfl
        · rw [h]
          unfold TestOpFor at htop
          split at htop
          · split at htop
            · obtain ⟨_, _, e2, _⟩ := htop; rw [e2]; rfl
            · obtain ⟨_, e2, _⟩ := htop; rw [e2]; rfl
          · obtain ⟨_, _, e2, _⟩ := htop; rw [e2]; rfl
      rw [List.filter_eq_self]
      exact hsub
    have hfil : (tr0 ++ (pre ++ op :: chunks.flatten ++ post)).filter Call.isTestsetStep
        = op :: chunks.flatten := by
      simp only [List.filter_append, List.filter_cons, h0, hpre, hpost, hopstep, if_true,
        hchunks, List.nil_append, List.append_nil]
    refine ⟨tr0 ++ (pre ++ op :: chunks.flatten ++ post), tr0 ++ pre, op, chunks, post, tsid,
      ?_, by simp only [List.append_assoc], ?_, hpost, hfil, ?_, hin, hcr, ?_⟩
    · rw [h]; simp only [List.append_assoc]
    · rw [List.filter_append, h0, hpre]; rfl
    · obtain ⟨payload, p1, p2, p3, hcases⟩ := hop
      refine ⟨payload, p1, p2, p3, ?_⟩
      rcases hcases with hupd | ⟨hc, out, hout, hid⟩
      · exact Or.inl hupd
      · refine Or.inr ⟨hc, out, ?_, hid⟩
        rw [← List.append_assoc]
        exact hout
    · rw [filter_mutation_of_step, hfil, List.filter_cons, hnot]
      simp only [Bool.false_eq_true, if_false]
      rw [uploads_length env path testset remote 0 _ _ hin, List.enum_length]
      exact positions_length 0 testset.Tests 0
  unfold ImportProblem
  simp only [hstat, hopen]
  by_cases hpid : pid = ""
  · rw [if_pos hpid]
    obtain ⟨pid1, tr0, h0, hk0⟩ := succeeds_CreateProblem env hok t
    obtain ⟨tr, pre, op, chunks, post, tsid, h, rest⟩ :=
      hmain Remote.empty pid1 tr0 (filter_step_of_kinds _ (by decide) tr0 hk0)
    refine ⟨Remote.empty, pid1, tr, pre, op, chunks, post, tsid, ?_, fun _ => rfl,
      fun h => absurd hpid h, rest⟩
    simp only [bind_apply, h0]
    rcases hr : importInto env path pid1 spec Remote.empty (t ++ tr0) with ⟨r, t1⟩
    rw [hr] at h
    simp only at h
    cases r <;> simp [h]
  · rw [if_neg hpid]
    obtain ⟨remote, tr0, h0, hk0⟩ := succeeds_fetchRemote env hok pid t
    obtain ⟨tr, pre, op, chunks, post, tsid, h, rest⟩ :=
      hmain remote pid tr0 (filter_step_of_kinds _ (by decide) tr0 hk0)
    refine ⟨remote, pid, tr, pre, op, chunks, post, tsid, ?_, fun h => absurd h hpid,
      fun _ => ⟨rfl, _, h0⟩, rest⟩
    simp only [bind_apply, h0]
    rcases hr : importInto env path pid spec remote (t ++ tr0) with ⟨r, t1⟩
    rw [hr] at h
    simp only at h
    cases r <;> simp [h]

/-- Witness of C16: the package `sampleSpec` declares no groups and lists
three tests of group 0; the remote holds the testset `TS0` of index 0 with the
test `T2` of index 2.  The run updates that testset with the policy
`ICPC_EXPANDED`, creates the tests of index 1 and 3 in `TS0` and updates the
test `T2`. -/
theorem C16_implicit_testset_covers_group_zero_witness :
    (∃ (remote : Remote) (pid1 : String) (tr pre : List Call) (op : Call)
      (chunks : List (List Call)) (post : List Call) (tsid : String),
      (ImportProblem (sampleEnv sampleSpec sampleRemote) "p" "P1" []).2 = [] ++ tr
        ∧ ("P1" = "" → remote = Remote.empty)
        ∧ ("P1" ≠ "" → pid1 = "P1"
            ∧ ∃ t0, fetchRemote (sampleEnv sampleSpec sampleRemote) "P1" [] = (.ok remote, t0))
        ∧ tr = pre ++ op :: chunks.flatten ++ post
        ∧ pre.filter Call.isTestsetStep = [] ∧ post.filter Call.isTestsetStep = []
        ∧ tr.filter Call.isTestsetStep = op :: chunks.flatten
        ∧ (∃ payload, payload.Index = 0 ∧ payload.FeedbackPolicy = .ICPC_EXPANDED
            ∧ payload.ScoringMode = .EACH
            ∧ ((op = .UpdateTestset tsid payload
                  ∧ ∃ xts, remote.testsets.lookup 0 = some xts ∧ xts.Id = tsid)
              ∨ (op = .CreateTestset pid1 payload
                  ∧ ∃ out, (sampleEnv sampleSpec sampleRemote).remote ([] ++ pre) op = .ok out
                    ∧ out.Id = tsid)))
        ∧ List.Forall₂
            (fun (p : Nat × Nat) chunk =>
              TestUploadFor (sampleEnv sampleSpec sampleRemote) "p" sampleTestset
                (remote.tests.lookup (0, (p.1 : Int) + 1)) p.2 ((p.1 : Int) + 1) chunk)
            (positionsOf 0 sampleTestset.Tests).enum chunks
        ∧ (∀ id payload, Call.CreateTest id payload ∈ chunks.flatten → id = tsid)
        ∧ (tr.filter Call.isTestMutation).length
            = (sampleTestset.Tests.filter (fun x => decide (x.Group = 0))).length)
    ∧ (sampleTestset.Tests.filter (fun x => decide (x.Group = 0))).length = 3
    ∧ (ImportProblem (sampleEnv sampleSpec sampleRemote) "p" "P1" []).2.filter
          Call.isTestsetStep
        = [.UpdateTestset "TS0" ⟨"TS0", 0, 1000, 256, 536870912, .EACH, .ICPC_EXPANDED, []⟩,
           .CreateObject "data:p/tests/%02d1", .CreateObject "data:p/tests/%02d.a1",
           .CreateTest "TS0" ⟨"", 1, false, 33, "id7", "id8"⟩,
           .CreateObject "data:p/tests/%02d2", .CreateObject "data:p/tests/%02d.a2",
           .UpdateTest "T2" ⟨"T2", 2, false, 33, "id10", "id11"⟩,
           .CreateObject "data:p/tests/%02d3", .CreateObject "data:p/tests/%02d.a3",
           .CreateTest "TS0" ⟨"", 3, false, 34, "id13", "id14"⟩] :=
  ⟨C16_implicit_testset_covers_group_zero (sampleEnv sampleSpec sampleRemote) "p" "P1"
      sampleSpec sampleTestset [] rfl rfl rfl rfl (fun t c => by cases c <;> exact ⟨_, rfl⟩)
      (fun p => ⟨_, rfl⟩) ⟨_, rfl⟩ (Or.inl rfl) (by decide) [],
    by decide, by decide⟩

end Polyglot
